import Mathlib

/-!
# alert-discovery: resource store and alert-rule synthesizer

A shallow embedding of `utils.go` (the store: `Update`, `fetchID`, `CAS`,
`updateStoreUnsafe`, `Delete`, `GenerateAlertRule`), of the merge step and the
delete handler of `controller.go`, and of the parts of the Kubernetes API
objects and Go standard library that those functions use.

Conventions of the embedding:
* a Go `map[string]V` is a `GoMap V`: a key-unique association list.  The order
  of its entries stands for the (unspecified) order in which Go ranges over it;
* the store's mutex is not modelled: every method is one atomic state
  transformer, taking the table and returning the new table with its result;
* pointers to `capacity` and `resource.Quantity` are modelled by value: nothing
  outside the store keeps a pointer to a stored record;
* `int64` readings of a quantity that overflow are parameters (`Int64Readings`);
* `float64` and `float32` values are modelled exactly, as sign, integer
  significand and binary exponent, with rounding to nearest, ties to even;
* the `Data` map of a configmap may be nil, and assigning into it then panics.
-/

namespace AlertDiscovery

/-! ## Go maps -/

/-- Value stored under key `k` in an association list (first match). -/
def lookupL {β : Type} (k : String) : List (String × β) → Option β
  | [] => none
  | (k', v) :: l => if k' = k then some v else lookupL k l

/-- Go `m[k] = v` on an association list: overwrite in place, or add a new entry. -/
def setL {β : Type} (k : String) (v : β) : List (String × β) → List (String × β)
  | [] => [(k, v)]
  | (k', v') :: l => if k' = k then (k, v) :: l else (k', v') :: setL k v l

/-- Go `delete(m, k)` on an association list. -/
def eraseL {β : Type} (k : String) : List (String × β) → List (String × β)
  | [] => []
  | (k', v') :: l => if k' = k then l else (k', v') :: eraseL k l

theorem keys_setL_mem {β : Type} (k : String) (v : β) (l : List (String × β)) (x : String) :
    x ∈ (setL k v l).map Prod.fst ↔ x = k ∨ x ∈ l.map Prod.fst := by
  induction l with
  | nil => simp [setL]
  | cons hd tl ih =>
    obtain ⟨k', v'⟩ := hd
    by_cases h : k' = k
    · subst h
      simp [setL]
    · have ih' := ih
      simp only [List.mem_map, Prod.exists, exists_and_right, exists_eq_right] at ih'
      simp only [setL, h, if_false, List.map_cons, List.mem_cons, List.mem_map, Prod.exists,
        exists_and_right, exists_eq_right, ih']
      tauto

theorem nodup_setL {β : Type} (k : String) (v : β) (l : List (String × β))
    (h : (l.map Prod.fst).Nodup) : ((setL k v l).map Prod.fst).Nodup := by
  induction l with
  | nil => simp [setL]
  | cons hd tl ih =>
    obtain ⟨k', v'⟩ := hd
    simp only [List.map_cons, List.nodup_cons] at h
    by_cases hk : k' = k
    · subst hk
      simpa [setL] using h
    · simp only [setL, hk, if_false, List.map_cons, List.nodup_cons]
      refine ⟨?_, ih h.2⟩
      intro hmem
      rcases (keys_setL_mem k v tl k').1 hmem with h1 | h1
      · exact hk h1
      · exact h.1 h1

theorem keys_eraseL_sub {β : Type} (k : String) (l : List (String × β)) (x : String)
    (hx : x ∈ (eraseL k l).map Prod.fst) : x ∈ l.map Prod.fst := by
  induction l with
  | nil => simp [eraseL] at hx
  | cons hd tl ih =>
    obtain ⟨k', v'⟩ := hd
    by_cases h : k' = k
    · simp only [eraseL, h, if_true] at hx
      simp only [List.map_cons, List.mem_cons]
      exact Or.inr hx
    · simp only [eraseL, h, if_false, List.map_cons, List.mem_cons] at hx
      simp only [List.map_cons, List.mem_cons]
      rcases hx with h1 | h1
      · exact Or.inl h1
      · exact Or.inr (ih h1)

theorem nodup_eraseL {β : Type} (k : String) (l : List (String × β))
    (h : (l.map Prod.fst).Nodup) : ((eraseL k l).map Prod.fst).Nodup := by
  induction l with
  | nil => simp [eraseL]
  | cons hd tl ih =>
    obtain ⟨k', v'⟩ := hd
    simp only [List.map_cons, List.nodup_cons] at h
    by_cases hk : k' = k
    · simpa [eraseL, hk] using h.2
    · simp only [eraseL, hk, if_false, List.map_cons, List.nodup_cons]
      exact ⟨fun hmem => h.1 (keys_eraseL_sub k tl k' hmem), ih h.2⟩

/-- A Go `map[string]β`: an association list without repeated keys. -/
structure GoMap (β : Type) where
  entries : List (String × β)
  nodup : (entries.map Prod.fst).Nodup

namespace GoMap

variable {β : Type}

/-- The empty map (`map[string]β{}`; a nil map reads the same way). -/
def empty : GoMap β := ⟨[], List.nodup_nil⟩

/-- Go `v, ok := m[k]`. -/
def lookup (m : GoMap β) (k : String) : Option β := lookupL k m.entries

/-- Go `m[k] = v`. -/
def set (m : GoMap β) (k : String) (v : β) : GoMap β :=
  ⟨setL k v m.entries, nodup_setL k v m.entries m.nodup⟩

/-- Go `delete(m, k)`. -/
def erase (m : GoMap β) (k : String) : GoMap β :=
  ⟨eraseL k m.entries, nodup_eraseL k m.entries m.nodup⟩

/-- The keys of the map. -/
def keys (m : GoMap β) : List String := m.entries.map Prod.fst

end GoMap

/-! ## The API objects read by the store -/

/-- The `resource.Quantity` of the Kubernetes API: a fixed-point decimal number.
The store reads a quantity only through `Cmp`, `IsZero`, `MilliValue` and
`Value`.  The first two depend on its numeric value alone, and so do the last
two as long as the number read fits in an `int64` (see `Int64Readings` for the
other case); the API rounds every quantity it parses up to a whole number of
nano-units.  A quantity is therefore modelled by its value in nano-units
(`500m` is `500000000`). -/
structure Quantity where
  nano : Int
  deriving DecidableEq

namespace Quantity

/-- Numeric comparison `q.Cmp(y)`: `-1`, `0` or `1`. -/
def Cmp (q y : Quantity) : Int :=
  if q.nano < y.nano then -1 else if q.nano = y.nano then 0 else 1

/-- Zero test `q.IsZero()`. -/
def IsZero (q : Quantity) : Bool := decide (q.nano = 0)

/-- Quotient `n / d` rounded away from zero, the rounding (`inf.RoundUp`) that
`Quantity` uses when it drops digits. -/
def roundUpDiv (n : Int) (d : Nat) : Int :=
  if n.natAbs % d = 0 then n / d
  else if 0 ≤ n then n / d + 1 else -((-n) / d) - 1

/-- Whether `v` lies in the range of an `int64`. -/
def fitsInt64 (v : Int) : Bool :=
  decide (-9223372036854775808 ≤ v) && decide (v ≤ 9223372036854775807)

/-- The `int64` holding the low 64 bits of `v` (two's complement). -/
def wrapInt64 (v : Int) : Int :=
  (v + 9223372036854775808) % 18446744073709551616 - 9223372036854775808

end Quantity

/-- The answers of the quantity library where a reading does not fit in an
`int64`.  `MilliValue()` and `Value()` return an `int64`: the number read,
whenever it fits.  Where it does not fit, the answer depends on the form in
which the library holds the quantity: a quantity held as a scaled `int64`
reads as `0` (a memory limit of `10E` has the value `0`), one held as a big
decimal reads as the low 64 bits of the number (a CPU limit of
`9223372036854775807` has the milli-value `-1000`).  The library is not among
the files at hand and the form is not part of the numeric value, so the
answers in that case are left open: they are parameters of the model, one
integer for each quantity and reading (reduced to an `int64` by the readings
below), and the theorems on rendering are stated for every choice of them. -/
structure Int64Readings where
  milliOverflow : Quantity → Int
  valueOverflow : Quantity → Int

namespace Quantity

/-- Milli-units `q.MilliValue()`, an `int64`: the milli-value rounded up when it
fits, the library's answer on overflow otherwise. -/
def MilliValue (lib : Int64Readings) (q : Quantity) : Int :=
  let v := roundUpDiv q.nano 1000000
  if fitsInt64 v then v else wrapInt64 (lib.milliOverflow q)

/-- Whole units `q.Value()`, an `int64`: the value rounded up when it fits, the
library's answer on overflow otherwise. -/
def Value (lib : Int64Readings) (q : Quantity) : Int :=
  let v := roundUpDiv q.nano 1000000000
  if fitsInt64 v then v else wrapInt64 (lib.valueOverflow q)

end Quantity

/-- The `api.ResourceList` of a container, `map[ResourceName]resource.Quantity`,
restricted to the two resource names the store reads. -/
structure ResourceList where
  cpu : Option Quantity
  memory : Option Quantity
  deriving DecidableEq

/-- Library accessor `ResourceList.Cpu()`: the CPU entry, or a zero quantity when absent. -/
def ResourceList.Cpu (self : ResourceList) : Quantity :=
  match self.cpu with
  | some v => v
  | none => ⟨0⟩

/-- Library accessor `ResourceList.Memory()`: the memory entry, or a zero quantity when absent. -/
def ResourceList.Memory (self : ResourceList) : Quantity :=
  match self.memory with
  | some v => v
  | none => ⟨0⟩

/-- The `api.ResourceRequirements` of a container (only `Limits` is read). -/
structure ResourceRequirements where
  Limits : ResourceList
  deriving DecidableEq

/-- The `api.Container` fields read by the store. -/
structure Container where
  Name : String
  Resources : ResourceRequirements
  deriving DecidableEq

/-- The `api.ContainerStatus` fields read by the store. -/
structure ContainerStatus where
  Name : String
  ContainerID : String
  deriving DecidableEq

/-- The `api.PodSpec` fields read by the store. -/
structure PodSpec where
  Containers : List Container
  deriving DecidableEq

/-- The `api.PodStatus` fields read by the store. -/
structure PodStatus where
  ContainerStatuses : List ContainerStatus
  deriving DecidableEq

/-- The `api.Pod` snapshot handed to the store. -/
structure Pod where
  Namespace : String
  Name : String
  Spec : PodSpec
  Status : PodStatus
  deriving DecidableEq

/-! ## The store -/

/-- The `capacity` record of one container. -/
structure capacity where
  CPU : Quantity
  Memory : Quantity
  ID : String
  deriving DecidableEq

/-- The `containerStore` type: `map[string]*capacity`. -/
abbrev containerStore := GoMap capacity

/-- The `podStore` type: `map[string]containerStore`. -/
abbrev podStore := GoMap containerStore

/-- The table key `fmt.Sprintf("%s/%s", pod.Namespace, pod.Name)`. -/
def podKey (pod : Pod) : String := pod.Namespace ++ "/" ++ pod.Name

/-- Go `strings.Split(s, "//")` on the characters of `s`; `cur` holds the
characters of the piece being read, last one first.  Separators are matched
left to right and do not overlap. -/
def splitSlashSlash : List Char → List Char → List (List Char)
  | [], cur => [cur.reverse]
  | [c], cur => [(c :: cur).reverse]
  | c :: d :: rest, cur =>
    if c = '/' ∧ d = '/' then cur.reverse :: splitSlashSlash rest []
    else splitSlashSlash (d :: rest) (c :: cur)

/-- The call `strings.Split(s, "//")`. -/
def Split (s : String) : List String := (splitSlashSlash s.data []).map String.mk

/-- The last piece `splited[len(splited)-1]` of `strings.Split(s, "//")`. -/
def lastSegment (s : String) : String := (Split s).getLastD ""

/-- The loop of `fetchID` over `pod.Status.ContainerStatuses`: the first status
entry with the name decides, unless its handle splits into no piece at all. -/
def fetchIDLoop (name : String) : List ContainerStatus → String
  | [] => ""
  | status :: rest =>
    if status.Name = name then
      let splited := Split status.ContainerID
      if splited.length > 0 then "/docker/" ++ lastSegment status.ContainerID
      else fetchIDLoop name rest
    else fetchIDLoop name rest

/-- The function `fetchID(pod, name)`. -/
def fetchID (pod : Pod) (name : String) : String :=
  fetchIDLoop name pod.Status.ContainerStatuses

/-- The method `store.CAS`: the record after the three compare-and-replace steps,
and the `changed` flag. -/
def CAS (cap : capacity) (cpu memory : Quantity) (id : String) : capacity × Bool :=
  let changed := false
  let (cap, changed) :=
    if cap.ID ≠ id then ({ cap with ID := id }, true) else (cap, changed)
  let (cap, changed) :=
    if cap.CPU.Cmp cpu ≠ 0 then ({ cap with CPU := cpu }, true) else (cap, changed)
  let (cap, changed) :=
    if cap.Memory.Cmp memory ≠ 0 then ({ cap with Memory := memory }, true) else (cap, changed)
  (cap, changed)

/-- The method `store.updateStoreUnsafe`: the table afterwards and the result.
In the second and third branch `entry` is the map stored under `key` itself
(Go maps are references) and the record is updated through its pointer, so the
changes are written back under `key`. -/
def updateStoreUnsafe (p : podStore) (id key name : String) (cpu memory : Quantity) :
    podStore × Bool :=
  match p.lookup key with
  | none =>
    let p := p.set key GoMap.empty
    let p := p.set key (((p.lookup key).getD GoMap.empty).set name ⟨cpu, memory, id⟩)
    (p, true)
  | some entry =>
    match entry.lookup name with
    | none => (p.set key (entry.set name ⟨cpu, memory, id⟩), true)
    | some cap =>
      let r := CAS cap cpu memory id
      (p.set key (entry.set name r.1), r.2)

/-- One iteration of the loop of `store.Update`, on the pair of the table and
the `changed` flag. -/
def updateStep (pod : Pod) (st : podStore × Bool) (c : Container) : podStore × Bool :=
  let cpu := c.Resources.Limits.Cpu
  let memory := c.Resources.Limits.Memory
  let id := fetchID pod c.Name
  let r := updateStoreUnsafe st.1 id (podKey pod) c.Name cpu memory
  if r.2 then (r.1, true) else (r.1, st.2)

/-- The method `store.Update`: the table afterwards and the returned `changed`. -/
def Update (p : podStore) (pod : Pod) : podStore × Bool :=
  pod.Spec.Containers.foldl (updateStep pod) (p, false)

/-- The method `store.deleteUnsafe`. -/
def deleteUnsafe (p : podStore) (key : String) : podStore :=
  match p.lookup key with
  | some _ => p.erase key
  | none => p

/-- The method `store.Delete`. -/
def Delete (p : podStore) (pod : Pod) : podStore :=
  deleteUnsafe p (podKey pod)

/-! ## Floating point (`float64`, and `strconv.FormatFloat` at bit size 32) -/

/-- A value of a Go floating-point type: `fin neg m e` is `(-1)^neg * m * 2^e`
(a zero, of either sign, when `m = 0`). -/
inductive GoFloat where
  | nan
  | inf (neg : Bool)
  | fin (neg : Bool) (m : Nat) (e : Int)
  deriving DecidableEq

/-- An IEEE 754 binary format: `prec` bits of significand, `emin` the exponent
of the last bit of the smallest subnormal, and overflow at `2 ^ emax`. -/
structure FloatFormat where
  prec : Nat
  emin : Int
  emax : Int

/-- The format of `float64`. -/
def binary64 : FloatFormat := ⟨53, -1074, 1024⟩

/-- The format of `float32`. -/
def binary32 : FloatFormat := ⟨24, -149, 128⟩

/-- Bit length of `m`, counting down on `fuel`. -/
def bitLenAux : Nat → Nat → Nat
  | 0, _ => 0
  | fuel + 1, m => if m = 0 then 0 else bitLenAux fuel (m / 2) + 1

/-- Number of binary digits of `m` (`0` for `m = 0`). -/
def bitLen (m : Nat) : Nat := bitLenAux m m

/-- Round `m * 2^e` (plus a non-zero remainder below the last bit of `m` when
`sticky`) to the nearest value of the format, ties to even, overflowing to an
infinity.  With `sticky` set the callers pass an `m` of more than `prec` bits. -/
def roundNearestEven (fmt : FloatFormat) (neg : Bool) (m : Nat) (e : Int) (sticky : Bool) :
    GoFloat :=
  let e' := max (e + bitLen m - fmt.prec) fmt.emin
  if e' ≤ e then
    if (bitLen m : Int) + e > fmt.emax then GoFloat.inf neg else GoFloat.fin neg m e
  else
    let s := (e' - e).toNat
    let q := m / 2 ^ s
    let r := m % 2 ^ s
    let half := 2 ^ (s - 1)
    let up := decide (half < r) || (decide (r = half) && (sticky || decide (q % 2 = 1)))
    let m' := if up then q + 1 else q
    if (bitLen m' : Int) + e' > fmt.emax then GoFloat.inf neg else GoFloat.fin neg m' e'

/-- The conversion `float64(v)` of an integer. -/
def ofInt64 (v : Int) : GoFloat := roundNearestEven binary64 (decide (v < 0)) v.natAbs 0 false

/-- The product `x * y` of two `float64`. -/
def mul64 : GoFloat → GoFloat → GoFloat
  | GoFloat.nan, _ => GoFloat.nan
  | _, GoFloat.nan => GoFloat.nan
  | GoFloat.inf n1, GoFloat.inf n2 => GoFloat.inf (xor n1 n2)
  | GoFloat.inf n1, GoFloat.fin n2 m _ => if m = 0 then GoFloat.nan else GoFloat.inf (xor n1 n2)
  | GoFloat.fin n1 m _, GoFloat.inf n2 => if m = 0 then GoFloat.nan else GoFloat.inf (xor n1 n2)
  | GoFloat.fin n1 m1 e1, GoFloat.fin n2 m2 e2 =>
    roundNearestEven binary64 (xor n1 n2) (m1 * m2) (e1 + e2) false

/-- The quotient `x / y` of two `float64`. -/
def div64 : GoFloat → GoFloat → GoFloat
  | GoFloat.nan, _ => GoFloat.nan
  | _, GoFloat.nan => GoFloat.nan
  | GoFloat.inf _, GoFloat.inf _ => GoFloat.nan
  | GoFloat.inf n1, GoFloat.fin n2 _ _ => GoFloat.inf (xor n1 n2)
  | GoFloat.fin n1 _ _, GoFloat.inf n2 => GoFloat.fin (xor n1 n2) 0 0
  | GoFloat.fin n1 m1 e1, GoFloat.fin n2 m2 e2 =>
    if m2 = 0 then (if m1 = 0 then GoFloat.nan else GoFloat.inf (xor n1 n2))
    else
      let k := binary64.prec + 2 + bitLen m2 - bitLen m1
      let num := m1 * 2 ^ k
      roundNearestEven binary64 (xor n1 n2) (num / m2) (e1 - e2 - k) (decide (num % m2 ≠ 0))

/-- The conversion `float32(x)` of a `float64`. -/
def toFloat32 : GoFloat → GoFloat
  | GoFloat.nan => GoFloat.nan
  | GoFloat.inf n => GoFloat.inf n
  | GoFloat.fin n m e => roundNearestEven binary32 n m e false

/-- Pad a digit string with zeros on the left up to `n` digits. -/
def padLeft (n : Nat) (l : List Char) : List Char := List.replicate (n - l.length) '0' ++ l

/-- The verb `'f'` of `strconv`: the exact value rounded (ties to even) to
`prec` decimals, as sign, integer digits and, when `prec > 0`, a point and
`prec` digits. -/
def formatFixed (prec : Nat) : GoFloat → String
  | GoFloat.nan => "NaN"
  | GoFloat.inf false => "+Inf"
  | GoFloat.inf true => "-Inf"
  | GoFloat.fin neg m e =>
    let scaled := m * 10 ^ prec
    let n :=
      if 0 ≤ e then scaled * 2 ^ e.toNat
      else
        let den := 2 ^ (-e).toNat
        let q := scaled / den
        let r := scaled % den
        if den < 2 * r ∨ (2 * r = den ∧ q % 2 = 1) then q + 1 else q
    let ip := Nat.repr (n / 10 ^ prec)
    let fp := String.mk (padLeft prec (Nat.toDigits 10 (n % 10 ^ prec)))
    (if neg then "-" else "") ++ ip ++ (if prec = 0 then "" else "." ++ fp)

/-- The call `strconv.FormatFloat(f, 'f', prec, 32)`: `f` is first rounded to
`float32`, then printed with the verb `'f'`. -/
def FormatFloat32 (f : GoFloat) (prec : Nat) : String := formatFixed prec (toFloat32 f)

/-! ## The rule templates (`text/template` with the delimiters `[[` and `]]`) -/

/-- The constant `memRuleTemplate`, line by line. -/
def memRuleTemplate : String :=
  "\n" ++
  "ALERT MemoryUsageHigh\n" ++
  "    IF sum(container_memory_usage_bytes\x7bid=\"[[ .ID ]]\"\x7d) > [[ .Target ]]\n" ++
  "    FOR 5m\n" ++
  "    LABELS \x7b severity = \"[[ .Severity ]]\", kubernetes_container_name = \"[[ .Container ]]\", kubernetes_pod_name = \"[[ .PodName ]]\", kubernetes_namespace = \"[[ .Namespace ]]\", id = \"[[ .ID ]]\"\x7d\n" ++
  "    ANNOTATIONS \x7b\n" ++
  "        summary = \"Container [[ .Namespace ]]/[[ .PodName ]]/[[ .Container ]] memory usage high\",\n" ++
  "        description = \"Container [[ .Namespace ]]/[[ .PodName ]]/[[ .Container ]] has high memory usage of \x7b\x7b $value \x7d\x7d\",\n" ++
  "    \x7d\n"

/-- The constant `cpuRuleTemplate`, line by line. -/
def cpuRuleTemplate : String :=
  "\n" ++
  "ALERT CPUUsageHigh\n" ++
  "    IF sum(rate(container_cpu_usage_seconds_total\x7bid=\"[[ .ID ]]\"\x7d[5m])) > [[ .Target ]]\n" ++
  "    FOR 5m\n" ++
  "    LABELS \x7b severity = \"[[ .Severity ]]\", kubernetes_container_name = \"[[ .Container ]]\", kubernetes_pod_name = \"[[ .PodName ]]\", kubernetes_namespace = \"[[ .Namespace ]]\", id = \"[[ .ID ]]\"\x7d\n" ++
  "    ANNOTATIONS \x7b\n" ++
  "        summary = \"Container [[ .Namespace ]]/[[ .PodName ]]/[[ .Container ]] cpu usage high\",\n" ++
  "        description = \"Container [[ .Namespace ]]/[[ .PodName ]]/[[ .Container ]] has high cpu usage of \x7b\x7b $value \x7d\x7d\",\n" ++
  "    \x7d\n"

/-- A node of a parsed template: literal text, or the action `[[ .name ]]`. -/
inductive Node where
  | text (s : String)
  | field (name : String)
  deriving DecidableEq

/-- Drop the blanks around the body of an action. -/
def trimSpaces (l : List Char) : List Char :=
  ((l.dropWhile (fun c => c = ' ')).reverse.dropWhile (fun c => c = ' ')).reverse

/-- A character of a field name. -/
def isIdentChar (c : Char) : Bool := c.isAlphanum || c = '_'

/-- The node of an action body; only field references `.Name` are accepted. -/
def parseAction (body : List Char) : Option Node :=
  match trimSpaces body with
  | '.' :: ident =>
    if ident ≠ [] ∧ ident.all isIdentChar then some (Node.field (String.mk ident)) else none
  | _ => none

/-- The text node for the characters `cur` (last one first); none when empty. -/
def textNode (cur : List Char) : List Node :=
  if cur = [] then [] else [Node.text (String.mk cur.reverse)]

/-- The template parser for the delimiters `[[` and `]]`: the flag tells whether
an action is open, `cur` holds the characters read since the last delimiter.
An action left open, or one that is not a field reference, is a parse error. -/
def parseFrom : Bool → List Char → List Char → Option (List Node)
  | false, [], cur => some (textNode cur)
  | false, [c], cur => some (textNode (c :: cur))
  | false, c :: d :: rest, cur =>
    if c = '[' ∧ d = '[' then (parseFrom true rest []).map (fun ns => textNode cur ++ ns)
    else parseFrom false (d :: rest) (c :: cur)
  | true, [], _ => none
  | true, [_], _ => none
  | true, c :: d :: rest, cur =>
    if c = ']' ∧ d = ']' then
      match parseAction cur.reverse, parseFrom false rest [] with
      | some n, some ns => some (n :: ns)
      | _, _ => none
    else parseFrom true (d :: rest) (c :: cur)

/-- The call `template.New(..).Delims("[[", "]]").Parse(t)`. -/
def Parse (t : String) : Option (List Node) := parseFrom false t.data []

/-- The `content` record handed to the templates. -/
structure content where
  Namespace : String
  PodName : String
  Container : String
  ID : String
  Target : String
  Severity : String
  deriving DecidableEq

/-- Field of `content` by name, as the template engine resolves `.name`. -/
def content.lookupField (c : content) (f : String) : Option String :=
  if f = "Namespace" then some c.Namespace
  else if f = "PodName" then some c.PodName
  else if f = "Container" then some c.Container
  else if f = "ID" then some c.ID
  else if f = "Target" then some c.Target
  else if f = "Severity" then some c.Severity
  else none

/-- The call `tmpl.Execute(writer, c)`: the writer afterwards.  Output is
written node by node and stops at the first field that `content` lacks (the
error that `Execute` then returns is dropped by the caller). -/
def Execute : List Node → String → content → String
  | [], writer, _ => writer
  | Node.text s :: rest, writer, c => Execute rest (writer ++ s) c
  | Node.field f :: rest, writer, c =>
    match c.lookupField f with
    | some v => Execute rest (writer ++ v) c
    | none => writer

/-- The field `cpuTmpl` set by `newStore`; `template.Must` panics when the
template does not parse (it does: `cpuTmpl_nodes`). -/
def cpuTmpl : List Node := (Parse cpuRuleTemplate).getD []

/-- The field `memTmpl` set by `newStore`; `template.Must` panics when the
template does not parse (it does: `memTmpl_nodes`). -/
def memTmpl : List Node := (Parse memRuleTemplate).getD []

/-! ## Rendering -/

/-- The key `fmt.Sprintf("%s.%s.generated.rule", namespace, name)`. -/
def ruleKey (pod : Pod) : String := pod.Namespace ++ "." ++ pod.Name ++ ".generated.rule"

/-- The CPU target `strconv.FormatFloat(float64(cpu.MilliValue())*factor/1000, 'f', 3, 32)`. -/
def cpuTarget (lib : Int64Readings) (cap : capacity) (factor : GoFloat) : String :=
  FormatFloat32 (div64 (mul64 (ofInt64 (cap.CPU.MilliValue lib)) factor) (ofInt64 1000)) 3

/-- The memory target `strconv.FormatFloat(float64(memory.Value())*factor, 'f', 0, 32)`. -/
def memTarget (lib : Int64Readings) (cap : capacity) (factor : GoFloat) : String :=
  FormatFloat32 (mul64 (ofInt64 (cap.Memory.Value lib)) factor) 0

/-- The body of the loop of `store.GenerateAlertRule` for one entry
`container, capacity` of the workload's table: the writer afterwards.  The
package variables `warningFactor` and `criticalFactor` are parameters (the
flags they are read from are declared outside the files at hand). -/
def renderEntry (ns name : String) (lib : Int64Readings) (warningFactor criticalFactor : GoFloat)
    (writer : String) (entry : String × capacity) : String :=
  let container := entry.1
  let cap := entry.2
  if cap.ID = "" then writer
  else
    let writer :=
      if cap.CPU.IsZero = false then
        let c : content :=
          { Namespace := ns, PodName := name, Container := container, ID := cap.ID,
            Target := cpuTarget lib cap warningFactor, Severity := "warning" }
        let writer := Execute cpuTmpl writer c
        let c := { c with Target := cpuTarget lib cap criticalFactor, Severity := "critical" }
        Execute cpuTmpl writer c
      else writer
    if cap.Memory.IsZero = false then
      let c : content :=
        { Namespace := ns, PodName := name, Container := container, ID := cap.ID,
          Target := memTarget lib cap warningFactor, Severity := "warning" }
      let writer := Execute memTmpl writer c
      let c := { c with Target := memTarget lib cap criticalFactor, Severity := "critical" }
      Execute memTmpl writer c
    else writer

/-- The entries ranged over by `for container, capacity := range p.podStore[podKey]`
(none when the key is absent: ranging over a nil map does nothing). -/
def tableEntries (p : podStore) (key : String) : List (String × capacity) :=
  match p.lookup key with
  | some t => t.entries
  | none => []

/-- The method `store.GenerateAlertRule`: the key `fn` and the text of the writer. -/
def GenerateAlertRule (p : podStore) (lib : Int64Readings) (warningFactor criticalFactor : GoFloat) (pod : Pod) :
    String × String :=
  let writer := ""
  let ns := pod.Namespace
  let name := pod.Name
  let fn := ruleKey pod
  let writer :=
    (tableEntries p (podKey pod)).foldl (renderEntry ns name lib warningFactor criticalFactor) writer
  (fn, writer)

/-! ## Notions used in the statements -/

/-- The record tracked for container `name` of the workload with table key `key`. -/
def getRec (p : podStore) (key name : String) : Option capacity :=
  match p.lookup key with
  | some t => t.lookup name
  | none => none

/-- The record that `Update` builds for container `c` of the snapshot `pod`. -/
def recordOf (pod : Pod) (c : Container) : capacity :=
  ⟨c.Resources.Limits.Cpu, c.Resources.Limits.Memory, fetchID pod c.Name⟩

/-- A record qualifies for rendering: its runtime identifier is non-empty and at
least one of its CPU and memory limits is non-zero. -/
def qualifies (cap : capacity) : Bool :=
  decide (cap.ID ≠ "") && (!cap.CPU.IsZero || !cap.Memory.IsZero)

/-- A snapshot of workload `ns/name` with the given containers and statuses. -/
def mkPod (ns name : String) (cs : List Container) (sts : List ContainerStatus) : Pod :=
  ⟨ns, name, ⟨cs⟩, ⟨sts⟩⟩

/-- A container with the given CPU and memory limits, in nano-units. -/
def mkContainer (name : String) (cpu memory : Int) : Container :=
  ⟨name, ⟨⟨some ⟨cpu⟩, some ⟨memory⟩⟩⟩⟩

instance {β : Type} [DecidableEq β] : DecidableEq (GoMap β) := fun a b =>
  decidable_of_iff (a.entries = b.entries)
    ⟨fun h => by cases a; cases b; cases h; rfl, fun h => by rw [h]⟩

/-! ## Example snapshots -/

/-- The empty store of `newStore`. -/
def emptyStore : podStore := GoMap.empty

/-- Workload `ns/app` with container `a`: CPU 1, memory 100. -/
def podA100 : Pod := mkPod "ns" "app" [mkContainer "a" 1000000000 100000000000] []

/-- Workload `ns/app` with container `a`: CPU 1, memory 200. -/
def podA200 : Pod := mkPod "ns" "app" [mkContainer "a" 1000000000 200000000000] []

/-- Workload `ns/app` with containers `a` and `b`. -/
def podAB : Pod :=
  mkPod "ns" "app"
    [mkContainer "a" 1000000000 100000000000, mkContainer "b" 500000000 0]
    [⟨"a", "docker://abc123"⟩]

/-- The record of container `a` with CPU 1, memory 100 and no runtime identifier. -/
def capA100 : capacity := ⟨⟨1000000000⟩, ⟨100000000000⟩, ""⟩

/-- The table of `ns/app` after `podA100`. -/
def tableA100 : containerStore := GoMap.empty.set "a" capA100

/-- The store after `Update` of the empty store with `podA100`. -/
def storeA100 : podStore := (Update emptyStore podA100).1

/-- Workload `ns/app` with container `web` (CPU 500m, no memory limit), running
under the runtime handle `docker://abc123`. -/
def podWeb : Pod :=
  mkPod "ns" "app" [⟨"web", ⟨⟨some ⟨500000000⟩, none⟩⟩⟩] [⟨"web", "docker://abc123"⟩]

/-- The CPU rule block of the outbound rule text for the values `c`: the text of
`cpuRuleTemplate` with every `[[ .Field ]]` replaced by the value of the field. -/
def cpuBlock (c : content) : String :=
  "\nALERT CPUUsageHigh\n    IF sum(rate(container_cpu_usage_seconds_total\x7bid=\"" ++
  c.ID ++
  "\"\x7d[5m])) > " ++
  c.Target ++
  "\n    FOR 5m\n    LABELS \x7b severity = \"" ++
  c.Severity ++
  "\", kubernetes_container_name = \"" ++
  c.Container ++
  "\", kubernetes_pod_name = \"" ++
  c.PodName ++
  "\", kubernetes_namespace = \"" ++
  c.Namespace ++
  "\", id = \"" ++
  c.ID ++
  "\"\x7d\n    ANNOTATIONS \x7b\n        summary = \"Container " ++
  c.Namespace ++
  "/" ++
  c.PodName ++
  "/" ++
  c.Container ++
  " cpu usage high\",\n        description = \"Container " ++
  c.Namespace ++
  "/" ++
  c.PodName ++
  "/" ++
  c.Container ++
  " has high cpu usage of \x7b\x7b $value \x7d\x7d\",\n    \x7d\n"

/-- The nodes of the parsed `cpuRuleTemplate`. -/
def cpuTmplNodes : List Node :=
  [Node.text "\nALERT CPUUsageHigh\n    IF sum(rate(container_cpu_usage_seconds_total\x7bid=\"",
   Node.field "ID",
   Node.text "\"\x7d[5m])) > ",
   Node.field "Target",
   Node.text "\n    FOR 5m\n    LABELS \x7b severity = \"",
   Node.field "Severity",
   Node.text "\", kubernetes_container_name = \"",
   Node.field "Container",
   Node.text "\", kubernetes_pod_name = \"",
   Node.field "PodName",
   Node.text "\", kubernetes_namespace = \"",
   Node.field "Namespace",
   Node.text "\", id = \"",
   Node.field "ID",
   Node.text "\"\x7d\n    ANNOTATIONS \x7b\n        summary = \"Container ",
   Node.field "Namespace",
   Node.text "/",
   Node.field "PodName",
   Node.text "/",
   Node.field "Container",
   Node.text " cpu usage high\",\n        description = \"Container ",
   Node.field "Namespace",
   Node.text "/",
   Node.field "PodName",
   Node.text "/",
   Node.field "Container",
   Node.text " has high cpu usage of \x7b\x7b $value \x7d\x7d\",\n    \x7d\n"]

/-- The memory rule block of the outbound rule text for the values `c`: the text of
`memRuleTemplate` with every `[[ .Field ]]` replaced by the value of the field. -/
def memBlock (c : content) : String :=
  "\nALERT MemoryUsageHigh\n    IF sum(container_memory_usage_bytes\x7bid=\"" ++
  c.ID ++
  "\"\x7d) > " ++
  c.Target ++
  "\n    FOR 5m\n    LABELS \x7b severity = \"" ++
  c.Severity ++
  "\", kubernetes_container_name = \"" ++
  c.Container ++
  "\", kubernetes_pod_name = \"" ++
  c.PodName ++
  "\", kubernetes_namespace = \"" ++
  c.Namespace ++
  "\", id = \"" ++
  c.ID ++
  "\"\x7d\n    ANNOTATIONS \x7b\n        summary = \"Container " ++
  c.Namespace ++
  "/" ++
  c.PodName ++
  "/" ++
  c.Container ++
  " memory usage high\",\n        description = \"Container " ++
  c.Namespace ++
  "/" ++
  c.PodName ++
  "/" ++
  c.Container ++
  " has high memory usage of \x7b\x7b $value \x7d\x7d\",\n    \x7d\n"

/-- The nodes of the parsed `memRuleTemplate`. -/
def memTmplNodes : List Node :=
  [Node.text "\nALERT MemoryUsageHigh\n    IF sum(container_memory_usage_bytes\x7bid=\"",
   Node.field "ID",
   Node.text "\"\x7d) > ",
   Node.field "Target",
   Node.text "\n    FOR 5m\n    LABELS \x7b severity = \"",
   Node.field "Severity",
   Node.text "\", kubernetes_container_name = \"",
   Node.field "Container",
   Node.text "\", kubernetes_pod_name = \"",
   Node.field "PodName",
   Node.text "\", kubernetes_namespace = \"",
   Node.field "Namespace",
   Node.text "\", id = \"",
   Node.field "ID",
   Node.text "\"\x7d\n    ANNOTATIONS \x7b\n        summary = \"Container ",
   Node.field "Namespace",
   Node.text "/",
   Node.field "PodName",
   Node.text "/",
   Node.field "Container",
   Node.text " memory usage high\",\n        description = \"Container ",
   Node.field "Namespace",
   Node.text "/",
   Node.field "PodName",
   Node.text "/",
   Node.field "Container",
   Node.text " has high memory usage of \x7b\x7b $value \x7d\x7d\",\n    \x7d\n"]

/-- The rule blocks that the specification prescribes for one tracked record:
none unless the record qualifies; otherwise, for each of CPU and memory whose
limit is non-zero, a block at severity `warning` followed by one at severity
`critical`, CPU first. -/
def recordBlocks (ns name : String) (lib : Int64Readings) (warningFactor criticalFactor : GoFloat)
    (entry : String × capacity) : List String :=
  if qualifies entry.2 then
    (if entry.2.CPU.IsZero then []
     else
      [cpuBlock ⟨ns, name, entry.1, entry.2.ID, cpuTarget lib entry.2 warningFactor, "warning"⟩,
       cpuBlock ⟨ns, name, entry.1, entry.2.ID, cpuTarget lib entry.2 criticalFactor, "critical"⟩]) ++
    (if entry.2.Memory.IsZero then []
     else
      [memBlock ⟨ns, name, entry.1, entry.2.ID, memTarget lib entry.2 warningFactor, "warning"⟩,
       memBlock ⟨ns, name, entry.1, entry.2.ID, memTarget lib entry.2 criticalFactor, "critical"⟩])
  else []

/-- The text obtained by writing the blocks one after the other. -/
def writeAll (blocks : List String) : String := blocks.foldl (fun w b => w ++ b) ""

/-- Readings of a library that answers with the low 64 bits on overflow. -/
def lowBits : Int64Readings :=
  ⟨fun q => Quantity.roundUpDiv q.nano 1000000, fun q => Quantity.roundUpDiv q.nano 1000000000⟩

/-- Readings of a library that answers `0` on overflow. -/
def zeroOnOverflow : Int64Readings := ⟨fun _ => 0, fun _ => 0⟩

/-- Readings of a library that answers the low 64 bits for a milli-value that
overflows and `0` for a value that overflows. -/
def lowBitsOrZero : Int64Readings := ⟨lowBits.milliOverflow, zeroOnOverflow.valueOverflow⟩

/-- The `float64` nearest to 1.2 (bits `0x3FF3333333333333`). -/
def factor12 : GoFloat := GoFloat.fin false 5404319552844595 (-52)

/-- The `float64` 2.0. -/
def factor20 : GoFloat := GoFloat.fin false 1 1

/-- A store tracking, for `ns/app`, the container `web` with CPU 500m, memory 0
and runtime identifier `abc123`. -/
def storeWeb : podStore :=
  GoMap.empty.set "ns/app" (GoMap.empty.set "web" ⟨⟨500000000⟩, ⟨0⟩, "abc123"⟩)

/-- Workload `ns/app` with container `web` (CPU 500m) that has not started: its
status entry is present and carries an empty runtime handle. -/
def podWaiting : Pod :=
  mkPod "ns" "app" [⟨"web", ⟨⟨some ⟨500000000⟩, none⟩⟩⟩] [⟨"web", ""⟩]

/-- Workload `ns/app` with container `web` (CPU 500m) and no status entry yet. -/
def podNoStatus : Pod :=
  mkPod "ns" "app" [⟨"web", ⟨⟨some ⟨500000000⟩, none⟩⟩⟩] []

/-- The store after `Update` of the empty store with `podAB`: container `a` runs
under `docker://abc123`, container `b` has no status entry. -/
def storeAB : podStore := (Update emptyStore podAB).1

/-- The table of `ns/app` in `storeAB`. -/
def tableAB : containerStore :=
  (GoMap.empty.set "a" ⟨⟨1000000000⟩, ⟨100000000000⟩, "/docker/abc123"⟩).set "b"
    ⟨⟨500000000⟩, ⟨0⟩, ""⟩

/-! ## The orchestration layer (`controller.go`) -/

/-- The `Data` field of a configmap, a `map[string]string`: `none` is the nil
map (a configmap that carries no data), `some m` a map that has been made. -/
abbrev ConfigData := Option (GoMap String)

namespace ConfigData

/-- The read `v, ok := m[k]`; on a nil map nothing is found. -/
def lookup (d : ConfigData) (k : String) : Option String :=
  match d with
  | none => none
  | some m => m.lookup k

/-- The builtin `delete(m, k)`; on a nil map it does nothing. -/
def delete (d : ConfigData) (k : String) : ConfigData :=
  match d with
  | none => none
  | some m => some (m.erase k)

/-- The assignment `m[k] = v`: the map afterwards, or `none` for the run-time
panic "assignment to entry in nil map". -/
def assign (d : ConfigData) (k v : String) : Option ConfigData :=
  match d with
  | none => none
  | some m => some (some (m.set k v))

end ConfigData

/-- How a call of `controller.syncToConfigmap` ends: it returns without calling
`Update`, it calls `Update` with a configmap carrying the given `Data`, or it
panics before reaching `Update`. -/
inductive SyncOutcome where
  | skipped
  | written (data : ConfigData)
  | panicked
  deriving DecidableEq

/-- The method `controller.syncToConfigmap`, on the `Data` field of the
configmap.  `cm` is the `Data` of the object returned by `ConfigMaps(..).Get`
(`none` when `Get` fails, in which case the method returns at once).  An error
of `Update` is only logged. -/
def syncToConfigmap (cm : Option ConfigData) (fn rules : String) : SyncOutcome :=
  match cm with
  | none => SyncOutcome.skipped
  | some data =>
    if rules = "" then SyncOutcome.written (data.delete fn)
    else
      match data.lookup fn with
      | some now =>
        if now = rules then SyncOutcome.skipped
        else
          match data.assign fn rules with
          | some d => SyncOutcome.written d
          | none => SyncOutcome.panicked
      | none =>
        match data.assign fn rules with
        | some d => SyncOutcome.written d
        | none => SyncOutcome.panicked

/-- The handler `DeleteFunc` of `newController`: the store afterwards and how
`syncToConfigmap` ends. -/
def DeleteFunc (st : podStore) (lib : Int64Readings) (warningFactor criticalFactor : GoFloat)
    (cm : Option ConfigData) (pod : Pod) : podStore × SyncOutcome :=
  let st := Delete st pod
  let r := GenerateAlertRule st lib warningFactor criticalFactor pod
  (st, syncToConfigmap cm r.1 r.2)

/-- Workload `ns/other` with container `a`. -/
def podOther : Pod := mkPod "ns" "other" [mkContainer "a" 1000000000 100000000000] []

/-- Workload `ns/app` with container `a` only, as in `podAB` but without `b`. -/
def podOnlyA : Pod :=
  mkPod "ns" "app" [mkContainer "a" 1000000000 100000000000] [⟨"a", "docker://abc123"⟩]

/-- A backend map holding a rule text under the key of `ns/app`. -/
def backendData : GoMap String :=
  (GoMap.empty.set "ns.app.generated.rule" "old rules").set "other.key" "kept"

/-- Workload `ns/app` with containers `a` and `b` (CPU 500m), both running. -/
def podABRunning : Pod :=
  mkPod "ns" "app"
    [mkContainer "a" 1000000000 100000000000, mkContainer "b" 500000000 0]
    [⟨"a", "docker://abc123"⟩, ⟨"b", "docker://def456"⟩]

/-- The store after `Update` of the empty store with `podABRunning`. -/
def storeABRunning : podStore := (Update emptyStore podABRunning).1

/-- The record of container `b` in `storeABRunning`. -/
def capBRunning : capacity := ⟨⟨500000000⟩, ⟨0⟩, "/docker/def456"⟩

/-! ## Decimal notation -/

/-- The integer nearest to `m * 2^e * 10^prec`, ties to the even one. -/
def roundDecimal (m : Nat) (e : Int) (prec : Nat) : Nat :=
  if 0 ≤ e then m * 10 ^ prec * 2 ^ e.toNat
  else
    if 2 ^ (-e).toNat < 2 * (m * 10 ^ prec % 2 ^ (-e).toNat) ∨
        (2 * (m * 10 ^ prec % 2 ^ (-e).toNat) = 2 ^ (-e).toNat ∧
          m * 10 ^ prec / 2 ^ (-e).toNat % 2 = 1) then
      m * 10 ^ prec / 2 ^ (-e).toNat + 1
    else m * 10 ^ prec / 2 ^ (-e).toNat

/-- The characters of the number `n / 10^prec` written as a fixed-point decimal
with exactly `prec` fractional digits. -/
def fixedPoint (neg : Bool) (n prec : Nat) : String :=
  (if neg then "-" else "") ++ Nat.repr (n / 10 ^ prec) ++
    (if prec = 0 then "" else "." ++ String.mk (padLeft prec (Nat.toDigits 10 (n % 10 ^ prec))))

/-- The number written by a string of decimal digits. -/
def digitsValue (l : List Char) : Nat := l.foldl (fun a c => 10 * a + (c.toNat - 48)) 0

/-- A record with a memory limit of 1Gi (1073741824 bytes) and no CPU limit. -/
def capMem1Gi : capacity := ⟨⟨0⟩, ⟨1073741824000000000⟩, "abc123"⟩

/-- The record of container `web`: CPU 500m, no memory limit, identifier `abc123`. -/
def capWeb : capacity := ⟨⟨500000000⟩, ⟨0⟩, "abc123"⟩

/-! ## Delimiters in rendered text -/

/-- The `LABELS` line of a rule block for the values `c`. -/
def labelsLine (c : content) : String :=
  "    LABELS \x7b severity = \"" ++ c.Severity ++ "\", kubernetes_container_name = \"" ++
    c.Container ++ "\", kubernetes_pod_name = \"" ++ c.PodName ++
    "\", kubernetes_namespace = \"" ++ c.Namespace ++ "\", id = \"" ++ c.ID ++ "\"\x7d\n"

/-- The string holds neither `[[` nor `]]`, the delimiters of the store's templates. -/
def noDelims (s : String) : Prop :=
  ¬ (['[', '['] <:+: s.data) ∧ ¬ ([']', ']'] <:+: s.data)

instance (s : String) : Decidable (noDelims s) := by
  unfold noDelims
  infer_instance

/-- A literal piece of a template that cannot take part in a delimiter: it holds
neither `[[` nor `]]` and neither starts nor ends with a bracket. -/
def safeLiteral (s : String) : Prop :=
  noDelims s ∧ s.data.head? ≠ none ∧ s.data.head? ≠ some '[' ∧ s.data.head? ≠ some ']' ∧
    s.data.getLast? ≠ some '[' ∧ s.data.getLast? ≠ some ']'

instance (s : String) : Decidable (safeLiteral s) := by
  unfold safeLiteral
  infer_instance

/-- The string holds no delimiter and does not end with a bracket. -/
def closedText (s : String) : Prop :=
  noDelims s ∧ s.data.getLast? ≠ some '[' ∧ s.data.getLast? ≠ some ']'

/-- The values handed to the template for the warning CPU block of `podWeb`. -/
def contentWeb : content := ⟨"ns", "app", "web", "abc123", "0.600", "warning"⟩

/-! ## Rounding -/

/-- The number that a floating-point value stands for (`0` for a NaN and for an
infinity). -/
def GoFloat.toRat : GoFloat → ℚ
  | GoFloat.fin neg m e => (if neg then -1 else 1) * (m : ℚ) * (2 : ℚ) ^ e
  | _ => 0

/-- The floating-point value `g` is the number `x` rounded to the format `fmt`,
to nearest, ties to even (overflow aside): `g` is finite, `fin neg m e`, with
the sign of `x`; it is a value of the format: `m` has at most `prec` bits (or is
`2^prec`, after a carry) and `e` is at least `emin`; and either its magnitude
`m * 2^e` is that of `x`, or the exponent `e` is the smallest one the format
allows for that magnitude (`e = emin`, or `m` has all its `prec` bits),
`m * 2^e` differs from the magnitude of `x` by at most half a unit `2^e` of its
last place, and by exactly half a unit only when `m` is even. -/
def RoundsTo (fmt : FloatFormat) (x : ℚ) : GoFloat → Prop
  | GoFloat.fin neg m e =>
    (neg = true → x ≤ 0) ∧ (neg = false → 0 ≤ x) ∧ m ≤ 2 ^ fmt.prec ∧ fmt.emin ≤ e ∧
      ((m : ℚ) * (2 : ℚ) ^ e = abs x ∨
        ((e = fmt.emin ∨ 2 ^ (fmt.prec - 1) ≤ m) ∧
          abs ((m : ℚ) * (2 : ℚ) ^ e - abs x) ≤ (2 : ℚ) ^ e / 2 ∧
          (abs ((m : ℚ) * (2 : ℚ) ^ e - abs x) = (2 : ℚ) ^ e / 2 → m % 2 = 0)))
  | _ => False

/-! ## Lemmas on maps -/

theorem lookupL_setL_self {β : Type} (k : String) (v : β) (l : List (String × β)) :
    lookupL k (setL k v l) = some v := by
  induction l with
  | nil => simp [setL, lookupL]
  | cons hd tl ih =>
    obtain ⟨k', v'⟩ := hd
    by_cases h : k' = k
    · simp [setL, lookupL, h]
    · simp [setL, lookupL, h, ih]

theorem lookupL_setL_ne {β : Type} (k k2 : String) (v : β) (l : List (String × β))
    (hne : k2 ≠ k) : lookupL k2 (setL k v l) = lookupL k2 l := by
  induction l with
  | nil => simp [setL, lookupL, Ne.symm hne]
  | cons hd tl ih =>
    obtain ⟨k', v'⟩ := hd
    by_cases h : k' = k
    · subst h
      simp [setL, lookupL, Ne.symm hne]
    · by_cases h2 : k' = k2
      · subst h2
        simp [setL, lookupL, h]
      · simp [setL, lookupL, h, h2, ih]

theorem setL_of_lookupL {β : Type} (k : String) (v : β) (l : List (String × β))
    (h : lookupL k l = some v) : setL k v l = l := by
  induction l with
  | nil => simp [lookupL] at h
  | cons hd tl ih =>
    obtain ⟨k', v'⟩ := hd
    by_cases hk : k' = k
    · simp only [lookupL, hk, if_true, Option.some.injEq] at h
      simp [setL, hk, h]
    · simp only [lookupL, hk, if_false] at h
      simp [setL, hk, ih h]

theorem lookupL_isSome_iff {β : Type} (k : String) (l : List (String × β)) :
    (lookupL k l).isSome = true ↔ k ∈ l.map Prod.fst := by
  induction l with
  | nil => simp [lookupL]
  | cons hd tl ih =>
    obtain ⟨k', v'⟩ := hd
    by_cases hk : k' = k
    · simp [lookupL, hk]
    · simp only [lookupL, hk, if_false, ih, List.map_cons, List.mem_cons]
      constructor
      · exact fun h => Or.inr h
      · rintro (h | h)
        · exact absurd h.symm hk
        · exact h

theorem GoMap.ext_entries {β : Type} {a b : GoMap β} (h : a.entries = b.entries) : a = b := by
  cases a
  cases b
  cases h
  rfl

theorem GoMap.lookup_set_self {β : Type} (m : GoMap β) (k : String) (v : β) :
    (m.set k v).lookup k = some v :=
  lookupL_setL_self k v m.entries

theorem GoMap.lookup_set_ne {β : Type} (m : GoMap β) (k k2 : String) (v : β) (hne : k2 ≠ k) :
    (m.set k v).lookup k2 = m.lookup k2 :=
  lookupL_setL_ne k k2 v m.entries hne

theorem GoMap.set_of_lookup {β : Type} (m : GoMap β) (k : String) (v : β)
    (h : m.lookup k = some v) : m.set k v = m :=
  GoMap.ext_entries (setL_of_lookupL k v m.entries h)

theorem GoMap.lookup_empty {β : Type} (k : String) : (GoMap.empty : GoMap β).lookup k = none :=
  rfl

theorem GoMap.mem_keys_iff {β : Type} (m : GoMap β) (k : String) :
    k ∈ m.keys ↔ (m.lookup k).isSome = true :=
  (lookupL_isSome_iff k m.entries).symm

/-! ## Lemmas on `CAS` and `updateStoreUnsafe` -/

theorem Quantity.Cmp_eq_zero_iff (q y : Quantity) : q.Cmp y = 0 ↔ q = y := by
  obtain ⟨a⟩ := q
  obtain ⟨b⟩ := y
  unfold Quantity.Cmp
  by_cases h1 : a < b
  · simp only [h1, if_true, Quantity.mk.injEq]
    constructor
    · intro h
      exact absurd h (by decide)
    · intro h
      omega
  · by_cases h2 : a = b
    · simp [h2]
    · simp only [h1, h2, if_false, Quantity.mk.injEq]
      constructor
      · intro h
        exact absurd h (by decide)
      · intro h
        exact h.elim

theorem CAS_fst (cap : capacity) (cpu memory : Quantity) (id : String) :
    (CAS cap cpu memory id).1 = ⟨cpu, memory, id⟩ := by
  obtain ⟨c, m, i⟩ := cap
  unfold CAS
  by_cases h1 : i = id <;> by_cases h2 : c = cpu <;> by_cases h3 : m = memory <;>
    simp [h1, h2, h3, Quantity.Cmp_eq_zero_iff]

theorem CAS_snd (cap : capacity) (cpu memory : Quantity) (id : String) :
    (CAS cap cpu memory id).2 = true ↔ (cap.ID ≠ id ∨ cap.CPU ≠ cpu ∨ cap.Memory ≠ memory) := by
  obtain ⟨c, m, i⟩ := cap
  unfold CAS
  by_cases h1 : i = id <;> by_cases h2 : c = cpu <;> by_cases h3 : m = memory <;>
    simp [h1, h2, h3, Quantity.Cmp_eq_zero_iff]

theorem CAS_snd_iff_ne (cap : capacity) (cpu memory : Quantity) (id : String) :
    (CAS cap cpu memory id).2 = true ↔ cap ≠ ⟨cpu, memory, id⟩ := by
  rw [CAS_snd]
  obtain ⟨c, m, i⟩ := cap
  simp only [ne_eq, capacity.mk.injEq, not_and]
  tauto

theorem getRec_update_self (p : podStore) (id key name : String) (cpu memory : Quantity) :
    getRec (updateStoreUnsafe p id key name cpu memory).1 key name = some ⟨cpu, memory, id⟩ := by
  unfold updateStoreUnsafe getRec
  cases h : p.lookup key with
  | none => simp [h, GoMap.lookup_set_self]
  | some entry =>
    cases h2 : entry.lookup name with
    | none => simp [h, h2, GoMap.lookup_set_self]
    | some cap => simp [h, h2, GoMap.lookup_set_self, CAS_fst]

theorem getRec_update_ne (p : podStore) (id key name n : String) (cpu memory : Quantity)
    (hne : n ≠ name) :
    getRec (updateStoreUnsafe p id key name cpu memory).1 key n = getRec p key n := by
  unfold updateStoreUnsafe getRec
  cases h : p.lookup key with
  | none => simp [h, GoMap.lookup_set_self, GoMap.lookup_set_ne _ _ _ _ hne, GoMap.lookup_empty]
  | some entry =>
    cases h2 : entry.lookup name with
    | none => simp [h, h2, GoMap.lookup_set_self, GoMap.lookup_set_ne _ _ _ _ hne]
    | some cap => simp [h, h2, GoMap.lookup_set_self, GoMap.lookup_set_ne _ _ _ _ hne]

theorem lookup_update_other (p : podStore) (id key name k2 : String) (cpu memory : Quantity)
    (hne : k2 ≠ key) :
    (updateStoreUnsafe p id key name cpu memory).1.lookup k2 = p.lookup k2 := by
  unfold updateStoreUnsafe
  cases h : p.lookup key with
  | none => simp [h, GoMap.lookup_set_ne _ _ _ _ hne]
  | some entry =>
    cases h2 : entry.lookup name with
    | none => simp [h, h2, GoMap.lookup_set_ne _ _ _ _ hne]
    | some cap => simp [h, h2, GoMap.lookup_set_ne _ _ _ _ hne]

theorem lookup_update_isSome (p : podStore) (id key name : String) (cpu memory : Quantity) :
    ((updateStoreUnsafe p id key name cpu memory).1.lookup key).isSome = true := by
  unfold updateStoreUnsafe
  cases h : p.lookup key with
  | none => simp [h, GoMap.lookup_set_self]
  | some entry =>
    cases h2 : entry.lookup name with
    | none => simp [h, h2, GoMap.lookup_set_self]
    | some cap => simp [h, h2, GoMap.lookup_set_self]

theorem update_changed_iff (p : podStore) (id key name : String) (cpu memory : Quantity) :
    (updateStoreUnsafe p id key name cpu memory).2 = true ↔
      getRec p key name ≠ some ⟨cpu, memory, id⟩ := by
  unfold updateStoreUnsafe getRec
  cases h : p.lookup key with
  | none => simp [h]
  | some entry =>
    cases h2 : entry.lookup name with
    | none => simp [h, h2, h2]
    | some cap => simp [h, h2, CAS_snd_iff_ne]

theorem update_unchanged_eq (p : podStore) (id key name : String) (cpu memory : Quantity)
    (h : (updateStoreUnsafe p id key name cpu memory).2 = false) :
    (updateStoreUnsafe p id key name cpu memory).1 = p := by
  have hrec : getRec p key name = some ⟨cpu, memory, id⟩ := by
    by_contra hc
    have := (update_changed_iff p id key name cpu memory).2 hc
    rw [h] at this
    exact Bool.false_ne_true this
  unfold updateStoreUnsafe
  unfold getRec at hrec
  cases h1 : p.lookup key with
  | none => simp [h1] at hrec
  | some entry =>
    simp only [h1] at hrec
    simp only [hrec, CAS_fst]
    rw [GoMap.set_of_lookup entry name _ hrec, GoMap.set_of_lookup p key entry h1]

/-! ## Lemmas on the loop of `Update` -/

theorem updateStep_fst (pod : Pod) (st : podStore × Bool) (c : Container) :
    (updateStep pod st c).1 =
      (updateStoreUnsafe st.1 (fetchID pod c.Name) (podKey pod) c.Name
        c.Resources.Limits.Cpu c.Resources.Limits.Memory).1 := by
  unfold updateStep
  simp only
  split <;> rfl

theorem updateStep_snd (pod : Pod) (st : podStore × Bool) (c : Container) :
    (updateStep pod st c).2 =
      ((updateStoreUnsafe st.1 (fetchID pod c.Name) (podKey pod) c.Name
        c.Resources.Limits.Cpu c.Resources.Limits.Memory).2 || st.2) := by
  unfold updateStep
  simp only
  split
  · next h => simp [h]
  · next h => simp [h]

theorem updateStep_getRec_self (pod : Pod) (st : podStore × Bool) (c : Container) :
    getRec (updateStep pod st c).1 (podKey pod) c.Name = some (recordOf pod c) := by
  rw [updateStep_fst]
  exact getRec_update_self _ _ _ _ _ _

theorem updateStep_getRec_ne (pod : Pod) (st : podStore × Bool) (c : Container) (n : String)
    (hne : n ≠ c.Name) :
    getRec (updateStep pod st c).1 (podKey pod) n = getRec st.1 (podKey pod) n := by
  rw [updateStep_fst]
  exact getRec_update_ne _ _ _ _ _ _ _ hne

theorem updateStep_changed_iff (pod : Pod) (st : podStore × Bool) (c : Container) :
    (updateStep pod st c).2 = true ↔
      (getRec st.1 (podKey pod) c.Name ≠ some (recordOf pod c) ∨ st.2 = true) := by
  rw [updateStep_snd, Bool.or_eq_true, update_changed_iff]
  rfl

theorem updateStep_stable (pod : Pod) (st : podStore × Bool) (c : Container)
    (h : getRec st.1 (podKey pod) c.Name = some (recordOf pod c)) :
    updateStep pod st c = st := by
  have h2 : (updateStoreUnsafe st.1 (fetchID pod c.Name) (podKey pod) c.Name
      c.Resources.Limits.Cpu c.Resources.Limits.Memory).2 = false := by
    by_contra hc
    have hc2 := (update_changed_iff _ _ _ _ _ _).1 (by simpa using hc)
    exact hc2 h
  have h1 := update_unchanged_eq _ _ _ _ _ _ h2
  unfold updateStep
  simp only [h2, h1]
  rfl

theorem fold_getRec_not_mem (pod : Pod) (l : List Container) (st : podStore × Bool) (n : String)
    (hn : n ∉ l.map Container.Name) :
    getRec (l.foldl (updateStep pod) st).1 (podKey pod) n = getRec st.1 (podKey pod) n := by
  induction l generalizing st with
  | nil => rfl
  | cons c tl ih =>
    simp only [List.map_cons, List.mem_cons, not_or] at hn
    rw [List.foldl_cons, ih _ hn.2, updateStep_getRec_ne _ _ _ _ hn.1]

theorem fold_getRec_mem (pod : Pod) (l : List Container) (st : podStore × Bool)
    (hnd : (l.map Container.Name).Nodup) (c : Container) (hc : c ∈ l) :
    getRec (l.foldl (updateStep pod) st).1 (podKey pod) c.Name = some (recordOf pod c) := by
  induction l generalizing st with
  | nil => simp at hc
  | cons d tl ih =>
    simp only [List.map_cons, List.nodup_cons] at hnd
    rw [List.foldl_cons]
    rcases List.mem_cons.1 hc with h | h
    · subst h
      rw [fold_getRec_not_mem _ _ _ _ hnd.1]
      exact updateStep_getRec_self _ _ _
    · exact ih _ hnd.2 h

theorem fold_changed_of_true (pod : Pod) (l : List Container) (st : podStore × Bool)
    (h : st.2 = true) : (l.foldl (updateStep pod) st).2 = true := by
  induction l generalizing st with
  | nil => exact h
  | cons c tl ih =>
    rw [List.foldl_cons]
    exact ih _ ((updateStep_changed_iff _ _ _).2 (Or.inr h))

theorem fold_changed_iff (pod : Pod) (l : List Container) (st : podStore × Bool)
    (hnd : (l.map Container.Name).Nodup) :
    (l.foldl (updateStep pod) st).2 = true ↔
      (st.2 = true ∨ ∃ c ∈ l, getRec st.1 (podKey pod) c.Name ≠ some (recordOf pod c)) := by
  induction l generalizing st with
  | nil => simp
  | cons d tl ih =>
    simp only [List.map_cons, List.nodup_cons] at hnd
    rw [List.foldl_cons, ih _ hnd.2, updateStep_changed_iff]
    have key : ∀ c ∈ tl, getRec (updateStep pod st d).1 (podKey pod) c.Name =
        getRec st.1 (podKey pod) c.Name := by
      intro c hc
      apply updateStep_getRec_ne
      intro heq
      exact hnd.1 (heq ▸ List.mem_map_of_mem Container.Name hc)
    constructor
    · rintro ((h | h) | ⟨c, hc, h⟩)
      · exact Or.inr ⟨d, List.mem_cons_self _ _, h⟩
      · exact Or.inl h
      · exact Or.inr ⟨c, List.mem_cons_of_mem _ hc, by rwa [key c hc] at h⟩
    · rintro (h | ⟨c, hc, h⟩)
      · exact Or.inl (Or.inr h)
      · rcases List.mem_cons.1 hc with h2 | h2
        · subst h2
          exact Or.inl (Or.inl h)
        · exact Or.inr ⟨c, h2, by rwa [key c h2]⟩

theorem fold_stable (pod : Pod) (l : List Container) (st : podStore × Bool)
    (h : ∀ c ∈ l, getRec st.1 (podKey pod) c.Name = some (recordOf pod c)) :
    l.foldl (updateStep pod) st = st := by
  induction l with
  | nil => rfl
  | cons d tl ih =>
    rw [List.foldl_cons, updateStep_stable _ _ _ (h d (List.mem_cons_self _ _))]
    exact ih (fun c hc => h c (List.mem_cons_of_mem _ hc))

theorem fold_unchanged (pod : Pod) (l : List Container) (st : podStore × Bool)
    (h : (l.foldl (updateStep pod) st).2 = false) :
    l.foldl (updateStep pod) st = st := by
  induction l generalizing st with
  | nil => rfl
  | cons d tl ih =>
    rw [List.foldl_cons] at h ⊢
    have h1 := ih _ h
    rw [h1] at h ⊢
    have h2 : getRec st.1 (podKey pod) d.Name = some (recordOf pod d) := by
      by_contra hc
      have := (updateStep_changed_iff pod st d).2 (Or.inl hc)
      rw [h] at this
      exact Bool.false_ne_true this
    exact updateStep_stable _ _ _ h2

theorem fold_lookup_other (pod : Pod) (l : List Container) (st : podStore × Bool) (k2 : String)
    (hne : k2 ≠ podKey pod) :
    (l.foldl (updateStep pod) st).1.lookup k2 = st.1.lookup k2 := by
  induction l generalizing st with
  | nil => rfl
  | cons d tl ih =>
    rw [List.foldl_cons, ih, updateStep_fst]
    exact lookup_update_other _ _ _ _ _ _ _ hne

theorem fold_getRec_isSome (pod : Pod) (l : List Container) (st : podStore × Bool) (n : String) :
    (getRec (l.foldl (updateStep pod) st).1 (podKey pod) n).isSome = true ↔
      (n ∈ l.map Container.Name ∨ (getRec st.1 (podKey pod) n).isSome = true) := by
  induction l generalizing st with
  | nil => simp
  | cons d tl ih =>
    rw [List.foldl_cons, ih]
    by_cases hn : n = d.Name
    · subst hn
      simp [updateStep_getRec_self]
    · rw [updateStep_getRec_ne _ _ _ _ hn]
      simp [hn]

theorem fold_table_isSome (pod : Pod) (l : List Container) (st : podStore × Bool)
    (h : l ≠ [] ∨ (st.1.lookup (podKey pod)).isSome = true) :
    ((l.foldl (updateStep pod) st).1.lookup (podKey pod)).isSome = true := by
  induction l generalizing st with
  | nil =>
    rcases h with h | h
    · exact absurd rfl h
    · exact h
  | cons d tl ih =>
    rw [List.foldl_cons]
    apply ih
    right
    rw [updateStep_fst]
    exact lookup_update_isSome _ _ _ _ _ _

theorem podStore_ne_of_getRec_ne (p q : podStore) (key n : String)
    (h : getRec p key n ≠ getRec q key n) : p ≠ q := by
  intro heq
  exact h (heq ▸ rfl)

/-! ## The claims on `Update` -/

/-- C1: for every store and every snapshot of a workload (the names of a
workload's containers are unique within it: they are pairwise distinct),
calling `Update` twice in a row with that snapshot returns false on the second
call, and the second call leaves the whole table, hence every record, exactly
as the first call left it. -/
theorem C1_update_twice (p : podStore) (pod : Pod)
    (hnd : (pod.Spec.Containers.map Container.Name).Nodup) :
    Update (Update p pod).1 pod = ((Update p pod).1, false) := by
  unfold Update
  exact fold_stable pod _ (_, false) (fun c hc => fold_getRec_mem pod _ _ hnd c hc)

theorem C1_update_twice_witness :
    (podAB.Spec.Containers.map Container.Name).Nodup ∧
      Update (Update emptyStore podAB).1 podAB = ((Update emptyStore podAB).1, false) :=
  ⟨by decide, C1_update_twice emptyStore podAB (by decide)⟩

/-- C2: for every store and every snapshot whose container names are pairwise
distinct, `Update` returns true if and only if some container of the snapshot
had no record, or a record with another identifier, CPU value or memory value,
and now has the record built from the snapshot (a record was inserted or
altered); if and only if some record of the workload's table differs afterwards
from what it was before; if and only if the table as a whole differs.  A false
result means that the table is exactly what it was. -/
theorem C2_update_true_iff_changed (p : podStore) (pod : Pod)
    (hnd : (pod.Spec.Containers.map Container.Name).Nodup) :
    ((Update p pod).2 = true ↔
        ∃ c ∈ pod.Spec.Containers,
          getRec p (podKey pod) c.Name ≠ some (recordOf pod c) ∧
            getRec (Update p pod).1 (podKey pod) c.Name = some (recordOf pod c)) ∧
      ((Update p pod).2 = true ↔
        ∃ n, getRec (Update p pod).1 (podKey pod) n ≠ getRec p (podKey pod) n) ∧
      ((Update p pod).2 = true ↔ (Update p pod).1 ≠ p) ∧
      ((Update p pod).2 = false → (Update p pod).1 = p) := by
  have hfalse : (Update p pod).2 = false → (Update p pod).1 = p := by
    intro h
    have := fold_unchanged pod pod.Spec.Containers (p, false) h
    unfold Update
    rw [this]
  have hrec : (Update p pod).2 = true →
      ∃ c ∈ pod.Spec.Containers,
        getRec p (podKey pod) c.Name ≠ some (recordOf pod c) ∧
          getRec (Update p pod).1 (podKey pod) c.Name = some (recordOf pod c) := by
    intro h
    rcases (fold_changed_iff pod pod.Spec.Containers (p, false) hnd).1 h with h1 | ⟨c, hc, h1⟩
    · exact absurd h1 (by simp)
    · exact ⟨c, hc, h1, fold_getRec_mem pod pod.Spec.Containers (p, false) hnd c hc⟩
  have htrue : (Update p pod).2 = true →
      ∃ n, getRec (Update p pod).1 (podKey pod) n ≠ getRec p (podKey pod) n := by
    intro h
    obtain ⟨c, _, h1, h2⟩ := hrec h
    refine ⟨c.Name, ?_⟩
    rw [h2]
    exact fun heq => h1 heq.symm
  have hback : (∃ n, getRec (Update p pod).1 (podKey pod) n ≠ getRec p (podKey pod) n) →
      (Update p pod).2 = true := by
    rintro ⟨n, hn⟩
    by_contra hc
    rw [hfalse (by simpa using hc)] at hn
    exact hn rfl
  refine ⟨⟨hrec, ?_⟩, ⟨htrue, hback⟩, ⟨?_, ?_⟩, hfalse⟩
  · rintro ⟨c, _, h1, h2⟩
    exact hback ⟨c.Name, by rw [h2]; exact fun heq => h1 heq.symm⟩
  · intro h
    obtain ⟨n, hn⟩ := htrue h
    exact podStore_ne_of_getRec_ne _ _ _ _ hn
  · intro hne
    by_contra hc
    exact hne (hfalse (by simpa using hc))

theorem C2_update_true_iff_changed_witness :
    (podA200.Spec.Containers.map Container.Name).Nodup ∧
      (((Update storeA100 podA200).2 = true ↔
          ∃ c ∈ podA200.Spec.Containers,
            getRec storeA100 (podKey podA200) c.Name ≠ some (recordOf podA200 c) ∧
              getRec (Update storeA100 podA200).1 (podKey podA200) c.Name =
                some (recordOf podA200 c)) ∧
        ((Update storeA100 podA200).2 = true ↔
          ∃ n, getRec (Update storeA100 podA200).1 (podKey podA200) n ≠
            getRec storeA100 (podKey podA200) n) ∧
        ((Update storeA100 podA200).2 = true ↔ (Update storeA100 podA200).1 ≠ storeA100) ∧
        ((Update storeA100 podA200).2 = false → (Update storeA100 podA200).1 = storeA100)) :=
  ⟨by decide, C2_update_true_iff_changed storeA100 podA200 (by decide)⟩

/-- C3: for every store that holds no table for the snapshot's workload
identity and every snapshot of a workload (a workload has one or more
containers), `Update` returns true and afterwards the store holds a table for
that identity whose container names are exactly the container names of the
snapshot. -/
theorem C3_update_unseen (p : podStore) (pod : Pod)
    (hnone : p.lookup (podKey pod) = none) (hne : pod.Spec.Containers ≠ []) :
    (Update p pod).2 = true ∧
      ∃ t, (Update p pod).1.lookup (podKey pod) = some t ∧
        ∀ n, n ∈ t.keys ↔ n ∈ pod.Spec.Containers.map Container.Name := by
  have hrec : ∀ n, getRec p (podKey pod) n = none := by
    intro n
    unfold getRec
    rw [hnone]
  constructor
  · unfold Update
    cases hl : pod.Spec.Containers with
    | nil => exact absurd hl hne
    | cons c tl =>
      rw [List.foldl_cons]
      apply fold_changed_of_true
      rw [updateStep_changed_iff]
      left
      rw [hrec]
      simp
  · have hsome := fold_table_isSome pod pod.Spec.Containers (p, false) (Or.inl hne)
    obtain ⟨t, ht⟩ := Option.isSome_iff_exists.1 hsome
    refine ⟨t, ht, ?_⟩
    intro n
    have h := fold_getRec_isSome pod pod.Spec.Containers (p, false) n
    have hget : getRec (pod.Spec.Containers.foldl (updateStep pod) (p, false)).1 (podKey pod) n =
        t.lookup n := by
      unfold getRec
      rw [ht]
    rw [hget] at h
    rw [GoMap.mem_keys_iff, h]
    simp [hrec]

theorem C3_update_unseen_witness :
    emptyStore.lookup (podKey podAB) = none ∧ podAB.Spec.Containers ≠ [] ∧
      ((Update emptyStore podAB).2 = true ∧
        ∃ t, (Update emptyStore podAB).1.lookup (podKey podAB) = some t ∧
          ∀ n, n ∈ t.keys ↔ n ∈ podAB.Spec.Containers.map Container.Name) :=
  ⟨by decide, by decide, C3_update_unseen emptyStore podAB (by decide) (by decide)⟩

/-- C4: when the table of workload `key` already holds a record `cap` for
container `name`, `updateStoreUnsafe` (through `CAS`) reports changed if and
only if the identifier, the CPU value or the memory value differs from the
stored one; the record afterwards has each of the three fields replaced exactly
when it differed, so that it equals the new values field by field; and the
record of every other container of that workload is unchanged. -/
theorem C4_update_existing (p : podStore) (id key name : String) (cpu memory : Quantity)
    (entry : containerStore) (cap : capacity)
    (hentry : p.lookup key = some entry) (hcap : entry.lookup name = some cap) :
    ((updateStoreUnsafe p id key name cpu memory).2 = true ↔
        (cap.ID ≠ id ∨ cap.CPU ≠ cpu ∨ cap.Memory ≠ memory)) ∧
      getRec (updateStoreUnsafe p id key name cpu memory).1 key name =
        some { CPU := if cap.CPU ≠ cpu then cpu else cap.CPU,
               Memory := if cap.Memory ≠ memory then memory else cap.Memory,
               ID := if cap.ID ≠ id then id else cap.ID } ∧
      getRec (updateStoreUnsafe p id key name cpu memory).1 key name =
        some { CPU := cpu, Memory := memory, ID := id } ∧
      ∀ n, n ≠ name →
        getRec (updateStoreUnsafe p id key name cpu memory).1 key n = getRec p key n := by
  refine ⟨?_, ?_, getRec_update_self _ _ _ _ _ _, fun n hn => getRec_update_ne _ _ _ _ _ _ _ hn⟩
  · have h : (updateStoreUnsafe p id key name cpu memory).2 = (CAS cap cpu memory id).2 := by
      unfold updateStoreUnsafe
      simp [hentry, hcap]
    rw [h]
    exact CAS_snd cap cpu memory id
  · rw [getRec_update_self]
    obtain ⟨c, m, i⟩ := cap
    by_cases h1 : i = id <;> by_cases h2 : c = cpu <;> by_cases h3 : m = memory <;>
      simp [h1, h2, h3]

theorem C4_update_existing_witness :
    storeA100.lookup "ns/app" = some tableA100 ∧ tableA100.lookup "a" = some capA100 ∧
      (Update storeA100 podA200).2 = true ∧
      getRec storeA100 "ns/app" "a" = some ⟨⟨1000000000⟩, ⟨100000000000⟩, ""⟩ ∧
      getRec (Update storeA100 podA200).1 "ns/app" "a" =
        some ⟨⟨1000000000⟩, ⟨200000000000⟩, ""⟩ ∧
      (((updateStoreUnsafe storeA100 "" "ns/app" "a" ⟨1000000000⟩ ⟨200000000000⟩).2 = true ↔
          (capA100.ID ≠ "" ∨ capA100.CPU ≠ ⟨1000000000⟩ ∨ capA100.Memory ≠ ⟨200000000000⟩)) ∧
        getRec (updateStoreUnsafe storeA100 "" "ns/app" "a" ⟨1000000000⟩ ⟨200000000000⟩).1
            "ns/app" "a" =
          some { CPU := if capA100.CPU ≠ ⟨1000000000⟩ then ⟨1000000000⟩ else capA100.CPU,
                 Memory :=
                   if capA100.Memory ≠ ⟨200000000000⟩ then ⟨200000000000⟩ else capA100.Memory,
                 ID := if capA100.ID ≠ "" then "" else capA100.ID } ∧
        getRec (updateStoreUnsafe storeA100 "" "ns/app" "a" ⟨1000000000⟩ ⟨200000000000⟩).1
            "ns/app" "a" =
          some { CPU := ⟨1000000000⟩, Memory := ⟨200000000000⟩, ID := "" } ∧
        ∀ n, n ≠ "a" →
          getRec (updateStoreUnsafe storeA100 "" "ns/app" "a" ⟨1000000000⟩ ⟨200000000000⟩).1
              "ns/app" n =
            getRec storeA100 "ns/app" n) :=
  ⟨by decide, by decide, by decide, by decide, by decide,
    C4_update_existing storeA100 "" "ns/app" "a" ⟨1000000000⟩ ⟨200000000000⟩ tableA100 capA100
      (by decide) (by decide)⟩

/-! ## The claims on `fetchID` -/

theorem split_no_separator (n : Nat) : ∀ (l cur : List Char), l.length ≤ n →
    ¬ (['/', '/'] <:+: l) → splitSlashSlash l cur = [cur.reverse ++ l] := by
  induction n with
  | zero =>
    intro l cur hl _
    have : l = [] := List.length_eq_zero.1 (Nat.le_zero.1 hl)
    subst this
    simp [splitSlashSlash]
  | succ n ih =>
    intro l cur hl hno
    match l with
    | [] => simp [splitSlashSlash]
    | [c] => simp [splitSlashSlash]
    | c :: d :: rest =>
      have hcd : ¬ (c = '/' ∧ d = '/') := by
        rintro ⟨rfl, rfl⟩
        exact hno ⟨[], rest, rfl⟩
      have hno2 : ¬ (['/', '/'] <:+: d :: rest) := by
        rintro ⟨a, b, hab⟩
        exact hno ⟨c :: a, b, by simp [← hab]⟩
      have hlen : (d :: rest).length ≤ n := by
        simp only [List.length_cons] at hl ⊢
        omega
      rw [splitSlashSlash, if_neg hcd, ih (d :: rest) (c :: cur) hlen hno2]
      simp

theorem split_last_segment (n : Nat) : ∀ (pre cur id : List Char), pre.length ≤ n →
    pre.getLast? ≠ some '/' → ¬ (['/', '/'] <:+: id) →
    ∃ init, splitSlashSlash (pre ++ '/' :: '/' :: id) cur = init ++ [id] := by
  induction n with
  | zero =>
    intro pre cur id hl _ hid
    have : pre = [] := List.length_eq_zero.1 (Nat.le_zero.1 hl)
    subst this
    refine ⟨[cur.reverse], ?_⟩
    rw [List.nil_append, splitSlashSlash, if_pos ⟨rfl, rfl⟩,
      split_no_separator id.length id [] (Nat.le_refl _) hid]
    simp
  | succ n ih =>
    intro pre cur id hl hpre hid
    match pre with
    | [] =>
      refine ⟨[cur.reverse], ?_⟩
      rw [List.nil_append, splitSlashSlash, if_pos ⟨rfl, rfl⟩,
        split_no_separator id.length id [] (Nat.le_refl _) hid]
      simp
    | [c] =>
      have hc : c ≠ '/' := by
        intro h
        apply hpre
        simp [h]
      obtain ⟨init, hinit⟩ := ih [] (c :: cur) id (Nat.zero_le _) (by simp) hid
      refine ⟨init, ?_⟩
      have hcd : ¬ (c = '/' ∧ '/' = '/') := fun h => hc h.1
      rw [List.singleton_append, splitSlashSlash, if_neg hcd]
      exact hinit
    | c :: d :: rest =>
      have hlen : (d :: rest).length ≤ n := by
        simp only [List.length_cons] at hl ⊢
        omega
      have hlast : (d :: rest).getLast? ≠ some '/' := by
        intro h
        apply hpre
        rw [List.getLast?_cons_cons]
        exact h
      by_cases hcd : c = '/' ∧ d = '/'
      · have hrest : rest.getLast? ≠ some '/' := by
          intro h
          apply hlast
          cases rest with
          | nil => simp at h
          | cons r rs =>
            rw [List.getLast?_cons_cons]
            exact h
        have hlen2 : rest.length ≤ n := by
          simp only [List.length_cons] at hl
          omega
        obtain ⟨init, hinit⟩ := ih rest [] id hlen2 hrest hid
        refine ⟨cur.reverse :: init, ?_⟩
        rw [List.cons_append, List.cons_append, splitSlashSlash, if_pos hcd, hinit]
        rfl
      · obtain ⟨init, hinit⟩ := ih (d :: rest) (c :: cur) id hlen hlast hid
        refine ⟨init, ?_⟩
        rw [List.cons_append, List.cons_append, splitSlashSlash, if_neg hcd]
        exact hinit

theorem splitSlashSlash_ne_nil : ∀ (n : Nat) (l cur : List Char), l.length ≤ n →
    splitSlashSlash l cur ≠ [] := by
  intro n
  induction n with
  | zero =>
    intro l cur hl
    have : l = [] := List.length_eq_zero.1 (Nat.le_zero.1 hl)
    subst this
    simp [splitSlashSlash]
  | succ n ih =>
    intro l cur hl
    match l with
    | [] => simp [splitSlashSlash]
    | [c] => simp [splitSlashSlash]
    | c :: d :: rest =>
      have hlen : (d :: rest).length ≤ n := by
        simp only [List.length_cons] at hl ⊢
        omega
      rw [splitSlashSlash]
      split
      · simp
      · exact ih (d :: rest) (c :: cur) hlen

theorem Split_length_pos (s : String) : (Split s).length > 0 := by
  unfold Split
  rw [List.length_map]
  exact List.length_pos.2 (splitSlashSlash_ne_nil s.data.length s.data [] (Nat.le_refl _))

theorem lastSegment_of_handle (pre id : String)
    (hpre : pre.data.getLast? ≠ some '/') (hid : ¬ (['/', '/'] <:+: id.data)) :
    lastSegment (pre ++ "//" ++ id) = id := by
  obtain ⟨init, hinit⟩ :=
    split_last_segment pre.data.length pre.data [] id.data (Nat.le_refl _) hpre hid
  unfold lastSegment Split
  have hdata : (pre ++ "//" ++ id).data = pre.data ++ '/' :: '/' :: id.data := by
    simp [String.data_append]
  rw [hdata, hinit, List.map_append, List.map_singleton, List.getLastD_concat]

theorem fetchIDLoop_no_match (name : String) (l : List ContainerStatus)
    (h : ∀ st ∈ l, st.Name ≠ name) : fetchIDLoop name l = "" := by
  induction l with
  | nil => rfl
  | cons st tl ih =>
    rw [fetchIDLoop, if_neg (h st (List.mem_cons_self _ _))]
    exact ih (fun s hs => h s (List.mem_cons_of_mem _ hs))

theorem fetchIDLoop_first_match (name : String) (before after : List ContainerStatus)
    (st : ContainerStatus) (hb : ∀ s ∈ before, s.Name ≠ name) (hst : st.Name = name) :
    fetchIDLoop name (before ++ st :: after) = "/docker/" ++ lastSegment st.ContainerID := by
  induction before with
  | nil =>
    rw [List.nil_append, fetchIDLoop, if_pos hst]
    simp only
    rw [if_pos (Split_length_pos _)]
  | cons b tl ih =>
    rw [List.cons_append, fetchIDLoop, if_neg (hb b (List.mem_cons_self _ _))]
    exact ih (fun s hs => hb s (List.mem_cons_of_mem _ hs))

/-- C5, counterexample to the claim as stated: for container `web` with the
runtime handle `docker://abc123` the trailing segment is `abc123`, but `fetchID`
returns `/docker/abc123`. -/
theorem C5_counterexample :
    lastSegment "docker://abc123" = "abc123" ∧ fetchID podWeb "web" = "/docker/abc123" ∧
      fetchID podWeb "web" ≠ "abc123" := by
  decide

/-- C5, amended: for every snapshot and container name, `fetchID` is the empty
string when no status entry has that name; otherwise, when the first status
entry with that name carries a runtime handle `pre//id` (`pre` not ending in a
slash, `id` without `//`), `fetchID` is `/docker/` followed by the trailing
segment `id`. -/
theorem C5_fetchID (pod : Pod) (name : String) :
    ((∀ st ∈ pod.Status.ContainerStatuses, st.Name ≠ name) → fetchID pod name = "") ∧
      ∀ (before after : List ContainerStatus) (st : ContainerStatus) (pre id : String),
        pod.Status.ContainerStatuses = before ++ st :: after →
        (∀ s ∈ before, s.Name ≠ name) → st.Name = name →
        st.ContainerID = pre ++ "//" ++ id →
        pre.data.getLast? ≠ some '/' → ¬ (['/', '/'] <:+: id.data) →
        fetchID pod name = "/docker/" ++ id := by
  constructor
  · intro h
    exact fetchIDLoop_no_match name _ h
  · intro before after st pre id hl hb hst hid hpre hno
    unfold fetchID
    rw [hl, fetchIDLoop_first_match name before after st hb hst, hid,
      lastSegment_of_handle pre id hpre hno]

theorem C5_fetchID_witness :
    (∀ st ∈ podA100.Status.ContainerStatuses, st.Name ≠ "a") ∧ fetchID podA100 "a" = "" ∧
      podWeb.Status.ContainerStatuses = [] ++ (⟨"web", "docker://abc123"⟩ : ContainerStatus) :: [] ∧
      ("docker:" : String).data.getLast? ≠ some '/' ∧
      ¬ (['/', '/'] <:+: ("abc123" : String).data) ∧
      fetchID podWeb "web" = "/docker/" ++ "abc123" :=
  ⟨by decide, (C5_fetchID podA100 "a").1 (by decide), by decide, by decide, by decide,
    (C5_fetchID podWeb "web").2 [] [] ⟨"web", "docker://abc123"⟩ "docker:" "abc123"
      (by decide) (by decide) (by decide) (by decide) (by decide) (by decide)⟩

/-! ## Lemmas on rendering -/

set_option maxRecDepth 100000 in
theorem cpuTmpl_nodes : cpuTmpl = cpuTmplNodes := by
  decide

set_option maxRecDepth 100000 in
theorem memTmpl_nodes : memTmpl = memTmplNodes := by
  decide

theorem lookupField_Namespace (c : content) : c.lookupField "Namespace" = some c.Namespace := rfl

theorem lookupField_PodName (c : content) : c.lookupField "PodName" = some c.PodName := rfl

theorem lookupField_Container (c : content) : c.lookupField "Container" = some c.Container := rfl

theorem lookupField_ID (c : content) : c.lookupField "ID" = some c.ID := rfl

theorem lookupField_Target (c : content) : c.lookupField "Target" = some c.Target := rfl

theorem lookupField_Severity (c : content) : c.lookupField "Severity" = some c.Severity := rfl

theorem Execute_cpuTmpl (writer : String) (c : content) :
    Execute cpuTmpl writer c = writer ++ cpuBlock c := by
  rw [cpuTmpl_nodes]
  simp only [cpuTmplNodes, Execute, lookupField_Namespace, lookupField_PodName,
    lookupField_Container, lookupField_ID, lookupField_Target, lookupField_Severity, cpuBlock,
    String.append_assoc]

theorem Execute_memTmpl (writer : String) (c : content) :
    Execute memTmpl writer c = writer ++ memBlock c := by
  rw [memTmpl_nodes]
  simp only [memTmplNodes, Execute, lookupField_Namespace, lookupField_PodName,
    lookupField_Container, lookupField_ID, lookupField_Target, lookupField_Severity, memBlock,
    String.append_assoc]

theorem string_append_eq_empty (a b : String) : a ++ b = "" ↔ a = "" ∧ b = "" := by
  constructor
  · intro h
    have hd := congrArg String.data h
    rw [String.data_append] at hd
    have hd2 : a.data ++ b.data = [] := hd
    rw [List.append_eq_nil] at hd2
    exact ⟨String.ext hd2.1, String.ext hd2.2⟩
  · rintro ⟨rfl, rfl⟩
    rfl

theorem cpuBlock_ne_empty (c : content) : cpuBlock c ≠ "" := by
  unfold cpuBlock
  simp only [String.append_assoc]
  intro h
  have h1 := ((string_append_eq_empty _ _).1 h).1
  exact absurd h1 (by decide)

theorem memBlock_ne_empty (c : content) : memBlock c ≠ "" := by
  unfold memBlock
  simp only [String.append_assoc]
  intro h
  have h1 := ((string_append_eq_empty _ _).1 h).1
  exact absurd h1 (by decide)

theorem renderEntry_eq (ns name : String) (lib : Int64Readings) (wf cf : GoFloat) (writer : String)
    (entry : String × capacity) :
    renderEntry ns name lib wf cf writer entry =
      (recordBlocks ns name lib wf cf entry).foldl (fun w b => w ++ b) writer := by
  obtain ⟨container, cap⟩ := entry
  unfold renderEntry recordBlocks qualifies
  by_cases h1 : cap.ID = "" <;> by_cases h2 : cap.CPU.IsZero = true <;>
    by_cases h3 : cap.Memory.IsZero = true <;>
    simp [h1, h2, h3, Execute_cpuTmpl, Execute_memTmpl]

theorem foldl_renderEntry (ns name : String) (lib : Int64Readings) (wf cf : GoFloat) (l : List (String × capacity))
    (writer : String) :
    l.foldl (renderEntry ns name lib wf cf) writer =
      (l.flatMap (recordBlocks ns name lib wf cf)).foldl (fun w b => w ++ b) writer := by
  induction l generalizing writer with
  | nil => rfl
  | cons e tl ih => rw [List.foldl_cons, renderEntry_eq, ih, List.flatMap_cons, List.foldl_append]

theorem GenerateAlertRule_text (p : podStore) (lib : Int64Readings) (wf cf : GoFloat) (pod : Pod) :
    (GenerateAlertRule p lib wf cf pod).2 =
      writeAll ((tableEntries p (podKey pod)).flatMap
        (recordBlocks pod.Namespace pod.Name lib wf cf)) := by
  unfold GenerateAlertRule writeAll
  exact foldl_renderEntry _ _ _ _ _ _ _

theorem foldl_append_eq_empty (bs : List String) (w : String) :
    bs.foldl (fun w b => w ++ b) w = "" ↔ w = "" ∧ ∀ b ∈ bs, b = "" := by
  induction bs generalizing w with
  | nil => simp
  | cons b tl ih =>
    rw [List.foldl_cons, ih, string_append_eq_empty]
    simp only [List.mem_cons, forall_eq_or_imp]
    tauto

theorem recordBlocks_of_not_qualifies (ns name : String) (lib : Int64Readings) (wf cf : GoFloat)
    (entry : String × capacity) (h : qualifies entry.2 = false) :
    recordBlocks ns name lib wf cf entry = [] := by
  unfold recordBlocks
  simp [h]

theorem recordBlocks_ne_empty (ns name : String) (lib : Int64Readings) (wf cf : GoFloat) (entry : String × capacity)
    (b : String) (hb : b ∈ recordBlocks ns name lib wf cf entry) : b ≠ "" := by
  unfold recordBlocks at hb
  split at hb
  · rw [List.mem_append] at hb
    rcases hb with hb | hb
    · split at hb
      · simp at hb
      · simp only [List.mem_cons, List.mem_singleton, List.not_mem_nil, or_false] at hb
        rcases hb with rfl | rfl <;> exact cpuBlock_ne_empty _
    · split at hb
      · simp at hb
      · simp only [List.mem_cons, List.mem_singleton, List.not_mem_nil, or_false] at hb
        rcases hb with rfl | rfl <;> exact memBlock_ne_empty _
  · simp at hb

theorem recordBlocks_ne_nil_of_qualifies (ns name : String) (lib : Int64Readings) (wf cf : GoFloat)
    (entry : String × capacity) (h : qualifies entry.2 = true) :
    recordBlocks ns name lib wf cf entry ≠ [] := by
  unfold recordBlocks
  unfold qualifies at h
  rw [if_pos (by simpa [qualifies] using h)]
  simp only [Bool.and_eq_true, Bool.or_eq_true, Bool.not_eq_true', decide_eq_true_eq] at h
  rcases h.2 with h2 | h2
  · simp [h2]
  · simp [h2]

theorem renderEntry_of_not_qualifies (ns name : String) (lib : Int64Readings) (wf cf : GoFloat) (writer : String)
    (entry : String × capacity) (h : qualifies entry.2 = false) :
    renderEntry ns name lib wf cf writer entry = writer := by
  rw [renderEntry_eq, recordBlocks_of_not_qualifies _ _ _ _ _ _ h]
  rfl

theorem text_eq_empty_iff (p : podStore) (lib : Int64Readings) (wf cf : GoFloat) (pod : Pod) :
    (GenerateAlertRule p lib wf cf pod).2 = "" ↔
      ∀ e ∈ tableEntries p (podKey pod), qualifies e.2 = false := by
  rw [GenerateAlertRule_text, writeAll, foldl_append_eq_empty]
  constructor
  · rintro ⟨_, h⟩ e he
    by_contra hq
    have hq2 : qualifies e.2 = true := by simpa using hq
    have hne := recordBlocks_ne_nil_of_qualifies pod.Namespace pod.Name lib wf cf e hq2
    obtain ⟨b, hb⟩ := List.exists_mem_of_ne_nil _ hne
    have hb2 : b ∈ (tableEntries p (podKey pod)).flatMap
        (recordBlocks pod.Namespace pod.Name lib wf cf) := List.mem_flatMap.2 ⟨e, he, hb⟩
    exact recordBlocks_ne_empty _ _ _ _ _ e b hb (h b hb2)
  · intro h
    refine ⟨rfl, ?_⟩
    intro b hb
    obtain ⟨e, he, hbe⟩ := List.mem_flatMap.1 hb
    rw [recordBlocks_of_not_qualifies _ _ _ _ _ _ (h e he)] at hbe
    simp at hbe

theorem lookupL_eq_some_iff_mem {β : Type} (k : String) (v : β) (l : List (String × β))
    (hnd : (l.map Prod.fst).Nodup) : lookupL k l = some v ↔ (k, v) ∈ l := by
  induction l with
  | nil => simp [lookupL]
  | cons hd tl ih =>
    obtain ⟨k', v'⟩ := hd
    simp only [List.map_cons, List.nodup_cons] at hnd
    by_cases hk : k' = k
    · subst hk
      simp only [lookupL, if_true, Option.some.injEq, List.mem_cons, Prod.mk.injEq, true_and]
      constructor
      · exact fun h => Or.inl h.symm
      · rintro (h | h)
        · exact h.symm
        · exact absurd (List.mem_map_of_mem Prod.fst h) hnd.1
    · simp only [lookupL, hk, if_false, ih hnd.2, List.mem_cons, Prod.mk.injEq]
      constructor
      · exact fun h => Or.inr h
      · rintro (h | h)
        · exact absurd h.1.symm hk
        · exact h

theorem mem_tableEntries_iff (p : podStore) (key name : String) (cap : capacity) :
    (name, cap) ∈ tableEntries p key ↔ getRec p key name = some cap := by
  unfold tableEntries getRec
  cases h : p.lookup key with
  | none => simp
  | some t => exact (lookupL_eq_some_iff_mem name cap t.entries t.nodup).symm

theorem foldl_eraseL {β γ : Type} (f : γ → String × β → γ) (k : String) (v : β)
    (hf : ∀ w, f w (k, v) = w) (l : List (String × β)) (h : lookupL k l = some v) (w : γ) :
    (eraseL k l).foldl f w = l.foldl f w := by
  induction l generalizing w with
  | nil => simp [lookupL] at h
  | cons hd tl ih =>
    obtain ⟨k', v'⟩ := hd
    by_cases hk : k' = k
    · subst hk
      simp only [lookupL, if_true, Option.some.injEq] at h
      subst h
      simp [eraseL, hf]
    · simp only [lookupL, hk, if_false] at h
      simp only [eraseL, hk, if_false, List.foldl_cons]
      exact ih h _

theorem tableEntries_set (p : podStore) (key : String) (t : containerStore) :
    tableEntries (p.set key t) key = t.entries := by
  unfold tableEntries
  rw [GoMap.lookup_set_self]

theorem lookupL_eraseL_self {β : Type} (k : String) (l : List (String × β))
    (hnd : (l.map Prod.fst).Nodup) : lookupL k (eraseL k l) = none := by
  induction l with
  | nil => rfl
  | cons hd tl ih =>
    obtain ⟨k', v'⟩ := hd
    simp only [List.map_cons, List.nodup_cons] at hnd
    by_cases hk : k' = k
    · subst hk
      simp only [eraseL, if_true]
      cases h : lookupL k' tl with
      | none => rfl
      | some v =>
        have : (lookupL k' tl).isSome = true := by rw [h]; rfl
        exact absurd ((lookupL_isSome_iff k' tl).1 this) hnd.1
    · simp only [eraseL, hk, if_false, lookupL]
      exact ih hnd.2

theorem lookupL_eraseL_ne {β : Type} (k k2 : String) (l : List (String × β)) (hne : k2 ≠ k) :
    lookupL k2 (eraseL k l) = lookupL k2 l := by
  induction l with
  | nil => rfl
  | cons hd tl ih =>
    obtain ⟨k', v'⟩ := hd
    by_cases hk : k' = k
    · subst hk
      simp [eraseL, lookupL, Ne.symm hne]
    · by_cases hk2 : k' = k2
      · subst hk2
        simp [eraseL, lookupL, hk]
      · simp [eraseL, lookupL, hk, hk2, ih]

theorem GoMap.lookup_erase_self {β : Type} (m : GoMap β) (k : String) :
    (m.erase k).lookup k = none :=
  lookupL_eraseL_self k m.entries m.nodup

theorem GoMap.lookup_erase_ne {β : Type} (m : GoMap β) (k k2 : String) (hne : k2 ≠ k) :
    (m.erase k).lookup k2 = m.lookup k2 :=
  lookupL_eraseL_ne k k2 m.entries hne

/-! ## The claims on rendering -/

/-- C6, the code at the failing input: container `web` of `ns/app` (CPU limit
500m) has not started, its status entry carries the empty runtime handle.
`strings.Split` returns one empty piece for it (it never returns an empty
slice, so the guard `len(splited) > 0` of `fetchID` cannot fail), `fetchID`
resolves the container to `/docker/`, `Update` records that non-empty
identifier, and `GenerateAlertRule` (factors 1.2 and 2.0) renders two CPU rule
blocks for it.  When the status entry is absent altogether the identifier is
empty and nothing is rendered. -/
theorem C6_not_started_container_rendered :
    Split "" = [""] ∧ (∀ s, (Split s).length > 0) ∧
      fetchID podWaiting "web" = "/docker/" ∧
      getRec (Update emptyStore podWaiting).1 "ns/app" "web" =
        some ⟨⟨500000000⟩, ⟨0⟩, "/docker/"⟩ ∧
      (GenerateAlertRule (Update emptyStore podWaiting).1 lowBits factor12 factor20 podWaiting).2 =
        cpuBlock ⟨"ns", "app", "web", "/docker/", "0.600", "warning"⟩ ++
          cpuBlock ⟨"ns", "app", "web", "/docker/", "1.000", "critical"⟩ ∧
      (GenerateAlertRule (Update emptyStore podWaiting).1 lowBits factor12 factor20 podWaiting).2 ≠ "" ∧
      getRec (Update emptyStore podNoStatus).1 "ns/app" "web" = some ⟨⟨500000000⟩, ⟨0⟩, ""⟩ ∧
      (GenerateAlertRule (Update emptyStore podNoStatus).1 lowBits factor12 factor20 podNoStatus).2 = "" := by
  have htext :
      (GenerateAlertRule (Update emptyStore podWaiting).1 lowBits factor12 factor20 podWaiting).2 =
        cpuBlock ⟨"ns", "app", "web", "/docker/", "0.600", "warning"⟩ ++
          cpuBlock ⟨"ns", "app", "web", "/docker/", "1.000", "critical"⟩ := by
    rw [GenerateAlertRule_text]
    have he : tableEntries (Update emptyStore podWaiting).1 (podKey podWaiting) =
        [("web", ⟨⟨500000000⟩, ⟨0⟩, "/docker/"⟩)] := by decide
    have h1 : cpuTarget lowBits ⟨⟨500000000⟩, ⟨0⟩, "/docker/"⟩ factor12 = "0.600" := by decide
    have h2 : cpuTarget lowBits ⟨⟨500000000⟩, ⟨0⟩, "/docker/"⟩ factor20 = "1.000" := by decide
    have hq : qualifies ⟨⟨500000000⟩, ⟨0⟩, "/docker/"⟩ = true := by decide
    have hz : Quantity.IsZero ⟨500000000⟩ = false := by decide
    have hz0 : Quantity.IsZero ⟨0⟩ = true := by decide
    rw [he]
    simp only [List.flatMap_cons, List.flatMap_nil, List.append_nil, recordBlocks, hq, if_true,
      hz, hz0, h1, h2, writeAll, List.foldl_cons, List.foldl_nil, List.cons_append,
      List.nil_append, Bool.false_eq_true, if_false]
    rfl
  refine ⟨by decide, Split_length_pos, by decide, by decide, htext, ?_, by decide, ?_⟩
  · rw [htext]
    intro h
    exact cpuBlock_ne_empty _ ((string_append_eq_empty _ _).1 h).1
  · rw [text_eq_empty_iff]
    decide

/-- C7: for every store and snapshot, a tracked record that does not qualify (its
runtime identifier is empty, or its CPU and memory limits are both zero)
contributes nothing to the rendered text: `GenerateAlertRule` returns the same
key and text as on the store from which that record is removed (the removed
store no longer holds the record and holds every other record unchanged). -/
theorem C7_non_qualifying_contributes_nothing (p : podStore) (lib : Int64Readings) (wf cf : GoFloat) (pod : Pod)
    (t : containerStore) (name : String) (cap : capacity)
    (ht : p.lookup (podKey pod) = some t) (hcap : t.lookup name = some cap)
    (hq : cap.ID = "" ∨ (cap.CPU.IsZero = true ∧ cap.Memory.IsZero = true)) :
    GenerateAlertRule (p.set (podKey pod) (t.erase name)) lib wf cf pod =
        GenerateAlertRule p lib wf cf pod ∧
      getRec (p.set (podKey pod) (t.erase name)) (podKey pod) name = none ∧
      ∀ n, n ≠ name →
        getRec (p.set (podKey pod) (t.erase name)) (podKey pod) n = getRec p (podKey pod) n := by
  have hnq : qualifies cap = false := by
    unfold qualifies
    rcases hq with h | ⟨h1, h2⟩
    · simp [h]
    · simp [h1, h2]
  refine ⟨?_, ?_, ?_⟩
  · unfold GenerateAlertRule
    simp only [Prod.mk.injEq, true_and]
    rw [tableEntries_set]
    have he : tableEntries p (podKey pod) = t.entries := by
      unfold tableEntries
      rw [ht]
    rw [he]
    exact foldl_eraseL _ name cap
      (fun w => renderEntry_of_not_qualifies _ _ _ _ _ w (name, cap) hnq) t.entries hcap _
  · unfold getRec
    rw [GoMap.lookup_set_self]
    exact GoMap.lookup_erase_self t name
  · intro n hn
    unfold getRec
    rw [GoMap.lookup_set_self, ht]
    exact GoMap.lookup_erase_ne t name n hn

theorem C7_non_qualifying_contributes_nothing_witness :
    storeAB.lookup (podKey podAB) = some tableAB ∧
      tableAB.lookup "b" = some ⟨⟨500000000⟩, ⟨0⟩, ""⟩ ∧
      (GenerateAlertRule (storeAB.set (podKey podAB) (tableAB.erase "b")) lowBits factor12 factor20 podAB =
          GenerateAlertRule storeAB lowBits factor12 factor20 podAB ∧
        getRec (storeAB.set (podKey podAB) (tableAB.erase "b")) (podKey podAB) "b" = none ∧
        ∀ n, n ≠ "b" →
          getRec (storeAB.set (podKey podAB) (tableAB.erase "b")) (podKey podAB) n =
            getRec storeAB (podKey podAB) n) :=
  ⟨by decide, by decide,
    C7_non_qualifying_contributes_nothing storeAB lowBits factor12 factor20 podAB tableAB "b"
      ⟨⟨500000000⟩, ⟨0⟩, ""⟩ (by decide) (by decide) (Or.inl rfl)⟩

/-- C8: for every store and snapshot, the text returned by `GenerateAlertRule` is
the empty string if and only if no record tracked under the snapshot's workload
identity qualifies (non-empty runtime identifier and a non-zero CPU or memory
limit). -/
theorem C8_text_empty_iff_none_qualifies (p : podStore) (lib : Int64Readings) (wf cf : GoFloat) (pod : Pod) :
    (GenerateAlertRule p lib wf cf pod).2 = "" ↔
      ∀ name cap, getRec p (podKey pod) name = some cap → qualifies cap = false := by
  rw [text_eq_empty_iff]
  constructor
  · intro h name cap hrec
    exact h (name, cap) ((mem_tableEntries_iff p _ name cap).2 hrec)
  · rintro h ⟨name, cap⟩ he
    exact h name cap ((mem_tableEntries_iff p _ name cap).1 he)

/-- C9: for every store and snapshot the text of `GenerateAlertRule` is the
blocks of the tracked records written one after the other, where a qualifying
record yields exactly two CPU blocks (warning, then critical) when its CPU limit
is non-zero and none otherwise, followed by exactly two memory blocks (warning,
then critical) when its memory limit is non-zero and none otherwise, and any
other record yields none.  For container `web` with CPU 500m, memory 0, runtime
identifier `abc123` and factors 1.2 and 2.0 the text is the CPU block with
target `0.600` followed by the CPU block with target `1.000`. -/
theorem C9_two_blocks_per_resource :
    (∀ (p : podStore) (lib : Int64Readings) (wf cf : GoFloat) (pod : Pod),
        (GenerateAlertRule p lib wf cf pod).2 =
          writeAll ((tableEntries p (podKey pod)).flatMap
            (recordBlocks pod.Namespace pod.Name lib wf cf))) ∧
      (∀ (ns name : String) (lib : Int64Readings) (wf cf : GoFloat) (e : String × capacity),
        recordBlocks ns name lib wf cf e =
          if qualifies e.2 then
            (if e.2.CPU.IsZero then []
             else [cpuBlock ⟨ns, name, e.1, e.2.ID, cpuTarget lib e.2 wf, "warning"⟩,
                   cpuBlock ⟨ns, name, e.1, e.2.ID, cpuTarget lib e.2 cf, "critical"⟩]) ++
            (if e.2.Memory.IsZero then []
             else [memBlock ⟨ns, name, e.1, e.2.ID, memTarget lib e.2 wf, "warning"⟩,
                   memBlock ⟨ns, name, e.1, e.2.ID, memTarget lib e.2 cf, "critical"⟩])
          else []) ∧
      (GenerateAlertRule storeWeb lowBits factor12 factor20 podWeb).2 =
        cpuBlock ⟨"ns", "app", "web", "abc123", "0.600", "warning"⟩ ++
          cpuBlock ⟨"ns", "app", "web", "abc123", "1.000", "critical"⟩ := by
  refine ⟨GenerateAlertRule_text, fun _ _ _ _ _ _ => rfl, ?_⟩
  rw [GenerateAlertRule_text]
  have he : tableEntries storeWeb (podKey podWeb) =
      [("web", ⟨⟨500000000⟩, ⟨0⟩, "abc123"⟩)] := by decide
  have h1 : cpuTarget lowBits ⟨⟨500000000⟩, ⟨0⟩, "abc123"⟩ factor12 = "0.600" := by decide
  have h2 : cpuTarget lowBits ⟨⟨500000000⟩, ⟨0⟩, "abc123"⟩ factor20 = "1.000" := by decide
  have hq : qualifies ⟨⟨500000000⟩, ⟨0⟩, "abc123"⟩ = true := by decide
  have hz : Quantity.IsZero ⟨500000000⟩ = false := by decide
  have hz0 : Quantity.IsZero ⟨0⟩ = true := by decide
  rw [he]
  simp only [List.flatMap_cons, List.flatMap_nil, List.append_nil, recordBlocks, hq, if_true,
    hz, hz0, h1, h2, writeAll, List.foldl_cons, List.foldl_nil, List.cons_append,
    List.nil_append, Bool.false_eq_true, if_false]
  rfl

/-- C10: for every store and snapshot, the key returned by `GenerateAlertRule` is
exactly `namespace ++ "." ++ name ++ ".generated.rule"`, whatever the store
holds and whether or not the workload is tracked. -/
theorem C10_rule_key (p : podStore) (lib : Int64Readings) (wf cf : GoFloat) (pod : Pod) :
    (GenerateAlertRule p lib wf cf pod).1 = pod.Namespace ++ "." ++ pod.Name ++ ".generated.rule" :=
  rfl

/-! ## The claims on `Delete` and on the frame of `Update` -/

theorem lookup_Delete_self (p : podStore) (pod : Pod) :
    (Delete p pod).lookup (podKey pod) = none := by
  unfold Delete deleteUnsafe
  cases h : p.lookup (podKey pod) with
  | none => simp [h]
  | some t => exact GoMap.lookup_erase_self p _

theorem lookup_Delete_ne (p : podStore) (pod : Pod) (k : String) (hne : k ≠ podKey pod) :
    (Delete p pod).lookup k = p.lookup k := by
  unfold Delete deleteUnsafe
  cases h : p.lookup (podKey pod) with
  | none => rfl
  | some t => exact GoMap.lookup_erase_ne p _ k hne

theorem Delete_of_untracked (p : podStore) (pod : Pod) (h : p.lookup (podKey pod) = none) :
    Delete p pod = p := by
  unfold Delete deleteUnsafe
  simp [h]

theorem update_congr (p q : podStore) (id key name : String) (cpu memory : Quantity)
    (h : p.lookup key = q.lookup key) :
    (updateStoreUnsafe p id key name cpu memory).1.lookup key =
        (updateStoreUnsafe q id key name cpu memory).1.lookup key ∧
      (updateStoreUnsafe p id key name cpu memory).2 =
        (updateStoreUnsafe q id key name cpu memory).2 := by
  unfold updateStoreUnsafe
  cases hq : q.lookup key with
  | none =>
    have hp : p.lookup key = none := by rw [h, hq]
    simp [hp, GoMap.lookup_set_self]
  | some entry =>
    have hp : p.lookup key = some entry := by rw [h, hq]
    cases h2 : entry.lookup name with
    | none => simp [hp, h2, GoMap.lookup_set_self]
    | some cap => simp [hp, h2, GoMap.lookup_set_self]

theorem updateStep_congr (pod : Pod) (s1 s2 : podStore × Bool) (c : Container)
    (h : s1.1.lookup (podKey pod) = s2.1.lookup (podKey pod)) (hb : s1.2 = s2.2) :
    (updateStep pod s1 c).1.lookup (podKey pod) = (updateStep pod s2 c).1.lookup (podKey pod) ∧
      (updateStep pod s1 c).2 = (updateStep pod s2 c).2 := by
  have hc := update_congr s1.1 s2.1 (fetchID pod c.Name) (podKey pod) c.Name
    c.Resources.Limits.Cpu c.Resources.Limits.Memory h
  rw [updateStep_fst, updateStep_fst, updateStep_snd, updateStep_snd, hc.2, hb]
  exact ⟨hc.1, rfl⟩

theorem fold_congr (pod : Pod) (l : List Container) (s1 s2 : podStore × Bool)
    (h : s1.1.lookup (podKey pod) = s2.1.lookup (podKey pod)) (hb : s1.2 = s2.2) :
    (l.foldl (updateStep pod) s1).1.lookup (podKey pod) =
        (l.foldl (updateStep pod) s2).1.lookup (podKey pod) ∧
      (l.foldl (updateStep pod) s1).2 = (l.foldl (updateStep pod) s2).2 := by
  induction l generalizing s1 s2 with
  | nil => exact ⟨h, hb⟩
  | cons c tl ih =>
    rw [List.foldl_cons, List.foldl_cons]
    have hc := updateStep_congr pod s1 s2 c h hb
    exact ih _ _ hc.1 hc.2

theorem Update_congr (p q : podStore) (pod : Pod)
    (h : p.lookup (podKey pod) = q.lookup (podKey pod)) :
    (Update p pod).1.lookup (podKey pod) = (Update q pod).1.lookup (podKey pod) ∧
      (Update p pod).2 = (Update q pod).2 :=
  fold_congr pod pod.Spec.Containers (p, false) (q, false) h rfl

theorem Update_unseen_true (p : podStore) (pod : Pod)
    (hnone : p.lookup (podKey pod) = none) (hne : pod.Spec.Containers ≠ []) :
    (Update p pod).2 = true := by
  unfold Update
  cases hl : pod.Spec.Containers with
  | nil => exact absurd hl hne
  | cons c tl =>
    rw [List.foldl_cons]
    apply fold_changed_of_true
    rw [updateStep_changed_iff]
    left
    unfold getRec
    rw [hnone]
    simp

theorem getRec_Update_unseen (p : podStore) (pod : Pod)
    (hnone : p.lookup (podKey pod) = none)
    (hnd : (pod.Spec.Containers.map Container.Name).Nodup) (n : String) (cap : capacity) :
    getRec (Update p pod).1 (podKey pod) n = some cap ↔
      ∃ c ∈ pod.Spec.Containers, c.Name = n ∧ recordOf pod c = cap := by
  constructor
  · intro h
    by_cases hn : n ∈ pod.Spec.Containers.map Container.Name
    · obtain ⟨c, hc, hcn⟩ := List.mem_map.1 hn
      refine ⟨c, hc, hcn, ?_⟩
      have h2 := fold_getRec_mem pod pod.Spec.Containers (p, false) hnd c hc
      rw [hcn] at h2
      unfold Update at h
      rw [h2] at h
      exact Option.some.inj h
    · have h2 := fold_getRec_not_mem pod pod.Spec.Containers (p, false) n hn
      unfold Update at h
      rw [h2] at h
      unfold getRec at h
      rw [hnone] at h
      exact absurd h (by simp)
  · rintro ⟨c, hc, rfl, rfl⟩
    exact fold_getRec_mem pod pod.Spec.Containers (p, false) hnd c hc

/-- C11: for every store `s` and snapshot `p`, `Update(p)` applied after
`Delete(p)` returns the same result and produces the same table for the
workload of `p` as `Update(p)` applied to any store `q` that holds no table for
that workload.  For the snapshot of a workload, which has one or more
containers, the result is true; and as the names of a workload's containers are
pairwise distinct, the table holds exactly the records built from `p`. -/
theorem C11_delete_then_update (s q : podStore) (pod : Pod)
    (hq : q.lookup (podKey pod) = none) :
    (Update (Delete s pod) pod).2 = (Update q pod).2 ∧
      (Update (Delete s pod) pod).1.lookup (podKey pod) = (Update q pod).1.lookup (podKey pod) ∧
      (pod.Spec.Containers ≠ [] → (Update (Delete s pod) pod).2 = true) ∧
      ((pod.Spec.Containers.map Container.Name).Nodup →
        ∀ n cap, getRec (Update (Delete s pod) pod).1 (podKey pod) n = some cap ↔
          ∃ c ∈ pod.Spec.Containers, c.Name = n ∧ recordOf pod c = cap) := by
  have hd := lookup_Delete_self s pod
  have hc := Update_congr (Delete s pod) q pod (by rw [hd, hq])
  exact ⟨hc.2, hc.1, fun hne => Update_unseen_true _ pod hd hne,
    fun hnd n cap => getRec_Update_unseen _ pod hd hnd n cap⟩

theorem C11_delete_then_update_witness :
    emptyStore.lookup (podKey podAB) = none ∧ podAB.Spec.Containers ≠ [] ∧
      (podAB.Spec.Containers.map Container.Name).Nodup ∧
      (Update (Delete storeA100 podAB) podAB).2 = true ∧
      (∀ n cap, getRec (Update (Delete storeA100 podAB) podAB).1 (podKey podAB) n = some cap ↔
          ∃ c ∈ podAB.Spec.Containers, c.Name = n ∧ recordOf podAB c = cap) ∧
      (Update (Delete storeA100 podAB) podAB).2 = (Update emptyStore podAB).2 ∧
      (Update (Delete storeA100 podAB) podAB).1.lookup (podKey podAB) =
        (Update emptyStore podAB).1.lookup (podKey podAB) :=
  ⟨by decide, by decide, by decide,
    (C11_delete_then_update storeA100 emptyStore podAB (by decide)).2.2.1 (by decide),
    (C11_delete_then_update storeA100 emptyStore podAB (by decide)).2.2.2 (by decide),
    (C11_delete_then_update storeA100 emptyStore podAB (by decide)).1,
    (C11_delete_then_update storeA100 emptyStore podAB (by decide)).2.1⟩

/-- C12: for every store and snapshot, `Delete` removes the whole table of the
snapshot's workload identity (afterwards no table, hence no record, is held
under its key) and leaves the table under every other key unchanged; when the
identity is not tracked the store is left exactly as it was.  `Delete` is a
total function: no error is raised. -/
theorem C12_delete (p : podStore) (pod : Pod) :
    (Delete p pod).lookup (podKey pod) = none ∧
      (∀ n, getRec (Delete p pod) (podKey pod) n = none) ∧
      (∀ k, k ≠ podKey pod → (Delete p pod).lookup k = p.lookup k) ∧
      (p.lookup (podKey pod) = none → Delete p pod = p) := by
  refine ⟨lookup_Delete_self p pod, ?_, lookup_Delete_ne p pod, Delete_of_untracked p pod⟩
  intro n
  unfold getRec
  rw [lookup_Delete_self]

theorem C12_delete_witness :
    (podKey podOther ≠ podKey podA100 ∧
        (Delete (Update storeA100 podOther).1 podA100).lookup (podKey podOther) =
          (Update storeA100 podOther).1.lookup (podKey podOther)) ∧
      (emptyStore.lookup (podKey podA100) = none ∧ Delete emptyStore podA100 = emptyStore) :=
  ⟨⟨by decide,
      (C12_delete (Update storeA100 podOther).1 podA100).2.2.1 (podKey podOther) (by decide)⟩,
    ⟨by decide, (C12_delete emptyStore podA100).2.2.2 (by decide)⟩⟩

theorem getRec_Update_other_key (p : podStore) (pod : Pod) (k n : String)
    (hne : k ≠ podKey pod) : getRec (Update p pod).1 k n = getRec p k n := by
  unfold getRec Update
  rw [fold_lookup_other pod pod.Spec.Containers (p, false) k hne]

theorem tableEntries_Delete (p : podStore) (pod : Pod) :
    tableEntries (Delete p pod) (podKey pod) = [] := by
  unfold tableEntries
  rw [lookup_Delete_self]

/-- C15: `Update` never removes a record: for every store and snapshot, every
(workload, container) pair tracked before `Update` is still tracked after it;
the record of a container that the snapshot does not list is left exactly as it
was, so its rule blocks are still among the blocks that `GenerateAlertRule`
writes for the workload; only `Delete` of the workload drops it. -/
theorem C15_update_never_removes (p : podStore) (pod : Pod) :
    (∀ k n, (getRec p k n).isSome = true → (getRec (Update p pod).1 k n).isSome = true) ∧
      (∀ n, n ∉ pod.Spec.Containers.map Container.Name →
        getRec (Update p pod).1 (podKey pod) n = getRec p (podKey pod) n) ∧
      (∀ (lib : Int64Readings) (wf cf : GoFloat) (n : String) (cap : capacity),
        n ∉ pod.Spec.Containers.map Container.Name → getRec p (podKey pod) n = some cap →
        (GenerateAlertRule (Update p pod).1 lib wf cf pod).2 =
            writeAll ((tableEntries (Update p pod).1 (podKey pod)).flatMap
              (recordBlocks pod.Namespace pod.Name lib wf cf)) ∧
          ∀ b ∈ recordBlocks pod.Namespace pod.Name lib wf cf (n, cap),
            b ∈ (tableEntries (Update p pod).1 (podKey pod)).flatMap
              (recordBlocks pod.Namespace pod.Name lib wf cf)) ∧
      (∀ n, getRec (Delete (Update p pod).1 pod) (podKey pod) n = none) := by
  have hstale : ∀ n, n ∉ pod.Spec.Containers.map Container.Name →
      getRec (Update p pod).1 (podKey pod) n = getRec p (podKey pod) n :=
    fun n hn => fold_getRec_not_mem pod pod.Spec.Containers (p, false) n hn
  refine ⟨?_, hstale, ?_, ?_⟩
  · intro k n h
    by_cases hk : k = podKey pod
    · subst hk
      exact (fold_getRec_isSome pod pod.Spec.Containers (p, false) n).2 (Or.inr h)
    · rw [getRec_Update_other_key p pod k n hk]
      exact h
  · intro lib wf cf n cap hn hrec
    refine ⟨GenerateAlertRule_text _ _ _ _ _, ?_⟩
    intro b hb
    have hmem : (n, cap) ∈ tableEntries (Update p pod).1 (podKey pod) := by
      rw [mem_tableEntries_iff, hstale n hn]
      exact hrec
    exact List.mem_flatMap.2 ⟨(n, cap), hmem, hb⟩
  · intro n
    unfold getRec
    rw [lookup_Delete_self]

set_option maxRecDepth 100000 in
theorem C15_update_never_removes_witness :
    (getRec storeABRunning "ns/app" "b").isSome = true ∧
      "b" ∉ podOnlyA.Spec.Containers.map Container.Name ∧
      getRec storeABRunning (podKey podOnlyA) "b" = some capBRunning ∧
      (getRec (Update storeABRunning podOnlyA).1 "ns/app" "b").isSome = true ∧
      getRec (Update storeABRunning podOnlyA).1 (podKey podOnlyA) "b" =
        getRec storeABRunning (podKey podOnlyA) "b" ∧
      ((GenerateAlertRule (Update storeABRunning podOnlyA).1 lowBits factor12 factor20 podOnlyA).2 =
          writeAll ((tableEntries (Update storeABRunning podOnlyA).1 (podKey podOnlyA)).flatMap
            (recordBlocks podOnlyA.Namespace podOnlyA.Name lowBits factor12 factor20)) ∧
        ∀ b ∈ recordBlocks podOnlyA.Namespace podOnlyA.Name lowBits factor12 factor20 ("b", capBRunning),
          b ∈ (tableEntries (Update storeABRunning podOnlyA).1 (podKey podOnlyA)).flatMap
            (recordBlocks podOnlyA.Namespace podOnlyA.Name lowBits factor12 factor20)) ∧
      recordBlocks podOnlyA.Namespace podOnlyA.Name lowBits factor12 factor20 ("b", capBRunning) ≠ [] :=
  ⟨by decide, by decide, by decide,
    (C15_update_never_removes storeABRunning podOnlyA).1 "ns/app" "b" (by decide),
    (C15_update_never_removes storeABRunning podOnlyA).2.1 "b" (by decide),
    (C15_update_never_removes storeABRunning podOnlyA).2.2.1 lowBits factor12 factor20 "b" capBRunning
      (by decide) (by decide),
    recordBlocks_ne_nil_of_qualifies _ _ _ _ _ _ (by decide)⟩

/-- C18: for every store and snapshot, `GenerateAlertRule` called right after
`Delete` on the same snapshot returns the workload's key together with the empty
text, so that the delete handler, once the configmap is fetched, always hands
back its map with that workload's key removed (and a configmap without data as
it is: deleting from a nil map does nothing). -/
theorem C18_delete_then_generate (p : podStore) (lib : Int64Readings) (wf cf : GoFloat) (pod : Pod) :
    GenerateAlertRule (Delete p pod) lib wf cf pod =
        (pod.Namespace ++ "." ++ pod.Name ++ ".generated.rule", "") ∧
      (∀ data : GoMap String,
        (DeleteFunc p lib wf cf (some (some data)) pod).2 =
            SyncOutcome.written
              (some (data.erase (pod.Namespace ++ "." ++ pod.Name ++ ".generated.rule"))) ∧
          (data.erase (pod.Namespace ++ "." ++ pod.Name ++ ".generated.rule")).lookup
            (pod.Namespace ++ "." ++ pod.Name ++ ".generated.rule") = none) ∧
      (DeleteFunc p lib wf cf (some none) pod).2 = SyncOutcome.written none := by
  have hg : GenerateAlertRule (Delete p pod) lib wf cf pod =
      (pod.Namespace ++ "." ++ pod.Name ++ ".generated.rule", "") := by
    unfold GenerateAlertRule
    simp only [tableEntries_Delete, List.foldl_nil]
    rfl
  refine ⟨hg, fun data => ⟨?_, GoMap.lookup_erase_self data _⟩, ?_⟩
  · unfold DeleteFunc
    simp only [hg]
    unfold syncToConfigmap
    simp [ConfigData.delete]
  · unfold DeleteFunc
    simp only [hg]
    unfold syncToConfigmap
    simp [ConfigData.delete]

/-- C19: for every store and snapshot, `Update` changes only the table of the
snapshot's own workload: the table held under every other key, hence every
record of every other workload, is identical before and after the call. -/
theorem C19_update_frame (p : podStore) (pod : Pod) (k : String) (hne : k ≠ podKey pod) :
    (Update p pod).1.lookup k = p.lookup k ∧
      ∀ n, getRec (Update p pod).1 k n = getRec p k n :=
  ⟨fold_lookup_other pod pod.Spec.Containers (p, false) k hne,
    fun n => getRec_Update_other_key p pod k n hne⟩

theorem C19_update_frame_witness :
    podKey podOther ≠ podKey podA200 ∧
      ((Update (Update storeA100 podOther).1 podA200).1.lookup (podKey podOther) =
          (Update storeA100 podOther).1.lookup (podKey podOther) ∧
        ∀ n, getRec (Update (Update storeA100 podOther).1 podA200).1 (podKey podOther) n =
          getRec (Update storeA100 podOther).1 (podKey podOther) n) :=
  ⟨by decide, C19_update_frame (Update storeA100 podOther).1 podA200 (podKey podOther) (by decide)⟩

/-! ## The claims on keys, on the iteration order and on the merge step -/

theorem split_at_first {c : Char} : ∀ (l1 l2 r1 r2 : List Char), c ∉ l1 → c ∉ l2 →
    l1 ++ c :: r1 = l2 ++ c :: r2 → l1 = l2 ∧ r1 = r2 := by
  intro l1
  induction l1 with
  | nil =>
    intro l2 r1 r2 _ h2 h
    cases l2 with
    | nil =>
      simp only [List.nil_append, List.cons.injEq, true_and] at h
      exact ⟨rfl, h⟩
    | cons x xs =>
      simp only [List.nil_append, List.cons_append, List.cons.injEq] at h
      exact absurd (h.1 ▸ List.mem_cons_self _ _) h2
  | cons y ys ih =>
    intro l2 r1 r2 h1 h2 h
    cases l2 with
    | nil =>
      simp only [List.nil_append, List.cons_append, List.cons.injEq] at h
      exact absurd (h.1 ▸ List.mem_cons_self _ _) h1
    | cons x xs =>
      simp only [List.cons_append, List.cons.injEq] at h
      have h1' : c ∉ ys := fun hm => h1 (List.mem_cons_of_mem _ hm)
      have h2' : c ∉ xs := fun hm => h2 (List.mem_cons_of_mem _ hm)
      obtain ⟨e1, e2⟩ := ih xs r1 r2 h1' h2' h.2
      exact ⟨by rw [h.1, e1], e2⟩

theorem podKey_injective (ns1 n1 ns2 n2 : String) (h1 : '/' ∉ ns1.data) (h2 : '/' ∉ ns2.data)
    (h : ns1 ++ "/" ++ n1 = ns2 ++ "/" ++ n2) : ns1 = ns2 ∧ n1 = n2 := by
  have hd := congrArg String.data h
  simp only [String.data_append] at hd
  have hd2 : ns1.data ++ '/' :: n1.data = ns2.data ++ '/' :: n2.data := by
    simpa using hd
  obtain ⟨e1, e2⟩ := split_at_first _ _ _ _ h1 h2 hd2
  exact ⟨String.ext e1, String.ext e2⟩

theorem ruleKey_injective (ns1 n1 ns2 n2 : String) (h1 : '.' ∉ ns1.data) (h2 : '.' ∉ ns2.data)
    (h : ns1 ++ "." ++ n1 ++ ".generated.rule" = ns2 ++ "." ++ n2 ++ ".generated.rule") :
    ns1 = ns2 ∧ n1 = n2 := by
  have hd := congrArg String.data h
  simp only [String.data_append] at hd
  have hd2 : ns1.data ++ '.' :: (n1.data ++ ".generated.rule".data) =
      ns2.data ++ '.' :: (n2.data ++ ".generated.rule".data) := by
    simpa using hd
  obtain ⟨e1, e2⟩ := split_at_first _ _ _ _ h1 h2 hd2
  exact ⟨String.ext e1, String.ext (List.append_cancel_right e2)⟩

/-- C20: distinct workload identities never share a key: for every two snapshots
whose namespaces contain neither `/` nor `.`, equal internal table keys
(`namespace/name`) imply equal namespace and name, and equal outbound keys
(`namespace.name.generated.rule`, as returned by `GenerateAlertRule`) imply
equal namespace and name. -/
theorem C20_keys_injective (pod1 pod2 : Pod)
    (hs1 : '/' ∉ pod1.Namespace.data) (hd1 : '.' ∉ pod1.Namespace.data)
    (hs2 : '/' ∉ pod2.Namespace.data) (hd2 : '.' ∉ pod2.Namespace.data) :
    (podKey pod1 = podKey pod2 → pod1.Namespace = pod2.Namespace ∧ pod1.Name = pod2.Name) ∧
      (∀ (p q : podStore) (lib : Int64Readings) (wf cf : GoFloat),
        (GenerateAlertRule p lib wf cf pod1).1 = (GenerateAlertRule q lib wf cf pod2).1 →
          pod1.Namespace = pod2.Namespace ∧ pod1.Name = pod2.Name) := by
  constructor
  · intro h
    exact podKey_injective _ _ _ _ hs1 hs2 h
  · intro p q lib wf cf h
    exact ruleKey_injective _ _ _ _ hd1 hd2 h

theorem C20_keys_injective_witness :
    '/' ∉ podA100.Namespace.data ∧ '.' ∉ podA100.Namespace.data ∧
      '/' ∉ podA200.Namespace.data ∧ '.' ∉ podA200.Namespace.data ∧
      podKey podA100 = podKey podA200 ∧
      (GenerateAlertRule emptyStore lowBits factor12 factor20 podA100).1 =
        (GenerateAlertRule storeA100 lowBits factor12 factor20 podA200).1 ∧
      (podA100.Namespace = podA200.Namespace ∧ podA100.Name = podA200.Name) ∧
      (podA100.Namespace = podA200.Namespace ∧ podA100.Name = podA200.Name) :=
  ⟨by decide, by decide, by decide, by decide, by decide, by decide,
    (C20_keys_injective podA100 podA200 (by decide) (by decide) (by decide) (by decide)).1
      (by decide),
    (C20_keys_injective podA100 podA200 (by decide) (by decide) (by decide) (by decide)).2
      emptyStore storeA100 lowBits factor12 factor20 (by decide)⟩

/-- C16: rendering is deterministic in content: for every store and snapshot and
for every order in which the workload's table may be iterated (every
permutation of its entries), the text is the blocks of the entries written in
that order, and the blocks written are, up to their order, the same as for any
other iteration order; the blocks of an entry are a function
(`recordBlocks`) of the workload namespace and name, the container's name and
record, and the two factors only, so two stores that hold the same table for
the workload render the same key and text. -/
theorem C16_order_independent (p : podStore) (lib : Int64Readings) (wf cf : GoFloat) (pod : Pod)
    (order : List (String × capacity)) (hperm : order.Perm (tableEntries p (podKey pod))) :
    order.foldl (renderEntry pod.Namespace pod.Name lib wf cf) "" =
        writeAll (order.flatMap (recordBlocks pod.Namespace pod.Name lib wf cf)) ∧
      (order.flatMap (recordBlocks pod.Namespace pod.Name lib wf cf)).Perm
        ((tableEntries p (podKey pod)).flatMap (recordBlocks pod.Namespace pod.Name lib wf cf)) ∧
      (GenerateAlertRule p lib wf cf pod).2 =
        writeAll ((tableEntries p (podKey pod)).flatMap
          (recordBlocks pod.Namespace pod.Name lib wf cf)) ∧
      ∀ q : podStore, q.lookup (podKey pod) = p.lookup (podKey pod) →
        GenerateAlertRule q lib wf cf pod = GenerateAlertRule p lib wf cf pod := by
  refine ⟨foldl_renderEntry _ _ _ _ _ _ _, List.Perm.flatMap_right _ hperm,
    GenerateAlertRule_text _ _ _ _ _, ?_⟩
  intro q hq
  unfold GenerateAlertRule tableEntries
  rw [hq]

set_option maxRecDepth 100000 in
theorem C16_order_independent_witness :
    List.Perm [("b", capBRunning), ("a", ⟨⟨1000000000⟩, ⟨100000000000⟩, "/docker/abc123"⟩)]
        (tableEntries storeABRunning (podKey podABRunning)) ∧
      (List.foldl (renderEntry podABRunning.Namespace podABRunning.Name lowBits factor12 factor20) ""
            [("b", capBRunning), ("a", ⟨⟨1000000000⟩, ⟨100000000000⟩, "/docker/abc123"⟩)] =
          writeAll (List.flatMap
            [("b", capBRunning), ("a", ⟨⟨1000000000⟩, ⟨100000000000⟩, "/docker/abc123"⟩)]
            (recordBlocks podABRunning.Namespace podABRunning.Name lowBits factor12 factor20)) ∧
        (List.flatMap
            [("b", capBRunning), ("a", ⟨⟨1000000000⟩, ⟨100000000000⟩, "/docker/abc123"⟩)]
            (recordBlocks podABRunning.Namespace podABRunning.Name lowBits factor12 factor20)).Perm
          ((tableEntries storeABRunning (podKey podABRunning)).flatMap
            (recordBlocks podABRunning.Namespace podABRunning.Name lowBits factor12 factor20)) ∧
        (GenerateAlertRule storeABRunning lowBits factor12 factor20 podABRunning).2 =
          writeAll ((tableEntries storeABRunning (podKey podABRunning)).flatMap
            (recordBlocks podABRunning.Namespace podABRunning.Name lowBits factor12 factor20)) ∧
        ∀ q : podStore, q.lookup (podKey podABRunning) =
            storeABRunning.lookup (podKey podABRunning) →
          GenerateAlertRule q lowBits factor12 factor20 podABRunning =
            GenerateAlertRule storeABRunning lowBits factor12 factor20 podABRunning) :=
  ⟨by decide,
    C16_order_independent storeABRunning lowBits factor12 factor20 podABRunning
      [("b", capBRunning), ("a", ⟨⟨1000000000⟩, ⟨100000000000⟩, "/docker/abc123"⟩)]
      (by decide)⟩

/-- The merge step on a configmap whose `Data` map has been made:
`syncToConfigmap` skips the backend write if and only if the rule text is
non-empty and the map already holds that identical text under the key; when the
text is empty it writes the map with the key removed and every other entry
unchanged; otherwise it writes the map with the key set to the text and every
other entry unchanged.  When the configmap cannot be fetched nothing is
written. -/
theorem sync_merge_made (data : GoMap String) (fn rules : String) :
    (syncToConfigmap (some (some data)) fn rules = SyncOutcome.skipped ↔
        rules ≠ "" ∧ data.lookup fn = some rules) ∧
      (rules = "" →
        ∃ d, syncToConfigmap (some (some data)) fn rules = SyncOutcome.written (some d) ∧
          d.lookup fn = none ∧ ∀ k, k ≠ fn → d.lookup k = data.lookup k) ∧
      (rules ≠ "" → data.lookup fn ≠ some rules →
        ∃ d, syncToConfigmap (some (some data)) fn rules = SyncOutcome.written (some d) ∧
          d.lookup fn = some rules ∧ ∀ k, k ≠ fn → d.lookup k = data.lookup k) ∧
      syncToConfigmap none fn rules = SyncOutcome.skipped := by
  refine ⟨?_, ?_, ?_, rfl⟩
  · unfold syncToConfigmap
    by_cases hr : rules = ""
    · simp [hr]
    · cases hl : data.lookup fn with
      | none => simp [hr, hl, ConfigData.lookup, ConfigData.assign]
      | some now =>
        by_cases hn : now = rules
        · simp [hr, hn, hl, ConfigData.lookup, ConfigData.assign]
        · simp [hr, hn, hl, ConfigData.lookup, ConfigData.assign]
  · intro hr
    refine ⟨data.erase fn, ?_, GoMap.lookup_erase_self data fn,
      fun k hk => GoMap.lookup_erase_ne data fn k hk⟩
    unfold syncToConfigmap
    simp [hr, ConfigData.delete]
  · intro hr hne
    refine ⟨data.set fn rules, ?_, GoMap.lookup_set_self data fn rules,
      fun k hk => GoMap.lookup_set_ne data fn k rules hk⟩
    unfold syncToConfigmap
    cases hl : data.lookup fn with
    | none => simp [hr, hl, ConfigData.lookup, ConfigData.assign]
    | some now =>
      have hn : now ≠ rules := by
        intro h
        apply hne
        rw [hl, h]
      simp [hr, hn, hl, ConfigData.lookup, ConfigData.assign]

/-- The merge step on a configmap without data (a nil `Data` map): an empty text
is harmless, a non-empty text makes the method panic. -/
theorem sync_merge_nil (fn rules : String) :
    syncToConfigmap (some none) fn rules =
      if rules = "" then SyncOutcome.written none else SyncOutcome.panicked := by
  unfold syncToConfigmap
  by_cases hr : rules = ""
  · simp [hr, ConfigData.delete]
  · simp [hr, ConfigData.lookup, ConfigData.assign]

/-- C17, the code at the failing input: for a configmap without data (its `Data`
map is nil) and the non-empty text `new rules`, `syncToConfigmap` neither skips
the write nor sets the key: the assignment `cm.Data[fn] = rules` panics and
nothing is written; so it is for every key and every non-empty text, while with
the empty text the nil map is written back as it is, through the nil-safe
`delete`.  On a map that has been made, be it empty, the same call writes the
map with the key set, and skips the write when the text is already there. -/
theorem C17_nil_data_panics :
    syncToConfigmap (some none) "ns.app.generated.rule" "new rules" = SyncOutcome.panicked ∧
      (∀ fn rules : String, syncToConfigmap (some none) fn rules =
        if rules = "" then SyncOutcome.written none else SyncOutcome.panicked) ∧
      syncToConfigmap (some (some GoMap.empty)) "ns.app.generated.rule" "new rules" =
        SyncOutcome.written (some (GoMap.empty.set "ns.app.generated.rule" "new rules")) ∧
      syncToConfigmap (some (some backendData)) "ns.app.generated.rule" "new rules" =
        SyncOutcome.written (some (backendData.set "ns.app.generated.rule" "new rules")) ∧
      syncToConfigmap (some (some backendData)) "ns.app.generated.rule" "old rules" =
        SyncOutcome.skipped := by
  refine ⟨by decide, sync_merge_nil, by decide, by decide, by decide⟩

/-! ## The claim on the targets -/

theorem formatFixed_fin (prec : Nat) (neg : Bool) (m : Nat) (e : Int) :
    formatFixed prec (GoFloat.fin neg m e) = fixedPoint neg (roundDecimal m e prec) prec := by
  rfl

theorem digitChar_value (d : Nat) (h : d < 10) :
    (Nat.digitChar d).toNat - 48 = d ∧ (Nat.digitChar d).isDigit = true := by
  interval_cases d <;> decide

theorem digitsValue_append_single (l : List Char) (c : Char) :
    digitsValue (l ++ [c]) = 10 * digitsValue l + (c.toNat - 48) := by
  unfold digitsValue
  rw [List.foldl_append]
  rfl

theorem toDigitsCore_append (fuel : Nat) : ∀ (n : Nat) (ds : List Char),
    Nat.toDigitsCore 10 fuel n ds = Nat.toDigitsCore 10 fuel n [] ++ ds := by
  induction fuel with
  | zero => intro n ds; simp [Nat.toDigitsCore]
  | succ f ih =>
    intro n ds
    simp only [Nat.toDigitsCore]
    split
    · simp
    · rw [ih (n / 10) (Nat.digitChar (n % 10) :: ds), ih (n / 10) [Nat.digitChar (n % 10)]]
      simp

theorem toDigitsCore_value (fuel : Nat) : ∀ n, n < fuel →
    digitsValue (Nat.toDigitsCore 10 fuel n []) = n ∧
      (∀ c ∈ Nat.toDigitsCore 10 fuel n [], c.isDigit = true) ∧
      Nat.toDigitsCore 10 fuel n [] ≠ [] := by
  induction fuel with
  | zero => intro n h; omega
  | succ f ih =>
    intro n hn
    have hd := digitChar_value (n % 10) (Nat.mod_lt _ (by decide))
    simp only [Nat.toDigitsCore]
    split
    · next h0 =>
      refine ⟨?_, ?_, by simp⟩
      · have : digitsValue [Nat.digitChar (n % 10)] = (Nat.digitChar (n % 10)).toNat - 48 := by
          simp [digitsValue]
        rw [this, hd.1]
        omega
      · intro c hc
        simp only [List.mem_singleton] at hc
        rw [hc]
        exact hd.2
    · next h0 =>
      have hlt : n / 10 < f := by omega
      obtain ⟨h1, h2, h3⟩ := ih (n / 10) hlt
      rw [toDigitsCore_append]
      refine ⟨?_, ?_, by simp [h3]⟩
      · rw [digitsValue_append_single, h1, hd.1]
        omega
      · intro c hc
        rw [List.mem_append] at hc
        rcases hc with hc | hc
        · exact h2 c hc
        · simp only [List.mem_singleton] at hc
          rw [hc]
          exact hd.2

theorem toDigits_value (n : Nat) :
    digitsValue (Nat.toDigits 10 n) = n ∧ (∀ c ∈ Nat.toDigits 10 n, c.isDigit = true) ∧
      Nat.toDigits 10 n ≠ [] :=
  toDigitsCore_value (n + 1) n (Nat.lt_succ_self n)

theorem digitsValue_replicate_zero (k : Nat) (l : List Char) :
    digitsValue (List.replicate k '0' ++ l) = digitsValue l := by
  induction k with
  | zero => simp
  | succ k ih =>
    rw [List.replicate_succ, List.cons_append]
    unfold digitsValue at ih ⊢
    rw [List.foldl_cons]
    have : (10 * 0 + ('0'.toNat - 48)) = 0 := by decide
    rw [this]
    exact ih

theorem toDigits_length_le (n e : Nat) (he : 0 < e) (h : n < 10 ^ e) :
    (Nat.toDigits 10 n).length ≤ e :=
  Nat.toDigitsCore_length 10 (by decide) (n + 1) n e h he

theorem padLeft_spec (prec n : Nat) (hp : 0 < prec) (h : n < 10 ^ prec) :
    (padLeft prec (Nat.toDigits 10 n)).length = prec ∧
      digitsValue (padLeft prec (Nat.toDigits 10 n)) = n ∧
      ∀ c ∈ padLeft prec (Nat.toDigits 10 n), c.isDigit = true := by
  have hl := toDigits_length_le n prec hp h
  obtain ⟨hv, hd, _⟩ := toDigits_value n
  unfold padLeft
  refine ⟨?_, ?_, ?_⟩
  · rw [List.length_append, List.length_replicate]
    omega
  · rw [digitsValue_replicate_zero, hv]
  · intro c hc
    rw [List.mem_append] at hc
    rcases hc with hc | hc
    · rw [(List.mem_replicate.1 hc).2]
      decide
    · exact hd c hc

theorem roundDecimal_bound (m : Nat) (e : Int) (prec : Nat) :
    |(roundDecimal m e prec : ℚ) - (m : ℚ) * (2 : ℚ) ^ e * (10 : ℚ) ^ prec| ≤ 1 / 2 := by
  unfold roundDecimal
  by_cases he : 0 ≤ e
  · rw [if_pos he]
    obtain ⟨k, rfl⟩ := Int.eq_ofNat_of_zero_le he
    simp only [Int.toNat_ofNat, zpow_natCast]
    push_cast
    have : (m : ℚ) * 10 ^ prec * 2 ^ k - (m : ℚ) * 2 ^ k * 10 ^ prec = 0 := by ring
    rw [this]
    norm_num
  · rw [if_neg he]
    have hneg : e < 0 := not_le.1 he
    obtain ⟨k, hk⟩ : ∃ k : Nat, e = -(k : Int) := ⟨(-e).toNat, by omega⟩
    subst hk
    simp only [neg_neg, Int.toNat_ofNat, zpow_neg, zpow_natCast]
    set s := m * 10 ^ prec with hs
    set d := 2 ^ k with hd
    have hdpos : 0 < d := by positivity
    have hdiv : d * (s / d) + s % d = s := Nat.div_add_mod s d
    have hmod : s % d < d := Nat.mod_lt _ hdpos
    have hsq : (m : ℚ) * ((2 : ℚ) ^ k)⁻¹ * (10 : ℚ) ^ prec = (s : ℚ) / (d : ℚ) := by
      rw [hs, hd]
      push_cast
      field_simp
    rw [hsq]
    have hdq : (0 : ℚ) < (d : ℚ) := by exact_mod_cast hdpos
    have hsq2 : (s : ℚ) = (d : ℚ) * ((s / d : Nat) : ℚ) + ((s % d : Nat) : ℚ) := by
      exact_mod_cast hdiv.symm
    have hfrac : (s : ℚ) / (d : ℚ) = ((s / d : Nat) : ℚ) + ((s % d : Nat) : ℚ) / (d : ℚ) := by
      rw [hsq2]
      field_simp
      ring
    have hmq : ((s % d : Nat) : ℚ) / (d : ℚ) < 1 := by
      rw [div_lt_one hdq]
      exact_mod_cast hmod
    have hr0 : (0 : ℚ) ≤ ((s % d : Nat) : ℚ) / (d : ℚ) := by positivity
    rw [hfrac]
    split
    · next hup =>
      have h2r : (1 : ℚ) / 2 ≤ ((s % d : Nat) : ℚ) / (d : ℚ) := by
        rw [le_div_iff₀ hdq]
        have : d ≤ 2 * (s % d) := by
          rcases hup with h | h
          · exact le_of_lt h
          · exact le_of_eq h.1.symm
        have hq : (d : ℚ) ≤ 2 * ((s % d : Nat) : ℚ) := by exact_mod_cast this
        linarith
      rw [abs_le]
      push_cast
      constructor <;> linarith
    · next hup =>
      have h2r : ((s % d : Nat) : ℚ) / (d : ℚ) ≤ 1 / 2 := by
        rw [div_le_iff₀ hdq]
        have : 2 * (s % d) ≤ d := by
          by_contra hc
          exact hup (Or.inl (not_le.1 hc))
        have hq : 2 * ((s % d : Nat) : ℚ) ≤ (d : ℚ) := by exact_mod_cast this
        linarith
      rw [abs_le]
      constructor <;> linarith

theorem sign_data (neg : Bool) :
    (if neg then "-" else "" : String).data = if neg then ['-'] else [] := by
  cases neg <;> rfl

theorem fixedPoint_shape (neg : Bool) (n prec : Nat) (hp : 0 < prec) :
    ∃ ip frac : List Char,
      fixedPoint neg n prec =
          String.mk ((if neg then ['-'] else []) ++ ip ++ '.' :: frac) ∧
        ip ≠ [] ∧ frac.length = prec ∧ (∀ c ∈ ip ++ frac, c.isDigit = true) ∧
        digitsValue ip * 10 ^ prec + digitsValue frac = n := by
  obtain ⟨hv, hd, hne⟩ := toDigits_value (n / 10 ^ prec)
  obtain ⟨hl, hfv, hfd⟩ := padLeft_spec prec (n % 10 ^ prec) hp (Nat.mod_lt _ (by positivity))
  refine ⟨Nat.toDigits 10 (n / 10 ^ prec), padLeft prec (Nat.toDigits 10 (n % 10 ^ prec)),
    ?_, hne, hl, ?_, ?_⟩
  · apply String.ext
    unfold fixedPoint
    rw [if_neg (Nat.pos_iff_ne_zero.1 hp)]
    simp only [String.data_append, sign_data, Nat.repr, List.asString]
    simp
  · intro c hc
    rw [List.mem_append] at hc
    rcases hc with hc | hc
    · exact hd c hc
    · exact hfd c hc
  · rw [hv, hfv]
    exact Nat.div_add_mod' n (10 ^ prec)

theorem fixedPoint_zero (neg : Bool) (n : Nat) :
    ∃ ip : List Char,
      fixedPoint neg n 0 = String.mk ((if neg then ['-'] else []) ++ ip) ∧
        ip ≠ [] ∧ (∀ c ∈ ip, c.isDigit = true) ∧ digitsValue ip = n := by
  obtain ⟨hv, hd, hne⟩ := toDigits_value n
  refine ⟨Nat.toDigits 10 n, ?_, hne, hd, hv⟩
  apply String.ext
  unfold fixedPoint
  simp only [String.data_append, sign_data, Nat.repr, List.asString, pow_zero, Nat.div_one,
    if_true]
  simp

theorem bitLenAux_zero (fuel : Nat) : bitLenAux fuel 0 = 0 := by
  cases fuel <;> simp [bitLenAux]

theorem bitLenAux_spec (fuel : Nat) : ∀ m, m ≤ fuel →
    m < 2 ^ bitLenAux fuel m ∧ (m ≠ 0 → 2 ^ (bitLenAux fuel m - 1) ≤ m) := by
  induction fuel with
  | zero =>
    intro m hm
    have : m = 0 := by omega
    subst this
    simp [bitLenAux]
  | succ fuel ih =>
    intro m hm
    by_cases h0 : m = 0
    · subst h0
      simp [bitLenAux]
    · have hstep : bitLenAux (fuel + 1) m = bitLenAux fuel (m / 2) + 1 := by
        simp [bitLenAux, h0]
      rw [hstep]
      obtain ⟨h1, h2⟩ := ih (m / 2) (by omega)
      constructor
      · rw [pow_succ]
        omega
      · intro _
        rw [Nat.add_sub_cancel]
        by_cases hh : m / 2 = 0
        · rw [hh, bitLenAux_zero]
          simp
          omega
        · have h3 := h2 hh
          have hb : bitLenAux fuel (m / 2) ≠ 0 := by
            intro hb
            rw [hb] at h1
            omega
          obtain ⟨b, hb2⟩ := Nat.exists_eq_succ_of_ne_zero hb
          rw [hb2] at h3 ⊢
          rw [Nat.succ_sub_one] at h3
          rw [Nat.succ_eq_add_one, pow_succ]
          omega

theorem bitLen_lt (m : Nat) : m < 2 ^ bitLen m := (bitLenAux_spec m m (le_refl m)).1

theorem bitLen_le (m : Nat) (h : m ≠ 0) : 2 ^ (bitLen m - 1) ≤ m :=
  (bitLenAux_spec m m (le_refl m)).2 h

theorem bitLen_pos (m : Nat) (h : m ≠ 0) : 0 < bitLen m := by
  by_contra hc
  have h0 : bitLen m = 0 := by omega
  have := bitLen_lt m
  rw [h0] at this
  omega

theorem lt_bitLen_of_pow_le (m k : Nat) (h : 2 ^ k ≤ m) : k < bitLen m := by
  by_contra hc
  have hle : bitLen m ≤ k := not_lt.1 hc
  have h1 := bitLen_lt m
  have h2 : 2 ^ bitLen m ≤ 2 ^ k := Nat.pow_le_pow_right (by decide) hle
  omega

theorem round_step (s q r : Nat) (hs : 1 ≤ s) (hr : r < 2 ^ s) (sticky : Bool) (t : ℚ)
    (ht0 : 0 ≤ t) (ht1 : t < 1) (hs0 : sticky = false → t = 0) (hs1 : sticky = true → 0 < t)
    (m' : Nat)
    (hm' : m' = if (decide (2 ^ (s - 1) < r) ||
        (decide (r = 2 ^ (s - 1)) && (sticky || decide (q % 2 = 1)))) = true then q + 1 else q) :
    abs ((m' : ℚ) * (2 : ℚ) ^ s - ((q : ℚ) * (2 : ℚ) ^ s + (r : ℚ) + t)) ≤ (2 : ℚ) ^ s / 2 ∧
      (abs ((m' : ℚ) * (2 : ℚ) ^ s - ((q : ℚ) * (2 : ℚ) ^ s + (r : ℚ) + t)) = (2 : ℚ) ^ s / 2 →
        m' % 2 = 0) := by
  obtain ⟨k, rfl⟩ : ∃ k, s = k + 1 := ⟨s - 1, by omega⟩
  rw [Nat.add_sub_cancel] at hm'
  have h2 : (2 : ℚ) ^ (k + 1) = 2 * ((2 ^ k : Nat) : ℚ) := by
    push_cast
    ring
  have hrn : r < 2 * 2 ^ k := by
    rw [pow_succ] at hr
    omega
  have hhpos : 1 ≤ 2 ^ k := Nat.one_le_two_pow
  have hhq : (1 : ℚ) ≤ ((2 ^ k : Nat) : ℚ) := by exact_mod_cast hhpos
  rw [h2]
  generalize hh : 2 ^ k = half at hm' hrn hhpos hhq
  rcases Nat.lt_trichotomy r half with hlt | heq | hgt
  · have hup : (decide (half < r) ||
        (decide (r = half) && (sticky || decide (q % 2 = 1)))) = false := by
      have h1 : ¬ half < r := by omega
      have h2 : r ≠ half := by omega
      simp [h1, h2]
    rw [hup] at hm'
    simp only [Bool.false_eq_true, if_false] at hm'
    subst hm'
    have hrq : (r : ℚ) + 1 ≤ (half : ℚ) := by exact_mod_cast hlt
    have hr0 : (0 : ℚ) ≤ (r : ℚ) := Nat.cast_nonneg r
    have hM : (m' : ℚ) * (2 * (half : ℚ)) - ((m' : ℚ) * (2 * (half : ℚ)) + (r : ℚ) + t) =
        -((r : ℚ) + t) := by ring
    rw [hM, abs_neg, abs_of_nonneg (by linarith)]
    constructor
    · linarith
    · intro h
      exfalso
      linarith
  · subst heq
    by_cases hc : sticky = true ∨ q % 2 = 1
    · have hup : (decide (r < r) ||
          (decide (r = r) && (sticky || decide (q % 2 = 1)))) = true := by
        rcases hc with h | h <;> simp [h]
      rw [hup] at hm'
      simp only [if_true] at hm'
      subst hm'
      have hM : ((q + 1 : Nat) : ℚ) * (2 * (r : ℚ)) - ((q : ℚ) * (2 * (r : ℚ)) + (r : ℚ) + t) =
          (r : ℚ) - t := by
        push_cast
        ring
      rw [hM, abs_of_nonneg (by linarith)]
      constructor
      · linarith
      · intro h
        have ht : t = 0 := by linarith
        have hst : sticky = false := by
          cases hsv : sticky with
          | false => rfl
          | true =>
            have := hs1 hsv
            linarith
        rcases hc with h | h
        · rw [hst] at h
          exact absurd h (by decide)
        · omega
    · have hst : sticky = false := by
        cases hsv : sticky with
        | false => rfl
        | true => exact absurd (Or.inl hsv) hc
      have hq : q % 2 = 0 := by
        have : ¬ q % 2 = 1 := fun h => hc (Or.inr h)
        omega
      have hup : (decide (r < r) ||
          (decide (r = r) && (sticky || decide (q % 2 = 1)))) = false := by
        simp [hst, hq]
      rw [hup] at hm'
      simp only [Bool.false_eq_true, if_false] at hm'
      subst hm'
      have ht : t = 0 := hs0 hst
      have hM : (m' : ℚ) * (2 * (r : ℚ)) - ((m' : ℚ) * (2 * (r : ℚ)) + (r : ℚ) + t) =
          -((r : ℚ)) := by
        rw [ht]
        ring
      rw [hM, abs_neg, abs_of_nonneg (by linarith)]
      constructor
      · linarith
      · intro _
        exact hq
  · have hup : (decide (half < r) ||
        (decide (r = half) && (sticky || decide (q % 2 = 1)))) = true := by
      simp [hgt]
    rw [hup] at hm'
    simp only [if_true] at hm'
    subst hm'
    have hrq : (half : ℚ) + 1 ≤ (r : ℚ) := by exact_mod_cast hgt
    have hrq2 : (r : ℚ) + 1 ≤ 2 * (half : ℚ) := by exact_mod_cast hrn
    have hM : ((q + 1 : Nat) : ℚ) * (2 * (half : ℚ)) -
        ((q : ℚ) * (2 * (half : ℚ)) + (r : ℚ) + t) = 2 * (half : ℚ) - (r : ℚ) - t := by
      push_cast
      ring
    rw [hM, abs_of_nonneg (by linarith)]
    constructor
    · linarith
    · intro h
      exfalso
      linarith

theorem ite_inf_fin (c : Prop) [Decidable c] (n n' : Bool) (m m' : Nat) (e e' : Int)
    (h : (if c then GoFloat.inf n else GoFloat.fin n m e) = GoFloat.fin n' m' e') :
    n = n' ∧ m = m' ∧ e = e' := by
  split at h
  · exact absurd h (by simp)
  · injection h with h1 h2 h3
    exact ⟨h1, h2, h3⟩

/-- What `roundNearestEven` returns, when finite, for the magnitude
`(m + t) * 2^e`, `t` being the remainder below the last bit of `m` that `sticky`
records: a significand of at most `prec` bits (or `2^prec`) with an exponent of
at least `emin`, which is the magnitude itself or has the smallest exponent
allowed and lies within half a unit of the last place, even on a tie. -/
theorem roundNearestEven_spec (fmt : FloatFormat) (hp : 0 < fmt.prec) (neg : Bool) (m : Nat)
    (e : Int) (sticky : Bool) (t : ℚ) (ht0 : 0 ≤ t) (ht1 : t < 1)
    (hs0 : sticky = false → t = 0) (hs1 : sticky = true → 0 < t)
    (hsb : sticky = true → fmt.prec < bitLen m) (n' : Bool) (m' : Nat) (e' : Int)
    (h : roundNearestEven fmt neg m e sticky = GoFloat.fin n' m' e') :
    n' = neg ∧ m' ≤ 2 ^ fmt.prec ∧ fmt.emin ≤ e' ∧
      ((m' : ℚ) * (2 : ℚ) ^ e' = ((m : ℚ) + t) * (2 : ℚ) ^ e ∨
        ((e' = fmt.emin ∨ 2 ^ (fmt.prec - 1) ≤ m') ∧
          abs ((m' : ℚ) * (2 : ℚ) ^ e' - ((m : ℚ) + t) * (2 : ℚ) ^ e) ≤ (2 : ℚ) ^ e' / 2 ∧
          (abs ((m' : ℚ) * (2 : ℚ) ^ e' - ((m : ℚ) + t) * (2 : ℚ) ^ e) = (2 : ℚ) ^ e' / 2 →
            m' % 2 = 0))) := by
  unfold roundNearestEven at h
  dsimp only at h
  have hEmax : e + (bitLen m : Int) - (fmt.prec : Int) ≤
      max (e + (bitLen m : Int) - (fmt.prec : Int)) fmt.emin := le_max_left _ _
  have hEmin : fmt.emin ≤ max (e + (bitLen m : Int) - (fmt.prec : Int)) fmt.emin :=
    le_max_right _ _
  have hEor : max (e + (bitLen m : Int) - (fmt.prec : Int)) fmt.emin = fmt.emin ∨
      (fmt.emin < max (e + (bitLen m : Int) - (fmt.prec : Int)) fmt.emin ∧
        max (e + (bitLen m : Int) - (fmt.prec : Int)) fmt.emin =
          e + (bitLen m : Int) - (fmt.prec : Int)) := by
    rcases le_total (e + (bitLen m : Int) - (fmt.prec : Int)) fmt.emin with hc | hc
    · left
      exact max_eq_right hc
    · rcases eq_or_lt_of_le hc with hc2 | hc2
      · left
        rw [← hc2, max_self]
      · right
        rw [max_eq_left hc]
        exact ⟨hc2, rfl⟩
  generalize max (e + (bitLen m : Int) - (fmt.prec : Int)) fmt.emin = E at h hEmax hEmin hEor
  by_cases hE : E ≤ e
  · rw [if_pos hE] at h
    obtain ⟨h1, h2, h3⟩ := ite_inf_fin _ _ _ _ _ _ _ h
    · subst h1 h2 h3
      have hm : m ≤ 2 ^ fmt.prec := by
        have hb : bitLen m ≤ fmt.prec := by omega
        exact le_of_lt (lt_of_lt_of_le (bitLen_lt m) (Nat.pow_le_pow_right (by decide) hb))
      refine ⟨rfl, hm, le_trans hEmin hE, Or.inl ?_⟩
      have : t = 0 := by
        apply hs0
        cases hsv : sticky with
        | false => rfl
        | true =>
          have := hsb hsv
          omega
      rw [this, add_zero]
  · rw [if_neg hE] at h
    obtain ⟨s, hsE, hs1'⟩ : ∃ s : Nat, E = e + (s : Int) ∧ 1 ≤ s :=
      ⟨(E - e).toNat, by omega, by omega⟩
    have hts : (E - e).toNat = s := by omega
    rw [hts] at h
    obtain ⟨h1, h2, h3⟩ := ite_inf_fin _ _ _ _ _ _ _ h
    · subst h1 h3
      have hpow : 0 < 2 ^ s := by positivity
      have hr : m % 2 ^ s < 2 ^ s := Nat.mod_lt _ hpow
      obtain ⟨hb1, hb2⟩ := round_step s (m / 2 ^ s) (m % 2 ^ s) hs1' hr sticky t ht0 ht1 hs0 hs1
        m' h2.symm
      have hqle : m / 2 ^ s ≤ m' := by
        rw [← h2]
        split <;> omega
      have hle : m' ≤ m / 2 ^ s + 1 := by
        rw [← h2]
        split <;> omega
      have hbl : bitLen m ≤ s + fmt.prec := by omega
      have hqlt : m / 2 ^ s < 2 ^ fmt.prec := by
        apply Nat.div_lt_of_lt_mul
        calc m < 2 ^ bitLen m := bitLen_lt m
          _ ≤ 2 ^ (s + fmt.prec) := Nat.pow_le_pow_right (by decide) hbl
          _ = 2 ^ s * 2 ^ fmt.prec := pow_add 2 s fmt.prec
      have hfull : E = fmt.emin ∨ 2 ^ (fmt.prec - 1) ≤ m' := by
        rcases hEor with hc | ⟨hc1, hc2⟩
        · exact Or.inl hc
        · right
          refine le_trans ?_ hqle
          have hbe : bitLen m = s + fmt.prec := by omega
          have hm0 : m ≠ 0 := by
            intro h0
            have hz : bitLen m = 0 := by
              rw [h0]
              rfl
            omega
          have hlow := bitLen_le m hm0
          rw [Nat.le_div_iff_mul_le hpow]
          calc 2 ^ (fmt.prec - 1) * 2 ^ s = 2 ^ (fmt.prec - 1 + s) := (pow_add 2 _ _).symm
            _ = 2 ^ (bitLen m - 1) := by
              congr 1
              omega
            _ ≤ m := hlow
      have hmq : (m : ℚ) = ((m / 2 ^ s : Nat) : ℚ) * (2 : ℚ) ^ s + ((m % 2 ^ s : Nat) : ℚ) := by
        have := Nat.div_add_mod m (2 ^ s)
        have h4 : (m : ℚ) = ((2 ^ s * (m / 2 ^ s) + m % 2 ^ s : Nat) : ℚ) := by rw [this]
        rw [h4]
        push_cast
        ring
      have hz : (2 : ℚ) ^ E = (2 : ℚ) ^ e * (2 : ℚ) ^ s := by
        rw [hsE, zpow_add₀ (by norm_num : (2 : ℚ) ≠ 0), zpow_natCast]
      have hpe : (0 : ℚ) < (2 : ℚ) ^ e := by positivity
      have hD : (m' : ℚ) * (2 : ℚ) ^ E - ((m : ℚ) + t) * (2 : ℚ) ^ e =
          (2 : ℚ) ^ e * ((m' : ℚ) * (2 : ℚ) ^ s -
            (((m / 2 ^ s : Nat) : ℚ) * (2 : ℚ) ^ s + ((m % 2 ^ s : Nat) : ℚ) + t)) := by
        rw [hz, hmq]
        ring
      have hhalf : (2 : ℚ) ^ E / 2 = (2 : ℚ) ^ e * ((2 : ℚ) ^ s / 2) := by
        rw [hz]
        ring
      refine ⟨rfl, by omega, hEmin, Or.inr ⟨hfull, ?_, ?_⟩⟩
      · rw [hD, hhalf, abs_mul, abs_of_pos hpe]
        exact mul_le_mul_of_nonneg_left hb1 (le_of_lt hpe)
      · intro heq
        apply hb2
        rw [hD, hhalf, abs_mul, abs_of_pos hpe] at heq
        exact mul_left_cancel₀ (ne_of_gt hpe) heq

theorem roundNearestEven_rounds (fmt : FloatFormat) (hp : 0 < fmt.prec) (neg : Bool) (m : Nat)
    (e : Int) (sticky : Bool) (t : ℚ) (ht0 : 0 ≤ t) (ht1 : t < 1)
    (hs0 : sticky = false → t = 0) (hs1 : sticky = true → 0 < t)
    (hsb : sticky = true → fmt.prec < bitLen m) (x : ℚ) (hneg : neg = true → x ≤ 0)
    (hpos : neg = false → 0 ≤ x) (hx : abs x = ((m : ℚ) + t) * (2 : ℚ) ^ e)
    (n' : Bool) (m' : Nat) (e' : Int)
    (h : roundNearestEven fmt neg m e sticky = GoFloat.fin n' m' e') :
    RoundsTo fmt x (GoFloat.fin n' m' e') := by
  obtain ⟨h1, h2, h3, h4⟩ :=
    roundNearestEven_spec fmt hp neg m e sticky t ht0 ht1 hs0 hs1 hsb n' m' e' h
  subst h1
  unfold RoundsTo
  rw [hx]
  exact ⟨hneg, hpos, h2, h3, h4⟩

theorem toRat_abs (neg : Bool) (m : Nat) (e : Int) :
    abs (GoFloat.fin neg m e).toRat = (m : ℚ) * (2 : ℚ) ^ e := by
  have h1 : (0 : ℚ) ≤ (m : ℚ) * (2 : ℚ) ^ e := by positivity
  unfold GoFloat.toRat
  cases neg
  · simp only [Bool.false_eq_true, if_false, one_mul]
    exact abs_of_nonneg h1
  · simp only [if_true]
    rw [show (-1 : ℚ) * (m : ℚ) * (2 : ℚ) ^ e = -((m : ℚ) * (2 : ℚ) ^ e) by ring, abs_neg]
    exact abs_of_nonneg h1

theorem toRat_nonpos (m : Nat) (e : Int) : (GoFloat.fin true m e).toRat ≤ 0 := by
  have h1 : (0 : ℚ) ≤ (m : ℚ) * (2 : ℚ) ^ e := by positivity
  unfold GoFloat.toRat
  simp only [if_true]
  linarith

theorem toRat_nonneg (m : Nat) (e : Int) : 0 ≤ (GoFloat.fin false m e).toRat := by
  have h1 : (0 : ℚ) ≤ (m : ℚ) * (2 : ℚ) ^ e := by positivity
  unfold GoFloat.toRat
  simp only [Bool.false_eq_true, if_false, one_mul]
  exact h1

theorem ofInt64_rounds (v : Int) (n : Bool) (m : Nat) (e : Int)
    (h : ofInt64 v = GoFloat.fin n m e) : RoundsTo binary64 (v : ℚ) (ofInt64 v) := by
  rw [h]
  unfold ofInt64 at h
  refine roundNearestEven_rounds binary64 (by decide) (decide (v < 0)) v.natAbs 0 false 0
    (le_refl 0) (by norm_num) (fun _ => rfl) (fun hc => absurd hc (by decide))
    (fun hc => absurd hc (by decide)) (v : ℚ) ?_ ?_ ?_ n m e h
  · intro hv
    have : v < 0 := of_decide_eq_true hv
    have h2 : (v : ℚ) < 0 := by exact_mod_cast this
    exact le_of_lt h2
  · intro hv
    have : ¬ v < 0 := of_decide_eq_false hv
    have h2 : 0 ≤ v := not_lt.1 this
    exact_mod_cast h2
  · rw [add_zero, zpow_zero, mul_one, Nat.cast_natAbs, Int.cast_abs]

theorem mul64_rounds (a b : GoFloat) (n : Bool) (m : Nat) (e : Int)
    (h : mul64 a b = GoFloat.fin n m e) :
    RoundsTo binary64 (a.toRat * b.toRat) (mul64 a b) ∧
      (∃ n1 m1 e1, a = GoFloat.fin n1 m1 e1) ∧ ∃ n2 m2 e2, b = GoFloat.fin n2 m2 e2 := by
  cases a with
  | nan => simp [mul64] at h
  | inf n1 =>
    cases b with
    | nan => simp [mul64] at h
    | inf n2 => simp [mul64] at h
    | fin n2 m2 e2 =>
      simp only [mul64] at h
      split at h <;> simp at h
  | fin n1 m1 e1 =>
    cases b with
    | nan => simp [mul64] at h
    | inf n2 =>
      simp only [mul64] at h
      split at h <;> simp at h
    | fin n2 m2 e2 =>
      refine ⟨?_, ⟨n1, m1, e1, rfl⟩, ⟨n2, m2, e2, rfl⟩⟩
      rw [h]
      simp only [mul64] at h
      refine roundNearestEven_rounds binary64 (by decide) (xor n1 n2) (m1 * m2) (e1 + e2) false 0
        (le_refl 0) (by norm_num) (fun _ => rfl) (fun hc => absurd hc (by decide))
        (fun hc => absurd hc (by decide)) _ ?_ ?_ ?_ n m e h
      · intro hx
        cases n1 <;> cases n2 <;> simp at hx
        · exact mul_nonpos_of_nonneg_of_nonpos (toRat_nonneg m1 e1) (toRat_nonpos m2 e2)
        · exact mul_nonpos_of_nonpos_of_nonneg (toRat_nonpos m1 e1) (toRat_nonneg m2 e2)
      · intro hx
        cases n1 <;> cases n2 <;> simp at hx
        · exact mul_nonneg (toRat_nonneg m1 e1) (toRat_nonneg m2 e2)
        · exact mul_nonneg_of_nonpos_of_nonpos (toRat_nonpos m1 e1) (toRat_nonpos m2 e2)
      · rw [abs_mul, toRat_abs, toRat_abs, add_zero, zpow_add₀ (by norm_num : (2 : ℚ) ≠ 0)]
        push_cast
        ring

theorem toFloat32_rounds (a : GoFloat) (n : Bool) (m : Nat) (e : Int)
    (h : toFloat32 a = GoFloat.fin n m e) :
    RoundsTo binary32 a.toRat (toFloat32 a) ∧ ∃ n1 m1 e1, a = GoFloat.fin n1 m1 e1 := by
  cases a with
  | nan => simp [toFloat32] at h
  | inf n1 => simp [toFloat32] at h
  | fin n1 m1 e1 =>
    refine ⟨?_, ⟨n1, m1, e1, rfl⟩⟩
    rw [h]
    simp only [toFloat32] at h
    refine roundNearestEven_rounds binary32 (by decide) n1 m1 e1 false 0
      (le_refl 0) (by norm_num) (fun _ => rfl) (fun hc => absurd hc (by decide))
      (fun hc => absurd hc (by decide)) _ ?_ ?_ ?_ n m e h
    · intro hx
      subst hx
      exact toRat_nonpos m1 e1
    · intro hx
      subst hx
      exact toRat_nonneg m1 e1
    · rw [toRat_abs, add_zero]

theorem div_identity (m1 m2 q r : ℚ) (A B K : ℚ) (hm2 : m2 ≠ 0) (hB : B ≠ 0) (hK : K ≠ 0)
    (hnum : m1 * K = m2 * q + r) :
    m1 * A / (m2 * B) = (q + r / m2) * (A / B / K) := by
  have h1 : q + r / m2 = m1 * K / m2 := by
    rw [hnum]
    field_simp
    ring
  rw [h1]
  field_simp
  ring

theorem div64_rounds (a : GoFloat) (n2 : Bool) (m2 : Nat) (e2 : Int) (hm2 : m2 ≠ 0)
    (n : Bool) (m : Nat) (e : Int)
    (h : div64 a (GoFloat.fin n2 m2 e2) = GoFloat.fin n m e) :
    RoundsTo binary64 (a.toRat / (GoFloat.fin n2 m2 e2).toRat)
        (div64 a (GoFloat.fin n2 m2 e2)) ∧
      ∃ n1 m1 e1, a = GoFloat.fin n1 m1 e1 := by
  cases a with
  | nan => simp [div64] at h
  | inf n1 => simp [div64] at h
  | fin n1 m1 e1 =>
    refine ⟨?_, ⟨n1, m1, e1, rfl⟩⟩
    rw [h]
    simp only [div64] at h
    rw [if_neg hm2] at h
    have hm2pos : 0 < m2 := Nat.pos_of_ne_zero hm2
    have hm2q : (0 : ℚ) < (m2 : ℚ) := by exact_mod_cast hm2pos
    generalize hk : binary64.prec + 2 + bitLen m2 - bitLen m1 = k at h
    have hrem : m1 * 2 ^ k % m2 < m2 := Nat.mod_lt _ hm2pos
    have hremq : ((m1 * 2 ^ k % m2 : Nat) : ℚ) < (m2 : ℚ) := by exact_mod_cast hrem
    refine roundNearestEven_rounds binary64 (by decide) (xor n1 n2) (m1 * 2 ^ k / m2)
      (e1 - e2 - k) (decide (m1 * 2 ^ k % m2 ≠ 0)) (((m1 * 2 ^ k % m2 : Nat) : ℚ) / (m2 : ℚ))
      ?_ ?_ ?_ ?_ ?_ _ ?_ ?_ ?_ n m e h
    · positivity
    · rw [div_lt_one hm2q]
      exact hremq
    · intro hs
      have h0 : ¬ (m1 * 2 ^ k % m2 ≠ 0) := of_decide_eq_false hs
      have h1 : m1 * 2 ^ k % m2 = 0 := not_not.1 h0
      rw [h1]
      simp
    · intro hs
      have h0 : m1 * 2 ^ k % m2 ≠ 0 := of_decide_eq_true hs
      have h1 : 0 < m1 * 2 ^ k % m2 := Nat.pos_of_ne_zero h0
      have h2 : (0 : ℚ) < ((m1 * 2 ^ k % m2 : Nat) : ℚ) := by exact_mod_cast h1
      positivity
    · intro hs
      have h0 : m1 * 2 ^ k % m2 ≠ 0 := of_decide_eq_true hs
      have hm1 : m1 ≠ 0 := by
        intro hz
        apply h0
        rw [hz]
        simp
      apply lt_bitLen_of_pow_le
      rw [Nat.le_div_iff_mul_le hm2pos]
      have hl1 := bitLen_le m1 hm1
      have hl2 := bitLen_lt m2
      have hb1 := bitLen_pos m1 hm1
      have hkk : binary64.prec + bitLen m2 ≤ bitLen m1 - 1 + k := by
        have : binary64.prec = 53 := rfl
        omega
      calc 2 ^ binary64.prec * m2 ≤ 2 ^ binary64.prec * 2 ^ bitLen m2 :=
            Nat.mul_le_mul_left _ (le_of_lt hl2)
        _ = 2 ^ (binary64.prec + bitLen m2) := (pow_add 2 _ _).symm
        _ ≤ 2 ^ (bitLen m1 - 1 + k) := Nat.pow_le_pow_right (by decide) hkk
        _ = 2 ^ (bitLen m1 - 1) * 2 ^ k := pow_add 2 _ _
        _ ≤ m1 * 2 ^ k := Nat.mul_le_mul_right _ hl1
    · intro hx
      cases n1 <;> cases n2 <;> simp at hx
      · exact div_nonpos_of_nonneg_of_nonpos (toRat_nonneg m1 e1) (toRat_nonpos m2 e2)
      · exact div_nonpos_of_nonpos_of_nonneg (toRat_nonpos m1 e1) (toRat_nonneg m2 e2)
    · intro hx
      cases n1 <;> cases n2 <;> simp at hx
      · exact div_nonneg (toRat_nonneg m1 e1) (toRat_nonneg m2 e2)
      · exact div_nonneg_of_nonpos (toRat_nonpos m1 e1) (toRat_nonpos m2 e2)
    · rw [abs_div, toRat_abs, toRat_abs]
      have hz : (2 : ℚ) ^ (e1 - e2 - (k : Int)) =
          (2 : ℚ) ^ e1 / (2 : ℚ) ^ e2 / (2 : ℚ) ^ k := by
        rw [zpow_sub₀ (by norm_num : (2 : ℚ) ≠ 0), zpow_sub₀ (by norm_num : (2 : ℚ) ≠ 0),
          zpow_natCast]
      rw [hz]
      apply div_identity
      · exact ne_of_gt hm2q
      · positivity
      · positivity
      · have := Nat.div_add_mod (m1 * 2 ^ k) m2
        have h4 : ((m1 * 2 ^ k : Nat) : ℚ) =
            ((m2 * (m1 * 2 ^ k / m2) + m1 * 2 ^ k % m2 : Nat) : ℚ) := by rw [this]
        push_cast at h4
        exact h4

theorem wrapInt64_fits (v : Int) : Quantity.fitsInt64 (Quantity.wrapInt64 v) = true := by
  unfold Quantity.fitsInt64 Quantity.wrapInt64
  have h1 := Int.emod_nonneg (v + 9223372036854775808)
    (by decide : (18446744073709551616 : Int) ≠ 0)
  have h2 := Int.emod_lt_of_pos (v + 9223372036854775808)
    (by decide : (0 : Int) < 18446744073709551616)
  simp only [Bool.and_eq_true, decide_eq_true_eq]
  constructor <;> omega

set_option maxRecDepth 100000 in
/-- Two overflowing readings under `lowBitsOrZero`: a CPU limit of
`9223372036854775807` has the milli-value `-1000` and the target `-1.200`, a
memory limit of `10E` the value `0` and the target `0`, though it is not zero;
limits that fit read as themselves whatever the library. -/
theorem int64_readings_examples :
    Quantity.MilliValue lowBitsOrZero ⟨9223372036854775807000000000⟩ = -1000 ∧
      cpuTarget lowBitsOrZero ⟨⟨9223372036854775807000000000⟩, ⟨0⟩, "abc123"⟩ factor12 =
        "-1.200" ∧
      Quantity.Value lowBitsOrZero ⟨10000000000000000000000000000⟩ = 0 ∧
      Quantity.IsZero ⟨10000000000000000000000000000⟩ = false ∧
      memTarget lowBitsOrZero ⟨⟨0⟩, ⟨10000000000000000000000000000⟩, "abc123"⟩ factor12 =
        "0" ∧
      Quantity.MilliValue zeroOnOverflow ⟨500000000⟩ = 500 ∧
      Quantity.MilliValue lowBits ⟨500000000⟩ = 500 ∧
      Quantity.Value lowBits ⟨1073741824000000000⟩ = 1073741824 ∧
      Quantity.Value zeroOnOverflow ⟨1073741824000000000⟩ = 1073741824 := by
  decide

theorem MilliValue_fits (lib : Int64Readings) (q : Quantity) :
    Quantity.fitsInt64 (q.MilliValue lib) = true := by
  unfold Quantity.MilliValue
  dsimp only
  split
  · assumption
  · exact wrapInt64_fits _

theorem Value_fits (lib : Int64Readings) (q : Quantity) :
    Quantity.fitsInt64 (q.Value lib) = true := by
  unfold Quantity.Value
  dsimp only
  split
  · assumption
  · exact wrapInt64_fits _

set_option maxRecDepth 100000 in
/-- C13, counterexample to the claim as stated: for a memory limit of 1Gi
(1073741824 bytes) and the factor 1.2 (the `float64`
`5404319552844595 * 2^-52`) the value bytes × factor lies strictly between
1288490188 and 1288490189, so written with 0 fractional digits it is one of
these two numbers, whereas the rendered memory target is `1288490240`. -/
theorem C13_counterexample :
    capMem1Gi.Memory.Value lowBits = 1073741824 ∧
      factor12 = GoFloat.fin false 5404319552844595 (-52) ∧
      1288490188 * 2 ^ 52 < 1073741824 * 5404319552844595 ∧
      1073741824 * 5404319552844595 < 1288490189 * 2 ^ 52 ∧
      memTarget lowBits capMem1Gi factor12 = "1288490240" := by
  decide

/-- C13, amended: for every record and each factor `f`, whenever the `float32`
that is printed is finite, say `(-1)^neg * m * 2^e`: the CPU target is obtained
from the `int64` milli-value by four roundings to nearest, ties to even
(`RoundsTo`: a value of the format, of the sign of the exact number and within
half a unit of its last place of it, even on a tie): the milli-value to
`float64`, the exact product of that with `f` to `float64`, the exact quotient
of that by 1000 to `float64`, and that quotient to `float32`; the
target is a sign, a non-empty string of digits, a point and exactly 3 digits,
and the number written is within one half unit of its last digit of
`m * 2^e`.  The memory target is obtained from the `int64` byte-value by three
such roundings (to `float64`, the product with `f` to `float64`, that to
`float32`) and is a sign and a non-empty string of digits with no point, the
number written being within one half of `m * 2^e`.  The milli-value and the
byte-value read are `int64` numbers: the quantity's milli-value and value,
rounded up, whenever these fit. -/
theorem C13_targets (lib : Int64Readings) (cap : capacity) (f : GoFloat) :
    (Quantity.fitsInt64 (cap.CPU.MilliValue lib) = true ∧
        Quantity.fitsInt64 (cap.Memory.Value lib) = true ∧
        (Quantity.fitsInt64 (Quantity.roundUpDiv cap.CPU.nano 1000000) = true →
          cap.CPU.MilliValue lib = Quantity.roundUpDiv cap.CPU.nano 1000000) ∧
        (Quantity.fitsInt64 (Quantity.roundUpDiv cap.Memory.nano 1000000000) = true →
          cap.Memory.Value lib = Quantity.roundUpDiv cap.Memory.nano 1000000000)) ∧
      (∀ (neg : Bool) (m : Nat) (e : Int),
        toFloat32 (div64 (mul64 (ofInt64 (cap.CPU.MilliValue lib)) f) (ofInt64 1000)) =
            GoFloat.fin neg m e →
          RoundsTo binary64 ((cap.CPU.MilliValue lib : Int) : ℚ)
              (ofInt64 (cap.CPU.MilliValue lib)) ∧
            RoundsTo binary64 ((ofInt64 (cap.CPU.MilliValue lib)).toRat * f.toRat)
              (mul64 (ofInt64 (cap.CPU.MilliValue lib)) f) ∧
            RoundsTo binary64 ((mul64 (ofInt64 (cap.CPU.MilliValue lib)) f).toRat / 1000)
              (div64 (mul64 (ofInt64 (cap.CPU.MilliValue lib)) f) (ofInt64 1000)) ∧
            RoundsTo binary32
              (div64 (mul64 (ofInt64 (cap.CPU.MilliValue lib)) f) (ofInt64 1000)).toRat
              (GoFloat.fin neg m e) ∧
            ∃ (N : Nat) (ip frac : List Char),
              cpuTarget lib cap f =
                  String.mk ((if neg then ['-'] else []) ++ ip ++ '.' :: frac) ∧
                ip ≠ [] ∧ frac.length = 3 ∧ (∀ c ∈ ip ++ frac, c.isDigit = true) ∧
                digitsValue ip * 10 ^ 3 + digitsValue frac = N ∧
                |(N : ℚ) - (m : ℚ) * (2 : ℚ) ^ e * (10 : ℚ) ^ 3| ≤ 1 / 2) ∧
      (∀ (neg : Bool) (m : Nat) (e : Int),
        toFloat32 (mul64 (ofInt64 (cap.Memory.Value lib)) f) = GoFloat.fin neg m e →
          RoundsTo binary64 ((cap.Memory.Value lib : Int) : ℚ)
              (ofInt64 (cap.Memory.Value lib)) ∧
            RoundsTo binary64 ((ofInt64 (cap.Memory.Value lib)).toRat * f.toRat)
              (mul64 (ofInt64 (cap.Memory.Value lib)) f) ∧
            RoundsTo binary32 (mul64 (ofInt64 (cap.Memory.Value lib)) f).toRat
              (GoFloat.fin neg m e) ∧
            ∃ (N : Nat) (ip : List Char),
              memTarget lib cap f = String.mk ((if neg then ['-'] else []) ++ ip) ∧
                ip ≠ [] ∧ (∀ c ∈ ip, c.isDigit = true) ∧ digitsValue ip = N ∧
                |(N : ℚ) - (m : ℚ) * (2 : ℚ) ^ e| ≤ 1 / 2) := by
  refine ⟨⟨MilliValue_fits lib cap.CPU, Value_fits lib cap.Memory, ?_, ?_⟩, ?_, ?_⟩
  · intro hf
    unfold Quantity.MilliValue
    simp only [hf, if_true]
  · intro hf
    unfold Quantity.Value
    simp only [hf, if_true]
  · intro neg m e h
    obtain ⟨r4, n2, m2, e2, hc⟩ := toFloat32_rounds _ neg m e h
    rw [h] at r4
    have h1000 : ofInt64 1000 = GoFloat.fin false 1000 0 := by decide
    have hc2 := hc
    rw [h1000] at hc2
    obtain ⟨r3, n1, m1, e1, hb⟩ := div64_rounds _ false 1000 0 (by decide) n2 m2 e2 hc2
    have hv : (GoFloat.fin false 1000 0).toRat = 1000 := by
      simp [GoFloat.toRat]
    rw [hv, ← h1000] at r3
    obtain ⟨r2, ⟨n0, m0, e0, ha⟩, _⟩ := mul64_rounds _ _ n1 m1 e1 hb
    have r1 := ofInt64_rounds _ n0 m0 e0 ha
    refine ⟨r1, r2, r3, r4, ?_⟩
    obtain ⟨ip, frac, h1, h2, h3, h4, h5⟩ :=
      fixedPoint_shape neg (roundDecimal m e 3) 3 (by decide)
    refine ⟨roundDecimal m e 3, ip, frac, ?_, h2, h3, h4, h5, roundDecimal_bound m e 3⟩
    unfold cpuTarget FormatFloat32
    rw [h, formatFixed_fin, h1]
  · intro neg m e h
    obtain ⟨r3, n1, m1, e1, hb⟩ := toFloat32_rounds _ neg m e h
    rw [h] at r3
    obtain ⟨r2, ⟨n0, m0, e0, ha⟩, _⟩ := mul64_rounds _ _ n1 m1 e1 hb
    have r1 := ofInt64_rounds _ n0 m0 e0 ha
    refine ⟨r1, r2, r3, ?_⟩
    obtain ⟨ip, h1, h2, h3, h4⟩ := fixedPoint_zero neg (roundDecimal m e 0)
    refine ⟨roundDecimal m e 0, ip, ?_, h2, h3, h4, ?_⟩
    · unfold memTarget FormatFloat32
      rw [h, formatFixed_fin, h1]
    · have hb := roundDecimal_bound m e 0
      simpa using hb

set_option maxRecDepth 100000 in
theorem C13_targets_witness :
    (toFloat32 (div64 (mul64 (ofInt64 (capWeb.CPU.MilliValue lowBits)) factor12) (ofInt64 1000)) =
          GoFloat.fin false 10066330 (-24) ∧
        cpuTarget lowBits capWeb factor12 = "0.600" ∧
        toFloat32 (mul64 (ofInt64 (capMem1Gi.Memory.Value lowBits)) factor12) =
          GoFloat.fin false 10066330 7 ∧
        Quantity.fitsInt64 (Quantity.roundUpDiv capWeb.CPU.nano 1000000) = true ∧
        Quantity.fitsInt64 (Quantity.roundUpDiv capMem1Gi.Memory.nano 1000000000) = true) ∧
      (capWeb.CPU.MilliValue lowBits = Quantity.roundUpDiv capWeb.CPU.nano 1000000 ∧
        capMem1Gi.Memory.Value lowBits =
          Quantity.roundUpDiv capMem1Gi.Memory.nano 1000000000) ∧
      (RoundsTo binary64 ((capWeb.CPU.MilliValue lowBits : Int) : ℚ)
          (ofInt64 (capWeb.CPU.MilliValue lowBits)) ∧
        RoundsTo binary64 ((ofInt64 (capWeb.CPU.MilliValue lowBits)).toRat * factor12.toRat)
          (mul64 (ofInt64 (capWeb.CPU.MilliValue lowBits)) factor12) ∧
        RoundsTo binary64 ((mul64 (ofInt64 (capWeb.CPU.MilliValue lowBits)) factor12).toRat / 1000)
          (div64 (mul64 (ofInt64 (capWeb.CPU.MilliValue lowBits)) factor12) (ofInt64 1000)) ∧
        RoundsTo binary32
          (div64 (mul64 (ofInt64 (capWeb.CPU.MilliValue lowBits)) factor12) (ofInt64 1000)).toRat
          (GoFloat.fin false 10066330 (-24)) ∧
        ∃ (N : Nat) (ip frac : List Char),
          cpuTarget lowBits capWeb factor12 =
              String.mk ((if false then ['-'] else []) ++ ip ++ '.' :: frac) ∧
            ip ≠ [] ∧ frac.length = 3 ∧ (∀ c ∈ ip ++ frac, c.isDigit = true) ∧
            digitsValue ip * 10 ^ 3 + digitsValue frac = N ∧
            |(N : ℚ) - ((10066330 : Nat) : ℚ) * (2 : ℚ) ^ (-24 : Int) * (10 : ℚ) ^ 3| ≤ 1 / 2) ∧
      (RoundsTo binary64 ((capMem1Gi.Memory.Value lowBits : Int) : ℚ)
          (ofInt64 (capMem1Gi.Memory.Value lowBits)) ∧
        RoundsTo binary64 ((ofInt64 (capMem1Gi.Memory.Value lowBits)).toRat * factor12.toRat)
          (mul64 (ofInt64 (capMem1Gi.Memory.Value lowBits)) factor12) ∧
        RoundsTo binary32 (mul64 (ofInt64 (capMem1Gi.Memory.Value lowBits)) factor12).toRat
          (GoFloat.fin false 10066330 7) ∧
        ∃ (N : Nat) (ip : List Char),
          memTarget lowBits capMem1Gi factor12 = String.mk ((if false then ['-'] else []) ++ ip) ∧
            ip ≠ [] ∧ (∀ c ∈ ip, c.isDigit = true) ∧ digitsValue ip = N ∧
            |(N : ℚ) - ((10066330 : Nat) : ℚ) * (2 : ℚ) ^ (7 : Int)| ≤ 1 / 2) :=
  ⟨⟨by decide, by decide, by decide, by decide, by decide⟩,
    ⟨(C13_targets lowBits capWeb factor12).1.2.2.1 (by decide),
      (C13_targets lowBits capMem1Gi factor12).1.2.2.2 (by decide)⟩,
    (C13_targets lowBits capWeb factor12).2.1 false 10066330 (-24) (by decide),
    (C13_targets lowBits capMem1Gi factor12).2.2 false 10066330 7 (by decide)⟩

/-! ## The claim on the content of a block -/

theorem infix_pair_append (c : Char) (a b : List Char) (h : [c, c] <:+: a ++ b) :
    [c, c] <:+: a ∨ [c, c] <:+: b ∨ (a.getLast? = some c ∧ b.head? = some c) := by
  obtain ⟨s, t, hst⟩ := h
  have h2 : s ++ ([c, c] ++ t) = a ++ b := by simpa using hst
  rcases List.append_eq_append_iff.1 h2 with ⟨a', ha, hb⟩ | ⟨c', hs, hc⟩
  · -- a = s ++ a', [c,c] ++ t = a' ++ b
    cases a' with
    | nil =>
      right; left
      simp only [List.nil_append] at hb
      exact ⟨[], t, by simpa using hb⟩
    | cons x xs =>
      cases xs with
      | nil =>
        right; right
        simp only [List.cons_append, List.nil_append, List.cons.injEq] at hb
        obtain ⟨hx, hb'⟩ := hb
        subst hx
        refine ⟨?_, ?_⟩
        · rw [ha]; simp
        · rw [← hb']; rfl
      | cons y ys =>
        left
        simp only [List.cons_append, List.cons.injEq] at hb
        obtain ⟨hx, hy, _⟩ := hb
        subst hx; subst hy
        exact ⟨s, ys, by rw [ha]; simp⟩
  · right; left
    exact ⟨c', t, by rw [hc]; simp⟩

theorem lit_step (x l : String) (hx : noDelims x) (hl : safeLiteral l) : closedText (x ++ l) := by
  obtain ⟨⟨hl1, hl2⟩, hne, hh1, hh2, hg1, hg2⟩ := hl
  have hlne : l.data ≠ [] := by
    intro h
    rw [h] at hne
    exact hne rfl
  have hlast : (x ++ l).data.getLast? = l.data.getLast? := by
    rw [String.data_append, List.getLast?_append_of_ne_nil _ hlne]
  refine ⟨⟨?_, ?_⟩, ?_, ?_⟩
  · intro h
    rw [String.data_append] at h
    rcases infix_pair_append _ _ _ h with h | h | h
    · exact hx.1 h
    · exact hl1 h
    · exact hh1 h.2
  · intro h
    rw [String.data_append] at h
    rcases infix_pair_append _ _ _ h with h | h | h
    · exact hx.2 h
    · exact hl2 h
    · exact hh2 h.2
  · rw [hlast]; exact hg1
  · rw [hlast]; exact hg2

theorem field_step (x f : String) (hx : closedText x) (hf : noDelims f) : noDelims (x ++ f) := by
  obtain ⟨⟨hx1, hx2⟩, hg1, hg2⟩ := hx
  refine ⟨?_, ?_⟩
  · intro h
    rw [String.data_append] at h
    rcases infix_pair_append _ _ _ h with h | h | h
    · exact hx1 h
    · exact hf.1 h
    · exact hg1 h.1
  · intro h
    rw [String.data_append] at h
    rcases infix_pair_append _ _ _ h with h | h | h
    · exact hx2 h
    · exact hf.2 h
    · exact hg2 h.1

theorem lit_base (l : String) (hl : safeLiteral l) : closedText l :=
  ⟨hl.1, hl.2.2.2.2.1, hl.2.2.2.2.2⟩

set_option maxRecDepth 100000 in
theorem cpuBlock_noDelims (c : content) (hns : noDelims c.Namespace) (hpod : noDelims c.PodName)
    (hcont : noDelims c.Container) (hid : noDelims c.ID) (htarget : noDelims c.Target)
    (hsev : noDelims c.Severity) : noDelims (cpuBlock c) := by
  unfold cpuBlock
  have h0 := lit_base "\nALERT CPUUsageHigh\n    IF sum(rate(container_cpu_usage_seconds_total\x7bid=\"" (by decide)
  have h1 := field_step _ c.ID h0 hid
  have h2 := lit_step _ "\"\x7d[5m])) > " h1 (by decide)
  have h3 := field_step _ c.Target h2 htarget
  have h4 := lit_step _ "\n    FOR 5m\n    LABELS \x7b severity = \"" h3 (by decide)
  have h5 := field_step _ c.Severity h4 hsev
  have h6 := lit_step _ "\", kubernetes_container_name = \"" h5 (by decide)
  have h7 := field_step _ c.Container h6 hcont
  have h8 := lit_step _ "\", kubernetes_pod_name = \"" h7 (by decide)
  have h9 := field_step _ c.PodName h8 hpod
  have h10 := lit_step _ "\", kubernetes_namespace = \"" h9 (by decide)
  have h11 := field_step _ c.Namespace h10 hns
  have h12 := lit_step _ "\", id = \"" h11 (by decide)
  have h13 := field_step _ c.ID h12 hid
  have h14 := lit_step _ "\"\x7d\n    ANNOTATIONS \x7b\n        summary = \"Container " h13 (by decide)
  have h15 := field_step _ c.Namespace h14 hns
  have h16 := lit_step _ "/" h15 (by decide)
  have h17 := field_step _ c.PodName h16 hpod
  have h18 := lit_step _ "/" h17 (by decide)
  have h19 := field_step _ c.Container h18 hcont
  have h20 := lit_step _ " cpu usage high\",\n        description = \"Container " h19 (by decide)
  have h21 := field_step _ c.Namespace h20 hns
  have h22 := lit_step _ "/" h21 (by decide)
  have h23 := field_step _ c.PodName h22 hpod
  have h24 := lit_step _ "/" h23 (by decide)
  have h25 := field_step _ c.Container h24 hcont
  have h26 := lit_step _ " has high cpu usage of \x7b\x7b $value \x7d\x7d\",\n    \x7d\n" h25 (by decide)
  exact h26.1

set_option maxRecDepth 100000 in
theorem memBlock_noDelims (c : content) (hns : noDelims c.Namespace) (hpod : noDelims c.PodName)
    (hcont : noDelims c.Container) (hid : noDelims c.ID) (htarget : noDelims c.Target)
    (hsev : noDelims c.Severity) : noDelims (memBlock c) := by
  unfold memBlock
  have h0 := lit_base "\nALERT MemoryUsageHigh\n    IF sum(container_memory_usage_bytes\x7bid=\"" (by decide)
  have h1 := field_step _ c.ID h0 hid
  have h2 := lit_step _ "\"\x7d) > " h1 (by decide)
  have h3 := field_step _ c.Target h2 htarget
  have h4 := lit_step _ "\n    FOR 5m\n    LABELS \x7b severity = \"" h3 (by decide)
  have h5 := field_step _ c.Severity h4 hsev
  have h6 := lit_step _ "\", kubernetes_container_name = \"" h5 (by decide)
  have h7 := field_step _ c.Container h6 hcont
  have h8 := lit_step _ "\", kubernetes_pod_name = \"" h7 (by decide)
  have h9 := field_step _ c.PodName h8 hpod
  have h10 := lit_step _ "\", kubernetes_namespace = \"" h9 (by decide)
  have h11 := field_step _ c.Namespace h10 hns
  have h12 := lit_step _ "\", id = \"" h11 (by decide)
  have h13 := field_step _ c.ID h12 hid
  have h14 := lit_step _ "\"\x7d\n    ANNOTATIONS \x7b\n        summary = \"Container " h13 (by decide)
  have h15 := field_step _ c.Namespace h14 hns
  have h16 := lit_step _ "/" h15 (by decide)
  have h17 := field_step _ c.PodName h16 hpod
  have h18 := lit_step _ "/" h17 (by decide)
  have h19 := field_step _ c.Container h18 hcont
  have h20 := lit_step _ " memory usage high\",\n        description = \"Container " h19 (by decide)
  have h21 := field_step _ c.Namespace h20 hns
  have h22 := lit_step _ "/" h21 (by decide)
  have h23 := field_step _ c.PodName h22 hpod
  have h24 := lit_step _ "/" h23 (by decide)
  have h25 := field_step _ c.Container h24 hcont
  have h26 := lit_step _ " has high memory usage of \x7b\x7b $value \x7d\x7d\",\n    \x7d\n" h25 (by decide)
  exact h26.1

theorem cpuBlock_labels (c : content) : ∃ pre post : String, cpuBlock c = pre ++ labelsLine c ++ post := by
  have e1 : ("\n    FOR 5m\n    LABELS \x7b severity = \"" : String) =
      "\n    FOR 5m\n" ++ "    LABELS \x7b severity = \"" := by decide
  have e2 : ("\"\x7d\n    ANNOTATIONS \x7b\n        summary = \"Container " : String) =
      "\"\x7d\n" ++
        "    ANNOTATIONS \x7b\n        summary = \"Container " := by decide
  refine ⟨"\nALERT CPUUsageHigh\n    IF sum(rate(container_cpu_usage_seconds_total\x7bid=\"" ++
        c.ID ++
        "\"\x7d[5m])) > " ++
        c.Target ++
        "\n    FOR 5m\n",
      "    ANNOTATIONS \x7b\n        summary = \"Container " ++
        c.Namespace ++
        "/" ++
        c.PodName ++
        "/" ++
        c.Container ++
        " cpu usage high\",\n        description = \"Container " ++
        c.Namespace ++
        "/" ++
        c.PodName ++
        "/" ++
        c.Container ++
        " has high cpu usage of \x7b\x7b $value \x7d\x7d\",\n    \x7d\n", ?_⟩
  unfold cpuBlock labelsLine
  rw [e1, e2]
  simp only [String.append_assoc]

theorem cpuBlock_value (c : content) :
    ∃ pre post : String, cpuBlock c = pre ++ "\x7b\x7b $value \x7d\x7d" ++ post := by
  have e1 : (" has high cpu usage of \x7b\x7b $value \x7d\x7d\",\n    \x7d\n" : String) =
      " has high cpu usage of " ++ ("\x7b\x7b $value \x7d\x7d" ++ "\",\n    \x7d\n") := by decide
  refine ⟨"\nALERT CPUUsageHigh\n    IF sum(rate(container_cpu_usage_seconds_total\x7bid=\"" ++
        c.ID ++
        "\"\x7d[5m])) > " ++
        c.Target ++
        "\n    FOR 5m\n    LABELS \x7b severity = \"" ++
        c.Severity ++
        "\", kubernetes_container_name = \"" ++
        c.Container ++
        "\", kubernetes_pod_name = \"" ++
        c.PodName ++
        "\", kubernetes_namespace = \"" ++
        c.Namespace ++
        "\", id = \"" ++
        c.ID ++
        "\"\x7d\n    ANNOTATIONS \x7b\n        summary = \"Container " ++
        c.Namespace ++
        "/" ++
        c.PodName ++
        "/" ++
        c.Container ++
        " cpu usage high\",\n        description = \"Container " ++
        c.Namespace ++
        "/" ++
        c.PodName ++
        "/" ++
        c.Container ++
        " has high cpu usage of ",
      "\",\n    \x7d\n", ?_⟩
  unfold cpuBlock
  rw [e1]
  simp only [String.append_assoc]

theorem memBlock_labels (c : content) : ∃ pre post : String, memBlock c = pre ++ labelsLine c ++ post := by
  have e1 : ("\n    FOR 5m\n    LABELS \x7b severity = \"" : String) =
      "\n    FOR 5m\n" ++ "    LABELS \x7b severity = \"" := by decide
  have e2 : ("\"\x7d\n    ANNOTATIONS \x7b\n        summary = \"Container " : String) =
      "\"\x7d\n" ++
        "    ANNOTATIONS \x7b\n        summary = \"Container " := by decide
  refine ⟨"\nALERT MemoryUsageHigh\n    IF sum(container_memory_usage_bytes\x7bid=\"" ++
        c.ID ++
        "\"\x7d) > " ++
        c.Target ++
        "\n    FOR 5m\n",
      "    ANNOTATIONS \x7b\n        summary = \"Container " ++
        c.Namespace ++
        "/" ++
        c.PodName ++
        "/" ++
        c.Container ++
        " memory usage high\",\n        description = \"Container " ++
        c.Namespace ++
        "/" ++
        c.PodName ++
        "/" ++
        c.Container ++
        " has high memory usage of \x7b\x7b $value \x7d\x7d\",\n    \x7d\n", ?_⟩
  unfold memBlock labelsLine
  rw [e1, e2]
  simp only [String.append_assoc]

theorem memBlock_value (c : content) :
    ∃ pre post : String, memBlock c = pre ++ "\x7b\x7b $value \x7d\x7d" ++ post := by
  have e1 : (" has high memory usage of \x7b\x7b $value \x7d\x7d\",\n    \x7d\n" : String) =
      " has high memory usage of " ++ ("\x7b\x7b $value \x7d\x7d" ++ "\",\n    \x7d\n") := by decide
  refine ⟨"\nALERT MemoryUsageHigh\n    IF sum(container_memory_usage_bytes\x7bid=\"" ++
        c.ID ++
        "\"\x7d) > " ++
        c.Target ++
        "\n    FOR 5m\n    LABELS \x7b severity = \"" ++
        c.Severity ++
        "\", kubernetes_container_name = \"" ++
        c.Container ++
        "\", kubernetes_pod_name = \"" ++
        c.PodName ++
        "\", kubernetes_namespace = \"" ++
        c.Namespace ++
        "\", id = \"" ++
        c.ID ++
        "\"\x7d\n    ANNOTATIONS \x7b\n        summary = \"Container " ++
        c.Namespace ++
        "/" ++
        c.PodName ++
        "/" ++
        c.Container ++
        " memory usage high\",\n        description = \"Container " ++
        c.Namespace ++
        "/" ++
        c.PodName ++
        "/" ++
        c.Container ++
        " has high memory usage of ",
      "\",\n    \x7d\n", ?_⟩
  unfold memBlock
  rw [e1]
  simp only [String.append_assoc]

theorem no_pair_of_forall_ne (x : Char) (l : List Char) (h : ∀ c ∈ l, c ≠ x) :
    ¬ ([x, x] <:+: l) := by
  rintro ⟨s, t, e⟩
  exact h x (by rw [← e]; simp) rfl

theorem noDelims_of_chars (s : String) (h : ∀ c ∈ s.data, c ≠ '[' ∧ c ≠ ']') : noDelims s :=
  ⟨no_pair_of_forall_ne _ _ (fun c hc => (h c hc).1),
    no_pair_of_forall_ne _ _ (fun c hc => (h c hc).2)⟩

theorem digit_not_bracket (c : Char) (h : c.isDigit = true) : c ≠ '[' ∧ c ≠ ']' := by
  constructor
  · rintro rfl
    exact absurd h (by decide)
  · rintro rfl
    exact absurd h (by decide)

theorem fixedPoint_noDelims (neg : Bool) (n prec : Nat) : noDelims (fixedPoint neg n prec) := by
  apply noDelims_of_chars
  have hsign : ∀ c ∈ (if neg then ['-'] else [] : List Char), c ≠ '[' ∧ c ≠ ']' := by
    intro c hc
    cases neg
    · simp at hc
    · simp only [if_true, List.mem_singleton] at hc
      rw [hc]
      decide
  by_cases hp : prec = 0
  · subst hp
    obtain ⟨ip, h1, _, h3, _⟩ := fixedPoint_zero neg n
    rw [h1]
    intro c hc
    rw [List.mem_append] at hc
    rcases hc with hc | hc
    · exact hsign c hc
    · exact digit_not_bracket c (h3 c hc)
  · obtain ⟨ip, frac, h1, _, _, h4, _⟩ := fixedPoint_shape neg n prec (Nat.pos_of_ne_zero hp)
    rw [h1]
    intro c hc
    simp only [List.mem_append, List.mem_cons] at hc
    rcases hc with (hc | hc) | hc | hc
    · exact hsign c hc
    · exact digit_not_bracket c (h4 c (List.mem_append_left _ hc))
    · rw [hc]
      decide
    · exact digit_not_bracket c (h4 c (List.mem_append_right _ hc))

theorem formatFixed_noDelims (prec : Nat) (x : GoFloat) : noDelims (formatFixed prec x) := by
  cases x with
  | nan =>
    have h : formatFixed prec GoFloat.nan = "NaN" := rfl
    rw [h]
    decide
  | inf neg =>
    cases neg
    · have h : formatFixed prec (GoFloat.inf false) = "+Inf" := rfl
      rw [h]
      decide
    · have h : formatFixed prec (GoFloat.inf true) = "-Inf" := rfl
      rw [h]
      decide
  | fin neg m e =>
    rw [formatFixed_fin]
    exact fixedPoint_noDelims _ _ _

theorem cpuTarget_noDelims (lib : Int64Readings) (cap : capacity) (f : GoFloat) : noDelims (cpuTarget lib cap f) :=
  formatFixed_noDelims _ _

theorem memTarget_noDelims (lib : Int64Readings) (cap : capacity) (f : GoFloat) : noDelims (memTarget lib cap f) :=
  formatFixed_noDelims _ _

theorem string_empty_append (s : String) : "" ++ s = s := by
  apply String.ext
  rw [String.data_append]
  rfl

theorem Execute_cpuTmpl_empty (c : content) : Execute cpuTmpl "" c = cpuBlock c := by
  rw [Execute_cpuTmpl, string_empty_append]

theorem Execute_memTmpl_empty (c : content) : Execute memTmpl "" c = memBlock c := by
  rw [Execute_memTmpl, string_empty_append]

theorem recordBlocks_mem (ns name : String) (lib : Int64Readings) (wf cf : GoFloat) (e : String × capacity)
    (b : String) (hb : b ∈ recordBlocks ns name lib wf cf e) :
    ∃ c : content, c.Namespace = ns ∧ c.PodName = name ∧ c.Container = e.1 ∧ c.ID = e.2.ID ∧
      (c.Severity = "warning" ∨ c.Severity = "critical") ∧ noDelims c.Target ∧
      (b = cpuBlock c ∨ b = memBlock c) := by
  unfold recordBlocks at hb
  split at hb
  · rw [List.mem_append] at hb
    rcases hb with hb | hb
    · split at hb
      · simp at hb
      · simp only [List.mem_cons, List.mem_singleton, List.not_mem_nil, or_false] at hb
        rcases hb with rfl | rfl
        · exact ⟨_, rfl, rfl, rfl, rfl, Or.inl rfl, cpuTarget_noDelims _ _ _, Or.inl rfl⟩
        · exact ⟨_, rfl, rfl, rfl, rfl, Or.inr rfl, cpuTarget_noDelims _ _ _, Or.inl rfl⟩
    · split at hb
      · simp at hb
      · simp only [List.mem_cons, List.mem_singleton, List.not_mem_nil, or_false] at hb
        rcases hb with rfl | rfl
        · exact ⟨_, rfl, rfl, rfl, rfl, Or.inl rfl, memTarget_noDelims _ _ _, Or.inr rfl⟩
        · exact ⟨_, rfl, rfl, rfl, rfl, Or.inr rfl, memTarget_noDelims _ _ _, Or.inr rfl⟩
  · simp at hb

/-- C14: the text of `GenerateAlertRule` is the rule blocks of the records of the
workload's table, written one after the other (the loop body `renderEntry`
appends the blocks of its record to the writer), and every one of these blocks
is a template rendered for the record's namespace, pod name, container name and
runtime identifier and the severity `warning` or `critical`; it contains the
literal text `{{ $value }}` verbatim and the `LABELS` line with the severity,
container name, pod name, namespace and runtime identifier; and when the
namespace, pod name, container name and runtime identifier contain neither
`[[` nor `]]`, the block contains no `[[` and no `]]` at all. -/
theorem C14_block_content (p : podStore) (lib : Int64Readings) (wf cf : GoFloat) (pod : Pod) :
    (GenerateAlertRule p lib wf cf pod).2 =
        writeAll ((tableEntries p (podKey pod)).flatMap
          (recordBlocks pod.Namespace pod.Name lib wf cf)) ∧
      (∀ (w : String) (e : String × capacity),
        renderEntry pod.Namespace pod.Name lib wf cf w e =
          (recordBlocks pod.Namespace pod.Name lib wf cf e).foldl (fun w b => w ++ b) w) ∧
      ∀ e ∈ tableEntries p (podKey pod),
        ∀ b ∈ recordBlocks pod.Namespace pod.Name lib wf cf e,
          ∃ c : content, c.Namespace = pod.Namespace ∧ c.PodName = pod.Name ∧
            c.Container = e.1 ∧ c.ID = e.2.ID ∧
            (c.Severity = "warning" ∨ c.Severity = "critical") ∧
            (b = Execute cpuTmpl "" c ∨ b = Execute memTmpl "" c) ∧
            (∃ pre post : String, b = pre ++ "\x7b\x7b $value \x7d\x7d" ++ post) ∧
            (∃ pre post : String, b = pre ++ labelsLine c ++ post) ∧
            (noDelims pod.Namespace → noDelims pod.Name → noDelims e.1 → noDelims e.2.ID →
              noDelims b) := by
  refine ⟨GenerateAlertRule_text p lib wf cf pod,
    fun w e => renderEntry_eq pod.Namespace pod.Name lib wf cf w e, ?_⟩
  intro e _ b hb
  obtain ⟨c, h1, h2, h3, h4, h5, h6, h7⟩ :=
    recordBlocks_mem pod.Namespace pod.Name lib wf cf e b hb
  have hsev : noDelims c.Severity := by
    rcases h5 with h | h <;> rw [h] <;> decide
  refine ⟨c, h1, h2, h3, h4, h5, ?_, ?_⟩
  · rw [Execute_cpuTmpl_empty, Execute_memTmpl_empty]
    exact h7
  · rcases h7 with h | h
    · rw [h]
      exact ⟨cpuBlock_value c, cpuBlock_labels c, fun hns hname hcont hid =>
        cpuBlock_noDelims c (h1 ▸ hns) (h2 ▸ hname) (h3 ▸ hcont) (h4 ▸ hid) h6 hsev⟩
    · rw [h]
      exact ⟨memBlock_value c, memBlock_labels c, fun hns hname hcont hid =>
        memBlock_noDelims c (h1 ▸ hns) (h2 ▸ hname) (h3 ▸ hcont) (h4 ▸ hid) h6 hsev⟩

set_option maxRecDepth 100000 in
theorem C14_block_content_witness :
    (("web", capWeb) ∈ tableEntries storeWeb (podKey podWeb) ∧
        cpuBlock contentWeb ∈
          recordBlocks podWeb.Namespace podWeb.Name lowBits factor12 factor20 ("web", capWeb) ∧
        noDelims podWeb.Namespace ∧ noDelims podWeb.Name ∧ noDelims "web" ∧
        noDelims capWeb.ID) ∧
      (GenerateAlertRule storeWeb lowBits factor12 factor20 podWeb).2 =
        writeAll ((tableEntries storeWeb (podKey podWeb)).flatMap
          (recordBlocks podWeb.Namespace podWeb.Name lowBits factor12 factor20)) ∧
      ∃ c : content, c.Namespace = podWeb.Namespace ∧ c.PodName = podWeb.Name ∧
        c.Container = "web" ∧ c.ID = capWeb.ID ∧
        (c.Severity = "warning" ∨ c.Severity = "critical") ∧
        (cpuBlock contentWeb = Execute cpuTmpl "" c ∨
          cpuBlock contentWeb = Execute memTmpl "" c) ∧
        (∃ pre post : String,
          cpuBlock contentWeb = pre ++ "\x7b\x7b $value \x7d\x7d" ++ post) ∧
        (∃ pre post : String, cpuBlock contentWeb = pre ++ labelsLine c ++ post) ∧
        (noDelims podWeb.Namespace → noDelims podWeb.Name → noDelims "web" →
          noDelims capWeb.ID → noDelims (cpuBlock contentWeb)) :=
  ⟨⟨by decide, by decide, by decide, by decide, by decide, by decide⟩,
    (C14_block_content storeWeb lowBits factor12 factor20 podWeb).1,
    (C14_block_content storeWeb lowBits factor12 factor20 podWeb).2.2 ("web", capWeb)
      (by decide) (cpuBlock contentWeb) (by decide)⟩

end AlertDiscovery
